import Mathlib

/-!
# API Status Dashboard (`script.js`): catalog normalisation, probing and saving

A shallow embedding of the core of `script.js`.  JavaScript values that reach the
program from `JSON.parse` are modelled by the tree type `JsVal`; the in-place
mutations of `normalizeData` and `checkOneEnvStatus` are modelled by returning the
updated value (a parsed JSON document is a tree, so no two paths alias one
object).  A thrown exception is modelled by `Except.error`.
-/

namespace StatusDashboard

/-! ## JavaScript values -/

/-- A thrown JavaScript error object: its `name` and `message` properties. -/
structure JsError where
  name : String
  message : String
  deriving DecidableEq, Repr

/-- The `TypeError` the engine raises on a property access on `null` or on a
property assignment to a primitive in strict mode (message text is engine
specific and left empty). -/
def typeError : JsError := ⟨"TypeError", ""⟩

/-- Values produced by `JSON.parse`, plus arrays carrying extra own properties
(`p.id = ...` on an array entry adds one).  Every JSON number is a rational.
`undefined` is never stored: a missing property reads as `none`. -/
inductive JsVal where
  | null
  | bool (b : Bool)
  | num (q : ℚ)
  | str (s : String)
  | arr (items : List JsVal) (props : List (String × JsVal))
  | obj (props : List (String × JsVal))

/-- Own-property lookup in insertion order. -/
def lookupProp (k : String) : List (String × JsVal) → Option JsVal
  | [] => none
  | (k', v) :: rest => if k' = k then some v else lookupProp k rest

/-- Own-property assignment: an existing key keeps its place, a new key is
appended. -/
def assignProp (k : String) (v : JsVal) : List (String × JsVal) → List (String × JsVal)
  | [] => [(k, v)]
  | (k', v') :: rest =>
    if k' = k then (k', v) :: rest else (k', v') :: assignProp k v rest

/-- The read `x.k` for the property names the program uses (`projects`, `id`,
`name`, `environments`, `url`, `lastStatus`): `null.k` throws, a primitive has
no such property, an array or object answers from its own properties. -/
def getProp (x : JsVal) (k : String) : Except JsError (Option JsVal) :=
  match x with
  | .null => .error typeError
  | .bool _ => .ok none
  | .num _ => .ok none
  | .str _ => .ok none
  | .arr _ ps => .ok (lookupProp k ps)
  | .obj ps => .ok (lookupProp k ps)

/-- The strict-mode write `x.k = v` for the same property names: it throws on
`null` and on every primitive, and updates an array or object. -/
def setProp (x : JsVal) (k : String) (v : JsVal) : Except JsError JsVal :=
  match x with
  | .null => .error typeError
  | .bool _ => .error typeError
  | .num _ => .error typeError
  | .str _ => .error typeError
  | .arr items ps => .ok (.arr items (assignProp k v ps))
  | .obj ps => .ok (.obj (assignProp k v ps))

/-- JavaScript truthiness (`ToBoolean`). -/
def truthy : JsVal → Bool
  | .null => false
  | .bool b => b
  | .num q => decide (q ≠ 0)
  | .str s => decide (s ≠ "")
  | .arr _ _ => true
  | .obj _ => true

/-- Truthiness of a property read, `undefined` being falsy. -/
def truthyOpt : Option JsVal → Bool
  | none => false
  | some v => truthy v

/-- The operator `a || b` where `a` is a property read. -/
def jsOr (a : Option JsVal) (b : JsVal) : JsVal :=
  match a with
  | some v => if truthy v then v else b
  | none => b

/-! ## Utilities -/

/-- The platform services the program calls.  `random k` is the text
`Math.random().toString(36).slice(2, 9)` of the `k`-th call; `newURL v` is
`new URL(v).toString()`, `none` when the constructor throws; `stringify v n` is
`JSON.stringify(v, null, n)`; `jsonParse` is `JSON.parse`, `none` when it
throws. -/
structure Platform where
  random : Nat → String
  newURL : JsVal → Option String
  stringify : JsVal → Nat → String
  jsonParse : String → Option JsVal

/-- The function `uid(prefix)`, drawing the `k`-th random suffix. -/
def uid (P : Platform) (pfx : String) (k : Nat) : String :=
  pfx ++ "_" ++ P.random k

/-! ## normalizeData -/

/-- The status `normalizeData` assigns when `e.lastStatus` is falsy. -/
def defaultStatus : JsVal :=
  .obj [("state", .str "unknown"), ("httpStatus", .null),
        ("checkedAt", .null), ("detail", .null)]

/-- The statement `x.id = x.id || uid(pfx)`; the counter advances only when `uid` is called. -/
def assignId (P : Platform) (pfx : String) (k : Nat) (x : JsVal) :
    Except JsError (JsVal × Nat) :=
  match getProp x "id" with
  | .error err => .error err
  | .ok cur =>
    match setProp x "id" (jsOr cur (.str (uid P pfx k))) with
    | .error err => .error err
    | .ok x' => .ok (x', if truthyOpt cur then k else k + 1)

/-- The statement `x.k = x.k || dflt`. -/
def assignDefault (x : JsVal) (k : String) (dflt : JsVal) : Except JsError JsVal :=
  match getProp x k with
  | .error err => .error err
  | .ok cur => setProp x k (jsOr cur dflt)

/-- The body of the inner `forEach` callback of `normalizeData`. -/
def normalizeEnv (P : Platform) (k : Nat) (e : JsVal) : Except JsError (JsVal × Nat) :=
  match assignId P "e" k e with
  | .error err => .error err
  | .ok (e1, k1) =>
    match assignDefault e1 "name" (.str "Environment") with
    | .error err => .error err
    | .ok e2 =>
      match assignDefault e2 "url" (.str "") with
      | .error err => .error err
      | .ok e3 =>
        match assignDefault e3 "lastStatus" defaultStatus with
        | .error err => .error err
        | .ok e4 => .ok (e4, k1)

/-- A `forEach` whose callback updates the entry and threads the `uid` counter;
the first throw ends the loop. -/
def forEachM (f : Nat → JsVal → Except JsError (JsVal × Nat)) :
    List JsVal → Nat → Except JsError (List JsVal × Nat)
  | [], k => .ok ([], k)
  | x :: xs, k =>
    match f k x with
    | .error err => .error err
    | .ok (x', k1) =>
      match forEachM f xs k1 with
      | .error err => .error err
      | .ok (xs', k2) => .ok (x' :: xs', k2)

/-- The expression `Array.isArray(v) ? v : []` for a property read `v`. -/
def arrayOrEmpty : Option JsVal → List JsVal × List (String × JsVal)
  | some (.arr items ps) => (items, ps)
  | _ => ([], [])

/-- The body of the outer `forEach` callback of `normalizeData`. -/
def normalizeProject (P : Platform) (k : Nat) (p : JsVal) : Except JsError (JsVal × Nat) :=
  match assignId P "p" k p with
  | .error err => .error err
  | .ok (p1, k1) =>
    match assignDefault p1 "name" (.str "Untitled Project") with
    | .error err => .error err
    | .ok p2 =>
      match getProp p2 "environments" with
      | .error err => .error err
      | .ok envs =>
        match forEachM (normalizeEnv P) (arrayOrEmpty envs).1 k1 with
        | .error err => .error err
        | .ok (envs', k2) =>
          match setProp p2 "environments" (.arr envs' (arrayOrEmpty envs).2) with
          | .error err => .error err
          | .ok p3 => .ok (p3, k2)

/-- The function `normalizeData(json)`: the returned object `d` and the advanced `uid`
counter, or the exception thrown. -/
def normalizeData (P : Platform) (k : Nat) (json : JsVal) : Except JsError (JsVal × Nat) :=
  match getProp json "projects" with
  | .error err => .error err
  | .ok ps =>
    match forEachM (normalizeProject P) (arrayOrEmpty ps).1 k with
    | .error err => .error err
    | .ok (ps', k') => .ok (.obj [("projects", .arr ps' (arrayOrEmpty ps).2)], k')

/-! ## Shapes of inputs and results -/

/-- Arrays and objects: the values on which property assignment succeeds. -/
def isObjLike : JsVal → Bool
  | .arr _ _ => true
  | .obj _ => true
  | _ => false

/-- The own named properties of a value (none for `null` and primitives). -/
def propsOf : JsVal → List (String × JsVal)
  | .arr _ ps => ps
  | .obj ps => ps
  | _ => []

/-- The same array or object with its named properties replaced. -/
def withProps (x : JsVal) (ps : List (String × JsVal)) : JsVal :=
  match x with
  | .arr items _ => .arr items ps
  | .obj _ => .obj ps
  | v => v

/-- The entries `forEach` visits for `Array.isArray(x.k) ? x.k : []`. -/
def entriesOf (x : JsVal) (k : String) : List JsVal :=
  (arrayOrEmpty (lookupProp k (propsOf x))).1

/-- A project entry on which the outer callback does not throw. -/
def projectShape (p : JsVal) : Bool :=
  isObjLike p && (entriesOf p "environments").all isObjLike

/-- The inputs on which `normalizeData` does not throw: not `null`, every entry
of `projects` an array or object, and so every entry of its `environments`. -/
def inputShape (raw : JsVal) : Bool :=
  (match raw with
   | .null => false
   | _ => true) && (entriesOf raw "projects").all projectShape

/-- Reading `x.k` gives a truthy value. -/
def hasTruthy (x : JsVal) (k : String) : Bool :=
  match getProp x k with
  | .ok (some v) => truthy v
  | _ => false

/-- Reading `x.k` gives a string or some other truthy value (what
`e.url || ""` leaves). -/
def hasUrl (x : JsVal) : Bool :=
  match getProp x "url" with
  | .ok (some (.str _)) => true
  | .ok (some v) => truthy v
  | _ => false

/-- An environment as `normalizeData` leaves it. -/
def envRepaired (e : JsVal) : Bool :=
  isObjLike e && hasTruthy e "id" && hasTruthy e "name" && hasUrl e &&
    hasTruthy e "lastStatus"

/-- A project as `normalizeData` leaves it. -/
def projectRepaired (p : JsVal) : Bool :=
  isObjLike p && hasTruthy p "id" && hasTruthy p "name" &&
    (match getProp p "environments" with
     | .ok (some (.arr es _)) => es.all envRepaired
     | _ => false)

/-- A catalog as `normalizeData` leaves it: an object whose only property
`projects` is an array of repaired projects. -/
def catalogRepaired (d : JsVal) : Bool :=
  match d with
  | .obj [(key, .arr ps _)] => decide (key = "projects") && ps.all projectRepaired
  | _ => false

/-- The base-36 digit of a number below 36: `0` to `9`, then `a` to `z`. -/
def digit36 (n : Nat) : Char :=
  Char.ofNat (if n < 10 then 48 + n else 87 + n)

/-- A platform for concrete evaluations: the seven base-36 digits of `k` for the
`k`-th random draw (a suffix as `slice(2, 9)` cuts it), `new URL` accepting
exactly the strings that start with `http`, a `stringify` that tells a catalog
by its number of projects and the indentation, and a `JSON.parse` that knows the
texts `null` and `{}`. -/
def samplePlatform : Platform where
  random := fun k =>
    String.mk [digit36 (k / 36 ^ 6 % 36), digit36 (k / 36 ^ 5 % 36), digit36 (k / 36 ^ 4 % 36),
      digit36 (k / 36 ^ 3 % 36), digit36 (k / 36 ^ 2 % 36), digit36 (k / 36 % 36),
      digit36 (k % 36)]
  newURL := fun v =>
    match v with
    | .str s => if s.toList.take 4 = ['h', 't', 't', 'p'] then some s else none
    | _ => none
  stringify := fun v n =>
    match v with
    | .obj [(_, .arr ps _)] => "catalog:" ++ toString ps.length ++ ":" ++ toString n
    | _ => "value:" ++ toString n
  jsonParse := fun t =>
    if t = "null" then some .null
    else if t = "{}" then some (.obj [])
    else none

/-- Closed form of an environment's property list after the inner callback of
`normalizeData` (the four assignments in source order). -/
def repairedEnvProps (P : Platform) (k : Nat) (ps : List (String × JsVal)) :
    List (String × JsVal) :=
  assignProp "lastStatus" (jsOr (lookupProp "lastStatus" ps) defaultStatus)
    (assignProp "url" (jsOr (lookupProp "url" ps) (.str ""))
      (assignProp "name" (jsOr (lookupProp "name" ps) (.str "Environment"))
        (assignProp "id" (jsOr (lookupProp "id" ps) (.str (uid P "e" k))) ps)))

/-- Closed form of a project's property list after the first two assignments of
the outer callback. -/
def namedProjectProps (P : Platform) (k : Nat) (ps : List (String × JsVal)) :
    List (String × JsVal) :=
  assignProp "name" (jsOr (lookupProp "name" ps) (.str "Untitled Project"))
    (assignProp "id" (jsOr (lookupProp "id" ps) (.str (uid P "p" k))) ps)

/-- The counter after `x.id = x.id || uid(..)`. -/
def nextCounter (k : Nat) (ps : List (String × JsVal)) : Nat :=
  if truthyOpt (lookupProp "id" ps) then k else k + 1

/-! ## Serialisation round trip -/

mutual
/-- The value `JSON.parse(JSON.stringify(v))`: named properties of an array are
not serialised, everything else is copied. -/
def jsonClone : JsVal → JsVal
  | .arr items _ => .arr (cloneList items) []
  | .obj ps => .obj (cloneProps ps)
  | .null => .null
  | .bool b => .bool b
  | .num q => .num q
  | .str s => .str s
/-- The array elements copied by `jsonClone`. -/
def cloneList : List JsVal → List JsVal
  | [] => []
  | x :: xs => jsonClone x :: cloneList xs
/-- The object properties copied by `jsonClone`. -/
def cloneProps : List (String × JsVal) → List (String × JsVal)
  | [] => []
  | (k, v) :: rest => (k, jsonClone v) :: cloneProps rest
end

mutual
/-- A plain JSON tree: no array carries named properties. -/
def isJson : JsVal → Bool
  | .arr items ps => isJsonList items && ps.isEmpty
  | .obj ps => isJsonProps ps
  | _ => true
/-- Every element is a plain JSON tree. -/
def isJsonList : List JsVal → Bool
  | [] => true
  | x :: xs => isJson x && isJsonList xs
/-- Every property value is a plain JSON tree. -/
def isJsonProps : List (String × JsVal) → Bool
  | [] => true
  | (_, v) :: rest => isJson v && isJsonProps rest
end

/-- A property read that gives a non-empty string. -/
def isNonEmptyStr : Option JsVal → Bool
  | some (.str s) => decide (s ≠ "")
  | _ => false

/-- A property read that gives a string. -/
def isStr : Option JsVal → Bool
  | some (.str _) => true
  | _ => false

/-- A property read that gives an object. -/
def isObject : Option JsVal → Bool
  | some (.obj _) => true
  | _ => false

/-- A valid Environment: an object with non-empty string `id` and `name`, a
string `url` and a `lastStatus` object. -/
def validEnv (e : JsVal) : Bool :=
  match e with
  | .obj ps =>
    isNonEmptyStr (lookupProp "id" ps) && isNonEmptyStr (lookupProp "name" ps) &&
      isStr (lookupProp "url" ps) && isObject (lookupProp "lastStatus" ps)
  | _ => false

/-- A valid Project: an object with non-empty string `id` and `name` and an
`environments` array of valid Environments. -/
def validProject (p : JsVal) : Bool :=
  match p with
  | .obj ps =>
    isNonEmptyStr (lookupProp "id" ps) && isNonEmptyStr (lookupProp "name" ps) &&
      (match lookupProp "environments" ps with
       | some (.arr es _) => es.all validEnv
       | _ => false)
  | _ => false

/-- A valid Catalog: the plain JSON tree `{projects: [...]}` of valid Projects. -/
def validCatalog (c : JsVal) : Bool :=
  isJson c &&
    (match c with
     | .obj [(key, .arr ps _)] => decide (key = "projects") && ps.all validProject
     | _ => false)

/-- A catalog of two projects, the first with two environments. -/
def sampleCatalog : JsVal :=
  .obj [("projects", .arr [
    .obj [("id", .str "p_a"), ("name", .str "Shop"),
          ("environments", .arr [
            .obj [("id", .str "e_a"), ("name", .str "Prod"),
                  ("url", .str "https://shop.example/health"),
                  ("lastStatus", .obj [("state", .str "up"), ("httpStatus", .num 200),
                    ("checkedAt", .str "2024-01-01T00:00:00.000Z"),
                    ("detail", .str "CORS OK")])],
            .obj [("id", .str "e_b"), ("name", .str "Staging"), ("url", .str ""),
                  ("lastStatus", defaultStatus)]] [])],
    .obj [("id", .str "p_b"), ("name", .str "Blog"), ("environments", .arr [] [])]] [])]

/-! ## Status checks -/

/-- The code points `String.prototype.trim` strips: WhiteSpace and
LineTerminator of ECMAScript. -/
def isJsSpace (c : Char) : Bool :=
  let n := c.toNat
  n = 0x09 || n = 0x0A || n = 0x0B || n = 0x0C || n = 0x0D || n = 0x20 || n = 0xA0 ||
    n = 0x1680 || (0x2000 ≤ n && n ≤ 0x200A) || n = 0x2028 || n = 0x2029 ||
    n = 0x202F || n = 0x205F || n = 0x3000 || n = 0xFEFF

/-- The method `s.trim()`. -/
def jsTrim (s : String) : String :=
  String.mk ((s.toList.dropWhile isJsSpace).reverse.dropWhile isJsSpace).reverse

/-- The function `sanitizeUrl(s)`: the normalised href when `new URL(s)` succeeds, else
`s.trim()`, which is a `TypeError` when `s` is not a string. -/
def sanitizeUrl (P : Platform) (s : JsVal) : Except JsError String :=
  match P.newURL s with
  | some u => .ok u
  | none =>
    match s with
    | .str t => .ok (jsTrim t)
    | _ => .error typeError

/-- The `mode` option of a request. -/
inductive FetchMode where
  | cors
  | noCors
  deriving DecidableEq, Repr

/-- A call of `fetchWithTimeout(url, { method: "GET", mode, cache: "no-store" },
timeoutMs)`. -/
structure Request where
  url : String
  mode : FetchMode
  timeoutMs : Nat
  deriving DecidableEq, Repr

/-- The fields of a `Response` the program reads. -/
structure Response where
  ok : Bool
  status : Nat
  deriving DecidableEq, Repr

/-- A response as the Fetch standard builds it: `ok` exactly for 200 to 299. -/
def Response.ofStatus (s : Nat) : Response :=
  ⟨decide (200 ≤ s) && decide (s ≤ 299), s⟩

/-- The world a probe runs in: `fetch r` is the response of request `r`, `none`
when the promise rejects (network error, CORS rejection, abort on timeout);
`nowIso n` is what `nowIso()` returns once `n` requests have settled. -/
structure World where
  fetch : Request → Option Response
  nowIso : Nat → String

/-- The object literal assigned to `env.lastStatus`. -/
def statusObj (state : String) (httpStatus : JsVal) (checkedAt detail : JsVal) : JsVal :=
  .obj [("state", .str state), ("httpStatus", httpStatus),
        ("checkedAt", checkedAt), ("detail", detail)]

/-- The body of the first `try` of `checkOneEnvStatus`: the transparent request
and the assignment that follows it.  The value a rejected request throws is
never read (`catch` binds nothing), so one fixed error stands for it. -/
def corsAttempt (W : World) (url : String) (env : JsVal) : Except JsError JsVal :=
  match W.fetch ⟨url, .cors, 10000⟩ with
  | none => .error ⟨"TypeError", "Failed to fetch"⟩
  | some res =>
    setProp env "lastStatus"
      (statusObj (if res.ok then "up" else "down") (.num res.status) (.str (W.nowIso 1))
        (.str (if res.ok then "CORS OK" else "HTTP " ++ toString res.status)))

/-- The `catch` of the first `try`: the opaque request, with its own `try` and
`catch`. -/
def opaqueFallback (W : World) (url : String) (env : JsVal) : Except JsError JsVal :=
  let down := setProp env "lastStatus"
    (statusObj "down" .null (.str (W.nowIso 2)) (.str "Network error or blocked"))
  match W.fetch ⟨url, .noCors, min 10000 6000⟩ with
  | none => down
  | some _ =>
    match setProp env "lastStatus"
        (statusObj "opaque" .null (.str (W.nowIso 2))
          (.str "CORS blocked (opaque). Consider enabling CORS or using a proxy.")) with
    | .ok env' => .ok env'
    | .error _ => down

/-- The function `checkOneEnvStatus(env)`: the updated environment and the requests issued, in
order, or the exception the returned promise rejects with. -/
def checkOneEnvStatus (P : Platform) (W : World) (env : JsVal) :
    Except JsError (JsVal × List Request) :=
  match getProp env "url" with
  | .error err => .error err
  | .ok u =>
    match sanitizeUrl P (jsOr u (.str "")) with
    | .error err => .error err
    | .ok url =>
      if url = "" then
        match setProp env "lastStatus"
            (statusObj "unknown" .null (.str (W.nowIso 0)) (.str "No URL")) with
        | .error err => .error err
        | .ok env' => .ok (env', [])
      else
        match corsAttempt W url env with
        | .ok env' => .ok (env', [⟨url, .cors, 10000⟩])
        | .error _ =>
          match opaqueFallback W url env with
          | .error err => .error err
          | .ok env' => .ok (env', [⟨url, .cors, 10000⟩, ⟨url, .noCors, min 10000 6000⟩])

/-- An environment with a probe-able address. -/
def sampleEnv : JsVal :=
  .obj [("id", .str "e_a"), ("name", .str "Prod"),
        ("url", .str "https://shop.example/health"), ("lastStatus", defaultStatus)]

/-- An environment whose address is blank. -/
def blankEnv : JsVal :=
  .obj [("id", .str "e_b"), ("name", .str "Staging"), ("url", .str " \t"),
        ("lastStatus", defaultStatus)]

/-- A transport answering every transparent request with the given status and
rejecting every opaque one. -/
def worldStatus (s : Nat) : World where
  fetch := fun r =>
    match r.mode with
    | .cors => some (Response.ofStatus s)
    | .noCors => none
  nowIso := fun _ => "2024-01-01T00:00:00.000Z"

/-- A transport rejecting every transparent request; opaque requests settle
exactly when `reach` holds. -/
def worldBlocked (reach : Bool) : World where
  fetch := fun r =>
    match r.mode with
    | .cors => none
    | .noCors => if reach then some ⟨false, 0⟩ else none
  nowIso := fun _ => "2024-01-01T00:00:00.000Z"

/-- The read `env.url` is missing, falsy, or a string that is blank after
trimming. -/
def blankUrl (u : Option JsVal) : Bool :=
  match u with
  | none => true
  | some (.str s) => decide (jsTrim s = "")
  | some v => !truthy v

/-! ## Persistence -/

/-- The method `s.replaceAll(c, r)` for a one-character pattern `c`. -/
def replaceAllChar (c : Char) (r : String) (s : String) : String :=
  String.join (s.toList.map fun x => if x = c then r else String.singleton x)

/-- The function `escapeHtml(s)` for a string `s`: the five replacements in source order. -/
def escapeHtml (s : String) : String :=
  replaceAllChar (Char.ofNat 39) "&#039;"
    (replaceAllChar (Char.ofNat 34) "&quot;"
      (replaceAllChar '>' "&gt;"
        (replaceAllChar '<' "&lt;"
          (replaceAllChar '&' "&amp;" s))))

/-- The text `e.message || e.name || String(e)` of a thrown error object
(`String(e)` is empty when both name and message are). -/
def errText (e : JsError) : String :=
  if e.message ≠ "" then e.message else if e.name ≠ "" then e.name else ""

/-- A permission state of the File System Access API. -/
inductive Permission where
  | granted
  | denied
  | prompt
  deriving DecidableEq, Repr

/-- What the calls on the connected file handle and on `localStorage` do when
a save runs: each either completes or throws. -/
structure SaveOutcomes where
  queryPermission : Except JsError Permission
  requestPermission : Except JsError Permission
  createWritable : Except JsError Unit
  truncate : Except JsError Unit
  write : Except JsError Unit
  close : Except JsError Unit
  setItem : Except JsError Unit

/-- The host of the page: the outcomes of storage calls made at a given time,
whether `render()` throws on a given catalog, and what the other tasks of the
page do to the catalog while a save that started at a given time is suspended
at an `await`: `atWrite t d` is the catalog when the argument of
`writable.write` is evaluated, `atStore t d` the catalog when that of
`localStorage.setItem` is, `d` being the catalog when the timer fired. -/
structure Host where
  save : Nat → SaveOutcomes
  render : JsVal → Except JsError Unit
  atWrite : Nat → JsVal → JsVal
  atStore : Nat → JsVal → JsVal

/-- An observable action of the program. -/
inductive Effect where
  | alert (msg : String)
  | toast (msg : String) (type : String)
  | consoleError (e : JsError)
  | queryPermission
  | requestPermission
  | createWritable
  | truncate (size : Nat)
  | write (text : String)
  | close
  | setItem (key : String) (text : String)
  deriving DecidableEq, Repr

/-- The module state: the variables `data`, `fileHandle` (connected or `null`)
and `saveTimer`, together with the pending timeouts of the save callback
(id and due time), the next timer id, the clock in milliseconds, the number of
`Math.random()` draws so far, the stored value of `status_dashboard_data`, and
the effects so far with their times. -/
structure App where
  data : JsVal
  fileHandle : Bool
  saveTimer : Option Nat
  timers : List (Nat × Nat)
  nextId : Nat
  now : Nat
  draws : Nat
  localStore : Option String
  log : List (Nat × Effect)

/-- Append effects at the current time. -/
def App.emit (st : App) (es : List Effect) : App :=
  { st with log := st.log ++ es.map fun e => (st.now, e) }

/-- The function `ensureWritePermission()`: the answer and the calls made. -/
def ensureWritePermission (F : SaveOutcomes) (st : App) : Bool × List Effect :=
  if !st.fileHandle then (false, [])
  else
    match F.queryPermission with
    | .error _ => (true, [.queryPermission])
    | .ok cur =>
      if cur = .granted then (true, [.queryPermission])
      else
        match F.requestPermission with
        | .error _ => (true, [.queryPermission, .requestPermission])
        | .ok res => (decide (res = .granted), [.queryPermission, .requestPermission])

/-- The `try` block of `saveToConnectedFile()`: the four stream calls and the
success toast; a throw is rethrown by the `catch`. -/
def writeThrough (P : Platform) (F : SaveOutcomes) (st : App) :
    Except JsError Unit × List Effect :=
  match F.createWritable with
  | .error e => (.error e, [.createWritable])
  | .ok _ =>
    match F.truncate with
    | .error e => (.error e, [.createWritable, .truncate 0])
    | .ok _ =>
      match F.write with
      | .error e =>
        (.error e, [.createWritable, .truncate 0, .write (P.stringify st.data 2)])
      | .ok _ =>
        match F.close with
        | .error e =>
          (.error e, [.createWritable, .truncate 0, .write (P.stringify st.data 2), .close])
        | .ok _ =>
          (.ok (), [.createWritable, .truncate 0, .write (P.stringify st.data 2), .close,
            .toast "Saved to connected file." "success"])

/-- The function `saveToConnectedFile()`: whether it throws, and the effects it had. -/
def saveToConnectedFile (P : Platform) (F : SaveOutcomes) (st : App) :
    Except JsError Unit × List Effect :=
  if !st.fileHandle then
    (.ok (), [.alert "Connect resources.json first (top-left button)."])
  else
    let perm := ensureWritePermission F st
    if !perm.1 then
      (.error ⟨"Error", "Write permission denied. Please allow write access when prompted."⟩,
        perm.2)
    else
      let w := writeThrough P F st
      (w.1, perm.2 ++ w.2)

/-- The connected-file part of the callback of `queueSave`: nothing without a
file handle; otherwise the effects of `saveToConnectedFile()`, followed by the
"Auto-save failed" toast of the `catch` when it throws. -/
def autoSave (P : Platform) (F : SaveOutcomes) (st : App) : List Effect :=
  if st.fileHandle then
    match saveToConnectedFile P F st with
    | (.ok _, es) => es
    | (.error e, es) => es ++ [.toast ("Auto-save failed: " ++ escapeHtml (errText e)) "error"]
  else []

/-- The catalog `JSON.stringify(data, null, 2)` reads in a save whose timer fired
in state `st`: with a file connected it is evaluated after the awaited
permission, `createWritable` and `truncate` calls, so it is the catalog as the
other tasks have left it by then. -/
def catalogAtWrite (H : Host) (st : App) : JsVal :=
  if st.fileHandle then H.atWrite st.now st.data else st.data

/-- The catalog `JSON.stringify(data)` reads for the local store in a save whose
timer fired in state `st`: without a connected file no `await` is passed and it
is the catalog of `st`; with one it comes after `await saveToConnectedFile()`. -/
def catalogAtStore (H : Host) (st : App) : JsVal :=
  if st.fileHandle then H.atStore st.now st.data else st.data

/-- The callback `queueSave` hands to `setTimeout`, started at the current time:
the state when it has finished, or the exception that escapes it.  The other
tasks that run while it is suspended show in the catalog it reads
(`catalogAtWrite`, `catalogAtStore`); its effects are logged at its start
time. -/
def saveCallback (P : Platform) (H : Host) (st : App) : Except JsError App :=
  let F := H.save st.now
  let st1 := { st with saveTimer := none }
  let st2 := { st1 with data := catalogAtStore H st }.emit
    (autoSave P F { st1 with data := catalogAtWrite H st })
  let text := P.stringify (catalogAtStore H st) 0
  match F.setItem with
  | .ok _ =>
    .ok { st2.emit [.setItem "status_dashboard_data" text] with localStore := some text }
  | .error _ => .ok (st2.emit [.setItem "status_dashboard_data" text])

/-- The call `clearTimeout(id)`. -/
def clearTimeout (st : App) (id : Option Nat) : App :=
  match id with
  | none => st
  | some i => { st with timers := st.timers.filter fun tm => decide (tm.1 ≠ i) }

/-- The function `queueSave()`: cancel the pending timeout and schedule the callback 500ms
from now. -/
def queueSave (st : App) : App :=
  let st1 := clearTimeout st st.saveTimer
  { st1 with
    saveTimer := some st1.nextId
    timers := st1.timers ++ [(st1.nextId, st1.now + 500)]
    nextId := st1.nextId + 1 }

/-- Firing order of timeouts: earlier due time first, then earlier id. -/
def firesBefore (a b : Nat × Nat) : Bool :=
  decide (a.2 < b.2) || (decide (a.2 = b.2) && decide (a.1 ≤ b.1))

/-- The pending timeouts due by time `t`, in firing order. -/
def dueTimers (st : App) (t : Nat) : List (Nat × Nat) :=
  (st.timers.filter fun tm => decide (tm.2 ≤ t)).insertionSort
    (fun a b => firesBefore a b = true)

/-- The event loop runs one due timeout: the clock reaches its due time, it
leaves the pending list and its callback runs. -/
def fire (P : Platform) (H : Host) (st : App) (tm : Nat × Nat) : App :=
  let st1 := { st with
    now := max st.now tm.2
    timers := st.timers.filter fun x => decide (x.1 ≠ tm.1) }
  match saveCallback P H st1 with
  | .ok st2 => st2
  | .error _ => st1

/-- Time passes until `t`: every timeout due by then fires, in order. -/
def advance (P : Platform) (H : Host) (st : App) (t : Nat) : App :=
  let st1 := (dueTimers st t).foldl (fire P H) st
  { st1 with now := max st1.now t }

/-- What can happen to the page between saves. -/
inductive Event where
  | wait (dt : Nat)
  | setData (d : JsVal)
  | queueSave

/-- One event: time passing, a mutation of the catalog, a call of
`queueSave()`. -/
def step (P : Platform) (H : Host) (st : App) : Event → App
  | .wait dt => advance P H st (st.now + dt)
  | .setData d => { st with data := d }
  | .queueSave => queueSave st

/-- A sequence of events, in order. -/
def run (P : Platform) (H : Host) (st : App) (es : List Event) : App :=
  es.foldl (step P H) st

/-- Further `queueSave()` calls: each after a pause and a mutation of the
catalog. -/
def burst (calls : List (Nat × JsVal)) : List Event :=
  calls.flatMap fun c => [.wait c.1, .setData c.2, .queueSave]

/-- The pending timeouts are at most the one `saveTimer` names. -/
def wellTimed (st : App) : Bool :=
  decide (st.timers.length ≤ 1) && st.timers.all fun tm => decide (st.saveTimer = some tm.1)

/-- The effect is a `localStorage.setItem` call. -/
def Effect.isSetItem : Effect → Bool
  | .setItem _ _ => true
  | _ => false

/-- The effect is a `queryPermission` call, the first step of every
write-through attempt. -/
def Effect.isQueryPermission : Effect → Bool
  | .queryPermission => true
  | _ => false

/-- The effect is a `writable.write` call. -/
def Effect.isWrite : Effect → Bool
  | .write _ => true
  | _ => false

/-- The page just loaded: the given catalog, no pending timeout. -/
def freshApp (d : JsVal) (connected : Bool) : App where
  data := d
  fileHandle := connected
  saveTimer := none
  timers := []
  nextId := 1
  now := 0
  draws := 0
  localStore := none
  log := []

/-- A host on which every storage call completes, permission is granted, and
no other task touches the catalog during a save. -/
def quietHost : Host where
  save := fun _ =>
    { queryPermission := .ok .granted, requestPermission := .ok .granted,
      createWritable := .ok (), truncate := .ok (), write := .ok (), close := .ok (),
      setItem := .ok () }
  render := fun _ => .ok ()
  atWrite := fun _ d => d
  atStore := fun _ d => d

/-- The save is scheduled: one pending timeout, due at `due`, named by
`saveTimer`; nothing logged since `st0`. -/
def Armed (st0 s : App) (due : Nat) : Prop :=
  (∃ id, s.timers = [(id, due)] ∧ s.saveTimer = some id) ∧ s.now < due ∧
    s.log = st0.log ∧ s.fileHandle = st0.fileHandle

/-- A host on which every storage call completes and, while a save is
suspended, another task empties the catalog. -/
def busyHost : Host where
  save := fun _ =>
    { queryPermission := .ok .granted, requestPermission := .ok .granted,
      createWritable := .ok (), truncate := .ok (), write := .ok (), close := .ok (),
      setItem := .ok () }
  render := fun _ => .ok ()
  atWrite := fun _ _ => .obj [("projects", .arr [] [])]
  atStore := fun _ _ => .obj [("projects", .arr [] [])]

/-- A host on which the stream write throws and `localStorage` is full. -/
def failingHost : Host where
  save := fun _ =>
    { queryPermission := .error ⟨"TypeError", "queryPermission is not a function"⟩,
      requestPermission := .ok .denied,
      createWritable := .ok (), truncate := .ok (),
      write := .error ⟨"NoModificationAllowedError", ""⟩, close := .ok (),
      setItem := .error ⟨"QuotaExceededError", "quota <exceeded>"⟩ }
  render := fun _ => .error ⟨"SyntaxError", "not a valid selector"⟩
  atWrite := fun _ d => d
  atStore := fun _ d => d

/-- The click handler of the Save button: `saveToConnectedFile()` inside a
`try`, the `catch` reporting with a toast and `console.error`. -/
def saveButtonClick (P : Platform) (H : Host) (st : App) : Except JsError App :=
  match saveToConnectedFile P (H.save st.now) st with
  | (.ok _, es) => .ok (st.emit es)
  | (.error e, es) =>
    .ok (st.emit (es ++
      [.toast ("Save failed: <code>" ++ escapeHtml (errText e) ++ "</code>") "error",
       .consoleError e]))

/-- A host on which the permission query throws and every other call
completes. -/
def throwingQueryHost : Host where
  save := fun _ =>
    { queryPermission := .error ⟨"TypeError", "queryPermission is not a function"⟩,
      requestPermission := .ok .granted,
      createWritable := .ok (), truncate := .ok (), write := .ok (), close := .ok (),
      setItem := .ok () }
  render := fun _ => .ok ()
  atWrite := fun _ d => d
  atStore := fun _ d => d

/-- The `catch` of the import handler. -/
def importFailed (st : App) (e : JsError) : App :=
  st.emit [.alert "Failed to import JSON. See console for details.", .consoleError e]

/-- The `change` handler of the import input for the chosen file (`none` when
no file was chosen; otherwise what `file.text()` settles with).  Draws of
`Math.random()` made by a `normalizeData` that throws are not counted, and the
`finally` that clears the input element is outside the modelled state. -/
def importChange (P : Platform) (H : Host) (st : App)
    (file : Option (Except JsError String)) : App :=
  match file with
  | none => st
  | some (.error e) => importFailed st e
  | some (.ok text) =>
    match P.jsonParse text with
    | none => importFailed st ⟨"SyntaxError", ""⟩
    | some json =>
      match normalizeData P st.draws json with
      | .error e => importFailed st e
      | .ok (d, k) =>
        match H.render d with
        | .error e => importFailed { st with data := d, draws := k } e
        | .ok _ =>
          (queueSave { st with data := d, draws := k }).emit [.toast "Imported JSON" "success"]

/-! ## Relating a normalised catalog to its input -/

/-- A `forEach` run seen as a relation: entry by entry, `R k x y k1` relates the
counter before, the entry, the updated entry and the counter after. -/
inductive Threaded (R : Nat → JsVal → JsVal → Nat → Prop) :
    Nat → List JsVal → List JsVal → Nat → Prop where
  | nil (k : Nat) : Threaded R k [] [] k
  | cons {k k1 k2 : Nat} {x y : JsVal} {xs ys : List JsVal} :
      R k x y k1 → Threaded R k1 xs ys k2 → Threaded R k (x :: xs) (y :: ys) k2

/-- What one run of the inner callback does to an environment. -/
def envStep (P : Platform) (k : Nat) (e e' : JsVal) (k' : Nat) : Prop :=
  isObjLike e = true ∧ e' = withProps e (repairedEnvProps P k (propsOf e)) ∧
    k' = nextCounter k (propsOf e)

/-- What one run of the outer callback does to a project. -/
def projStep (P : Platform) (k : Nat) (p p' : JsVal) (k' : Nat) : Prop :=
  isObjLike p = true ∧
    ∃ envs', Threaded (envStep P) (nextCounter k (propsOf p))
        (entriesOf p "environments") envs' k' ∧
      p' = withProps p (assignProp "environments"
        (.arr envs' (arrayOrEmpty (lookupProp "environments" (propsOf p))).2)
        (namedProjectProps P k (propsOf p)))

/-- The read `x.id` of an array or object. -/
def idOf (x : JsVal) : Option JsVal :=
  lookupProp "id" (propsOf x)

/-- The `lastStatus` of the updated environment `e'` against that of the input
environment `e`: truthy in any case, the default when the input one is missing
or falsy, the input one itself when that is truthy. -/
def statusRepaired (e e' : JsVal) : Prop :=
  hasTruthy e' "lastStatus" = true ∧
    (truthyOpt (lookupProp "lastStatus" (propsOf e)) = false →
      lookupProp "lastStatus" (propsOf e') = some defaultStatus) ∧
    (∀ v, lookupProp "lastStatus" (propsOf e) = some v → truthy v = true →
      lookupProp "lastStatus" (propsOf e') = some v)

/-- A document whose first environment carries a string where the status
object belongs and whose second has none. -/
def brokenStatusDoc : JsVal :=
  .obj [("projects", .arr [
    .obj [("id", .str "p_a"), ("name", .str "Shop"),
          ("environments", .arr [
            .obj [("id", .str "e_a"), ("name", .str "Prod"), ("url", .str ""),
                  ("lastStatus", .str "broken")],
            .obj [("id", .str "e_b"), ("name", .str "Staging"), ("url", .str "")]] [])]] [])]

/-- The id of the updated entry `y` against that of the input entry `x`: a
truthy input id is kept, a missing or falsy one is replaced by some
`uid(pfx)`. -/
def idRepaired (P : Platform) (pfx : String) (x y : JsVal) : Prop :=
  truthyOpt (idOf y) = true ∧
    (∀ v, idOf x = some v → truthy v = true → idOf y = some v) ∧
    (truthyOpt (idOf x) = false → ∃ j, idOf y = some (.str (uid P pfx j)))

/-- The random suffixes of the draws numbered `k` to `k' - 1` (those of one run
of `normalizeData` whose counter goes from `k` to `k'`) are pairwise distinct. -/
def drawsDistinct (P : Platform) (k k' : Nat) : Prop :=
  ∀ a b, k ≤ a → a < k' → k ≤ b → b < k' → P.random a = P.random b → a = b

/-- The truthy ids of the input entries are pairwise distinct and none of them
is an id that `uid(pfx)` makes of a draw numbered `k` to `k' - 1`. -/
def inputIdsFresh (P : Platform) (pfx : String) (k k' : Nat) (xs : List JsVal) : Prop :=
  xs.Pairwise (fun a b =>
      truthyOpt (idOf a) = true → truthyOpt (idOf b) = true → idOf a ≠ idOf b) ∧
    ∀ x ∈ xs, ∀ j, k ≤ j → j < k' → idOf x ≠ some (.str (uid P pfx j))

/-- A document with two projects of the same id, the first holding two
environments of the same id. -/
def duplicateIdDoc : JsVal :=
  .obj [("projects", .arr [
    .obj [("id", .str "dup"), ("name", .str "Shop"),
          ("environments", .arr [
            .obj [("id", .str "same"), ("name", .str "Prod"), ("url", .str ""),
                  ("lastStatus", defaultStatus)],
            .obj [("id", .str "same"), ("name", .str "Staging"), ("url", .str ""),
                  ("lastStatus", defaultStatus)]] [])],
    .obj [("id", .str "dup"), ("name", .str "Blog"), ("environments", .arr [] [])]] [])]

/-- A document with two projects that have no id, the first holding an
environment with an id and one without. -/
def missingIdDoc : JsVal :=
  .obj [("projects", .arr [
    .obj [("name", .str "Shop"),
          ("environments", .arr [
            .obj [("id", .str "kept"), ("name", .str "Prod")],
            .obj [("name", .str "Staging")]] [])],
    .obj [("name", .str "Blog")]] [])]

/-! ## Editing an environment's url -/

/-- The call `xs.find(x => x.id === id)` for a string `id`: the position and
value of the first entry whose `id` is that very string, `none` for
`undefined`; reading `.id` of a `null` entry throws. -/
def findById (id : String) : List JsVal → Except JsError (Option (Nat × JsVal))
  | [] => .ok none
  | x :: xs =>
    let rest : Except JsError (Option (Nat × JsVal)) :=
      match findById id xs with
      | .error e => .error e
      | .ok none => .ok none
      | .ok (some (i, y)) => .ok (some (i + 1, y))
    match getProp x "id" with
    | .error e => .error e
    | .ok (some (.str s)) => if s = id then .ok (some (0, x)) else rest
    | .ok _ => rest

/-- The array `x.key` on which `.find` is called: a `TypeError` when `x.key`
is `undefined` or not an array. -/
def arrayItems (x : JsVal) (key : String) : Except JsError (List JsVal) :=
  match getProp x key with
  | .error e => .error e
  | .ok (some (.arr items _)) => .ok items
  | .ok _ => .error typeError

/-- The array `x.key` with its entry at position `i` replaced by `y`: how an
in-place change of that entry shows in the tree. -/
def replaceEntry (x : JsVal) (key : String) (i : Nat) (y : JsVal) : JsVal :=
  match lookupProp key (propsOf x) with
  | some (.arr items ps) => withProps x (assignProp key (.arr (items.set i y) ps) (propsOf x))
  | _ => x

/-- The page's reading of ids: `attr v` is the value the parsed page holds for an
attribute written `data-pid="${v}"` or `data-eid="${v}"`, which is also the
text the selector `tr[data-pid="${v}"]` asks for (ids free of the characters
special to HTML attributes and CSS strings; for a string of that kind it is
the string itself). -/
structure Dom where
  attr : Option JsVal → String

/-- An environment row `tr[data-eid]` of the page: its attribute and, for each
`change` listener on its url input in the order they were added, the `env` the
listener closes over: the position (project, environment) of that environment
in the catalog, or `none` when `find` gave `undefined`. -/
structure EnvRow where
  eid : String
  urlListeners : List (Option (Nat × Nat))

/-- A project row `tr[data-pid]` of the page with its environment rows. -/
structure ProjectRow where
  pid : String
  envRows : List EnvRow

/-- Strict equality `a === b` of two reads that are `undefined` or primitives;
an array or object is identical only to itself, which a tree holds once. -/
def strictEqPrim (a b : Option JsVal) : Bool :=
  match a, b with
  | none, none => true
  | some .null, some .null => true
  | some (.bool x), some (.bool y) => decide (x = y)
  | some (.num x), some (.num y) => decide (x = y)
  | some (.str x), some (.str y) => decide (x = y)
  | _, _ => false

/-- The call `data.projects.find(pp => pp.id === projectId)`, `projectId` being
the id `target` read from the project at position `self`; `k` is the position
of the head of the list. -/
def findProject (target : Option JsVal) (self : Nat) :
    Nat → List JsVal → Except JsError (Option (Nat × JsVal))
  | _, [] => .ok none
  | k, x :: xs =>
    match getProp x "id" with
    | .error e => .error e
    | .ok v =>
      if k = self ∨ strictEqPrim v target = true then .ok (some (k, x))
      else findProject target self (k + 1) xs

/-- The environment rows `renderEnvRowHtml` writes, no listener attached yet. -/
def renderEnvRows (D : Dom) : List JsVal → Except JsError (List EnvRow)
  | [] => .ok []
  | e :: es =>
    match getProp e "id" with
    | .error err => .error err
    | .ok v =>
      match renderEnvRows D es with
      | .error err => .error err
      | .ok rows => .ok (⟨D.attr v, []⟩ :: rows)

/-- The project rows `renderProjectRowHtml` writes for `data.projects`. -/
def renderProjectRows (D : Dom) : List JsVal → Except JsError (List ProjectRow)
  | [] => .ok []
  | p :: ps =>
    match arrayItems p "environments" with
    | .error err => .error err
    | .ok es =>
      match renderEnvRows D es with
      | .error err => .error err
      | .ok envRows =>
        match getProp p "id" with
        | .error err => .error err
        | .ok v =>
          match renderProjectRows D ps with
          | .error err => .error err
          | .ok rows => .ok (⟨D.attr v, envRows⟩ :: rows)

/-- The call `el.tbody.querySelector` for `tr[data-pid="..."]`: the first
project row with that attribute and its position. -/
def rowIndex (pid : String) : List ProjectRow → Option (Nat × ProjectRow)
  | [] => none
  | row :: rows =>
    if row.pid = pid then some (0, row)
    else
      match rowIndex pid rows with
      | none => none
      | some (r, found) => some (r + 1, found)

/-- The callback of `querySelectorAll("tr[data-eid]").forEach` in
`bindProjectRowEventsFor`, as far as the url input goes: the two `find` calls
and the listener added, closing over what the second `find` returned. -/
def bindEnvRow (data : JsVal) (target : Option JsVal) (self : Nat) (row : EnvRow) :
    Except JsError EnvRow :=
  match arrayItems data "projects" with
  | .error e => .error e
  | .ok ps =>
    match findProject target self 0 ps with
    | .error e => .error e
    | .ok none => .error typeError
    | .ok (some (k, p)) =>
      match arrayItems p "environments" with
      | .error e => .error e
      | .ok es =>
        match findById row.eid es with
        | .error e => .error e
        | .ok none => .ok { row with urlListeners := row.urlListeners ++ [none] }
        | .ok (some (j, _)) => .ok { row with urlListeners := row.urlListeners ++ [some (k, j)] }

/-- A `forEach` over environment rows; the first throw ends it. -/
def forEachRowM (f : EnvRow → Except JsError EnvRow) : List EnvRow → Except JsError (List EnvRow)
  | [] => .ok []
  | row :: rows =>
    match f row with
    | .error e => .error e
    | .ok row' =>
      match forEachRowM f rows with
      | .error e => .error e
      | .ok rows' => .ok (row' :: rows')

/-- The function `bindProjectRowEventsFor(projectId)` called with the id of the
project at position `self`: the page with the listeners it adds, or the
exception it throws (the page a throw leaves half bound is not kept). -/
def bindProjectRowEventsFor (D : Dom) (data : JsVal) (self : Nat) (page : List ProjectRow) :
    Except JsError (List ProjectRow) :=
  match arrayItems data "projects" with
  | .error e => .error e
  | .ok ps =>
    match ps[self]? with
    | none => .ok page
    | some p0 =>
      match getProp p0 "id" with
      | .error e => .error e
      | .ok target =>
        match rowIndex (D.attr target) page with
        | none => .ok page
        | some (r, row) =>
          match forEachRowM (bindEnvRow data target self) row.envRows with
          | .error e => .error e
          | .ok rows' => .ok (page.set r { row with envRows := rows' })

/-- The function `bindProjectRowEvents()` from the project at position `self`
on, `n` projects being left. -/
def bindProjectRowEvents (D : Dom) (data : JsVal) :
    Nat → Nat → List ProjectRow → Except JsError (List ProjectRow)
  | _, 0, page => .ok page
  | self, n + 1, page =>
    match bindProjectRowEventsFor D data self page with
    | .error e => .error e
    | .ok page' => bindProjectRowEvents D data (self + 1) n page'

/-- The function `render()`: the rows of the current catalog with the listeners
`bindProjectRowEvents()` adds. -/
def render (D : Dom) (data : JsVal) : Except JsError (List ProjectRow) :=
  match arrayItems data "projects" with
  | .error e => .error e
  | .ok ps =>
    match renderProjectRows D ps with
    | .error e => .error e
    | .ok page => bindProjectRowEvents D data 0 ps.length page

/-- The listeners on the url input of environment row `j` of project row `r`. -/
def listenersAt (page : List ProjectRow) (r j : Nat) : List (Option (Nat × Nat)) :=
  match page[r]? with
  | none => []
  | some row =>
    match row.envRows[j]? with
    | none => []
    | some envRow => envRow.urlListeners

/-- One `change` listener of a url input, `value` being `urlInput.value` and
`captured` the `env` it closes over: the two assignments on that environment,
then `queueSave()`.  With `env` undefined the first assignment throws. -/
def urlListener (P : Platform) (st : App) (captured : Option (Nat × Nat)) (value : String) :
    Except JsError App :=
  match captured with
  | none => .error typeError
  | some (k, j) =>
    match (entriesOf st.data "projects")[k]? with
    | none => .error typeError
    | some p =>
      match (entriesOf p "environments")[j]? with
      | none => .error typeError
      | some env =>
        match sanitizeUrl P (.str value) with
        | .error e => .error e
        | .ok u =>
          match setProp env "url" (.str u) with
          | .error e => .error e
          | .ok env1 =>
            match setProp env1 "lastStatus"
                (.obj [("state", .str "unknown"), ("httpStatus", .null),
                       ("checkedAt", .null), ("detail", .null)]) with
            | .error e => .error e
            | .ok env2 =>
              .ok (queueSave { st with
                data := replaceEntry st.data "projects" k
                  (replaceEntry p "environments" j env2) })

/-- The `change` event on a url input: its listeners run in order; a listener
that throws changes nothing and its exception is reported uncaught. -/
def urlInputChange (P : Platform) (value : String) :
    List (Option (Nat × Nat)) → App → App × List JsError
  | [], st => (st, [])
  | l :: ls, st =>
    match urlListener P st l value with
    | .ok st' => urlInputChange P value ls st'
    | .error e =>
      let r := urlInputChange P value ls st
      (r.1, e :: r.2)

/-- Editing the url field of environment row `j` of project row `r` on the page
as `render()` shows the current catalog. -/
def editUrl (P : Platform) (D : Dom) (st : App) (r j : Nat) (value : String) :
    Except JsError (App × List JsError) :=
  match render D st.data with
  | .error e => .error e
  | .ok page => .ok (urlInputChange P value (listenersAt page r j) st)

/-- A page that reads a string id as it is written and every other id as the
text `?`. -/
def plainDom : Dom where
  attr := fun v =>
    match v with
    | some (.str s) => s
    | _ => "?"

/-- A catalog of one project whose two environments share the id `same`: the
first was found up, the second down. -/
def twinEnvCatalog : JsVal :=
  .obj [("projects", .arr [
    .obj [("id", .str "p_a"), ("name", .str "Shop"),
          ("environments", .arr [
            .obj [("id", .str "same"), ("name", .str "Prod"),
                  ("url", .str "https://one.example/"),
                  ("lastStatus", .obj [("state", .str "up"), ("httpStatus", .num 200),
                    ("checkedAt", .str "2024-01-01T00:00:00.000Z"),
                    ("detail", .str "CORS OK")])],
            .obj [("id", .str "same"), ("name", .str "Staging"),
                  ("url", .str "https://two.example/"),
                  ("lastStatus", .obj [("state", .str "down"), ("httpStatus", .num 503),
                    ("checkedAt", .str "2024-01-01T00:00:00.000Z"),
                    ("detail", .str "HTTP 503")])]] [])]] [])]

/-- The environment rows `ers` are those written for the environments `es`: one
row each, in order, carrying the environment's id as its `data-eid`. -/
def EnvRowsFor (D : Dom) (es : List JsVal) (ers : List EnvRow) : Prop :=
  ers.length = es.length ∧
    ∀ (j : Nat) (e : JsVal) (er : EnvRow), es[j]? = some e → ers[j]? = some er →
      ∃ w, getProp e "id" = .ok w ∧ er.eid = D.attr w

/-- The project row `row` is the one written for the project `p`. -/
def ProjectRowFor (D : Dom) (p : JsVal) (row : ProjectRow) : Prop :=
  ∃ v es, getProp p "id" = .ok v ∧ row.pid = D.attr v ∧
    arrayItems p "environments" = .ok es ∧ EnvRowsFor D es row.envRows

/-- The page shows the projects `ps`: one row each, in order. -/
def PageFor (D : Dom) (ps : List JsVal) (page : List ProjectRow) : Prop :=
  page.length = ps.length ∧
    ∀ (i : Nat) (p : JsVal) (row : ProjectRow), ps[i]? = some p → page[i]? = some row →
      ProjectRowFor D p row

/-! ## Theorems -/

/-! ### Property lists -/

theorem lookupProp_assignProp_same (k : String) (v : JsVal) (ps : List (String × JsVal)) :
    lookupProp k (assignProp k v ps) = some v := by
  induction ps with
  | nil => simp [assignProp, lookupProp]
  | cons a rest ih =>
    obtain ⟨k', v'⟩ := a
    by_cases hk : k' = k
    · simp [assignProp, lookupProp, hk]
    · simp [assignProp, lookupProp, hk, ih]

theorem lookupProp_assignProp_ne (k j : String) (v : JsVal) (ps : List (String × JsVal))
    (hkj : k ≠ j) : lookupProp j (assignProp k v ps) = lookupProp j ps := by
  induction ps with
  | nil => simp [assignProp, lookupProp, hkj]
  | cons a rest ih =>
    obtain ⟨k', v'⟩ := a
    by_cases hk : k' = k
    · subst hk
      simp [assignProp, lookupProp, hkj]
    · by_cases hj : k' = j
      · subst hj
        simp [assignProp, lookupProp, hk]
      · simp [assignProp, lookupProp, hk, hj, ih]

theorem assignProp_of_lookup (k : String) (v : JsVal) (ps : List (String × JsVal))
    (h : lookupProp k ps = some v) : assignProp k v ps = ps := by
  induction ps with
  | nil => simp [lookupProp] at h
  | cons a rest ih =>
    obtain ⟨k', v'⟩ := a
    by_cases hk : k' = k
    · simp [lookupProp, hk] at h
      simp [assignProp, hk, h]
    · simp [lookupProp, hk] at h
      simp [assignProp, hk, ih h]

theorem getProp_objLike (x : JsVal) (k : String) (h : isObjLike x = true) :
    getProp x k = .ok (lookupProp k (propsOf x)) := by
  cases x <;> simp_all [isObjLike, getProp, propsOf]

theorem setProp_objLike (x : JsVal) (k : String) (v : JsVal) (h : isObjLike x = true) :
    setProp x k v = .ok (withProps x (assignProp k v (propsOf x))) := by
  cases x <;> simp_all [isObjLike, setProp, propsOf, withProps]

theorem getProp_not_objLike (x : JsVal) (k : String) (h : isObjLike x = false) :
    getProp x k = .error typeError ∨ getProp x k = .ok none := by
  cases x <;> simp_all [isObjLike, getProp]

theorem setProp_not_objLike (x : JsVal) (k : String) (v : JsVal) (h : isObjLike x = false) :
    setProp x k v = .error typeError := by
  cases x <;> simp_all [isObjLike, setProp]

theorem isObjLike_withProps (x : JsVal) (ps : List (String × JsVal)) :
    isObjLike (withProps x ps) = isObjLike x := by
  cases x <;> rfl

theorem propsOf_withProps (x : JsVal) (ps : List (String × JsVal)) (h : isObjLike x = true) :
    propsOf (withProps x ps) = ps := by
  cases x <;> simp_all [isObjLike, propsOf, withProps]

theorem withProps_withProps (x : JsVal) (ps qs : List (String × JsVal)) :
    withProps (withProps x ps) qs = withProps x qs := by
  cases x <;> rfl

theorem withProps_propsOf (x : JsVal) : withProps x (propsOf x) = x := by
  cases x <;> rfl

theorem truthy_jsOr (a : Option JsVal) (b : JsVal) (hb : truthy b = true) :
    truthy (jsOr a b) = true := by
  cases a with
  | none => simpa [jsOr] using hb
  | some v =>
    by_cases hv : truthy v = true
    · simp [jsOr, hv]
    · simp [jsOr, hv, hb]

theorem jsOr_of_truthy (v b : JsVal) (hv : truthy v = true) : jsOr (some v) b = v := by
  simp [jsOr, hv]

theorem jsOr_of_falsy (a : Option JsVal) (b : JsVal) (ha : truthyOpt a = false) :
    jsOr a b = b := by
  cases a with
  | none => rfl
  | some v => simp [truthyOpt] at ha; simp [jsOr, ha]

/-! ### Closed forms of the callbacks -/

theorem assignId_objLike (P : Platform) (pfx : String) (k : Nat) (x : JsVal)
    (h : isObjLike x = true) :
    assignId P pfx k x =
      .ok (withProps x (assignProp "id"
            (jsOr (lookupProp "id" (propsOf x)) (.str (uid P pfx k))) (propsOf x)),
           nextCounter k (propsOf x)) := by
  simp [assignId, getProp_objLike x "id" h, setProp_objLike x "id" _ h, nextCounter]

theorem assignDefault_objLike (x : JsVal) (key : String) (d : JsVal)
    (h : isObjLike x = true) :
    assignDefault x key d =
      .ok (withProps x (assignProp key (jsOr (lookupProp key (propsOf x)) d) (propsOf x))) := by
  simp [assignDefault, getProp_objLike x key h, setProp_objLike x key _ h]

theorem normalizeEnv_objLike (P : Platform) (k : Nat) (e : JsVal) (h : isObjLike e = true) :
    normalizeEnv P k e =
      .ok (withProps e (repairedEnvProps P k (propsOf e)), nextCounter k (propsOf e)) := by
  have h1 : ∀ ps, isObjLike (withProps e ps) = true := fun ps => by
    rw [isObjLike_withProps]; exact h
  simp only [normalizeEnv, assignId_objLike P "e" k e h]
  rw [assignDefault_objLike _ _ _ (h1 _)]
  simp only []
  rw [assignDefault_objLike _ _ _ (by rw [isObjLike_withProps]; exact h1 _)]
  simp only []
  rw [assignDefault_objLike _ _ _ (by rw [isObjLike_withProps, isObjLike_withProps]; exact h1 _)]
  simp only [withProps_withProps, propsOf_withProps _ _ h, repairedEnvProps]
  rw [lookupProp_assignProp_ne "id" "name" _ _ (by decide),
    lookupProp_assignProp_ne "name" "url" _ _ (by decide),
    lookupProp_assignProp_ne "id" "url" _ _ (by decide),
    lookupProp_assignProp_ne "url" "lastStatus" _ _ (by decide),
    lookupProp_assignProp_ne "name" "lastStatus" _ _ (by decide),
    lookupProp_assignProp_ne "id" "lastStatus" _ _ (by decide)]

theorem normalizeEnv_not_objLike (P : Platform) (k : Nat) (e : JsVal)
    (h : isObjLike e = false) : normalizeEnv P k e = .error typeError := by
  have hs := setProp_not_objLike e "id" (jsOr none (.str (uid P "e" k))) h
  cases e <;> simp_all [isObjLike, normalizeEnv, assignId, getProp, setProp]

theorem normalizeProject_objLike (P : Platform) (k : Nat) (p : JsVal)
    (h : isObjLike p = true) :
    normalizeProject P k p =
      match forEachM (normalizeEnv P) (entriesOf p "environments")
          (nextCounter k (propsOf p)) with
      | .error err => .error err
      | .ok (envs', k2) =>
        .ok (withProps p (assignProp "environments"
              (.arr envs' (arrayOrEmpty (lookupProp "environments" (propsOf p))).2)
              (namedProjectProps P k (propsOf p))), k2) := by
  have h1 : ∀ ps, isObjLike (withProps p ps) = true := fun ps => by
    rw [isObjLike_withProps]; exact h
  simp only [normalizeProject, assignId_objLike P "p" k p h]
  rw [assignDefault_objLike _ _ _ (h1 _)]
  simp only [withProps_withProps, propsOf_withProps _ _ h]
  rw [getProp_objLike _ _ (h1 _)]
  simp only [propsOf_withProps _ _ h, entriesOf, namedProjectProps]
  rw [lookupProp_assignProp_ne "id" "name" _ _ (by decide),
    lookupProp_assignProp_ne "name" "environments" _ _ (by decide),
    lookupProp_assignProp_ne "id" "environments" _ _ (by decide)]
  cases hf : forEachM (normalizeEnv P)
      (arrayOrEmpty (lookupProp "environments" (propsOf p))).1 (nextCounter k (propsOf p)) with
  | error err => rfl
  | ok r =>
    obtain ⟨envs', k2⟩ := r
    simp only []
    rw [setProp_objLike _ _ _ (h1 _)]
    simp only [withProps_withProps, propsOf_withProps _ _ h]

theorem normalizeProject_not_objLike (P : Platform) (k : Nat) (p : JsVal)
    (h : isObjLike p = false) : normalizeProject P k p = .error typeError := by
  cases p <;> simp_all [isObjLike, normalizeProject, assignId, getProp, setProp]

/-! ### The loop -/

theorem forEachM_forall₂ (f : Nat → JsVal → Except JsError (JsVal × Nat))
    (R : JsVal → JsVal → Prop) (xs : List JsVal)
    (h : ∀ x ∈ xs, ∀ k, ∃ y k', f k x = .ok (y, k') ∧ R x y) :
    ∀ k, ∃ ys k', forEachM f xs k = .ok (ys, k') ∧ List.Forall₂ R xs ys := by
  induction xs with
  | nil => intro k; exact ⟨[], k, rfl, List.Forall₂.nil⟩
  | cons x xs ih =>
    intro k
    obtain ⟨y, k1, hy, hR⟩ := h x (List.mem_cons_self x xs) k
    obtain ⟨ys, k2, hys, hRs⟩ := ih (fun z hz => h z (List.mem_cons_of_mem x hz)) k1
    exact ⟨y :: ys, k2, by simp [forEachM, hy, hys], List.Forall₂.cons hR hRs⟩

theorem forEachM_error (f : Nat → JsVal → Except JsError (JsVal × Nat)) (xs : List JsVal)
    (hty : ∀ x k err, f k x = .error err → err = typeError)
    (hbad : ∃ x ∈ xs, ∀ k, ∃ err, f k x = .error err) :
    ∀ k, forEachM f xs k = .error typeError := by
  induction xs with
  | nil => obtain ⟨x, hx, _⟩ := hbad; simp at hx
  | cons x xs ih =>
    intro k
    cases hfx : f k x with
    | error err => simp [forEachM, hfx, hty x k err hfx]
    | ok r =>
      obtain ⟨x', k1⟩ := r
      obtain ⟨z, hz, hzbad⟩ := hbad
      rcases List.mem_cons.mp hz with hzx | hzxs
      · subst hzx
        obtain ⟨err, herr⟩ := hzbad k
        rw [hfx] at herr
        cases herr
      · simp [forEachM, hfx, ih ⟨z, hzxs, hzbad⟩ k1]

theorem forEachM_error_typeError (f : Nat → JsVal → Except JsError (JsVal × Nat))
    (hty : ∀ x k err, f k x = .error err → err = typeError) :
    ∀ xs k err, forEachM f xs k = .error err → err = typeError := by
  intro xs
  induction xs with
  | nil => intro k err h; simp [forEachM] at h
  | cons x xs ih =>
    intro k err h
    cases hfx : f k x with
    | error e1 =>
      simp [forEachM, hfx] at h
      rw [← h]; exact hty x k e1 hfx
    | ok r =>
      obtain ⟨x', k1⟩ := r
      cases hrest : forEachM f xs k1 with
      | error e2 =>
        simp [forEachM, hfx, hrest] at h
        rw [← h]; exact ih k1 e2 hrest
      | ok r2 =>
        obtain ⟨a, b⟩ := r2
        simp [forEachM, hfx, hrest] at h

/-! ### What the callbacks leave behind -/

theorem uid_ne_empty (P : Platform) (pfx : String) (k : Nat) : uid P pfx k ≠ "" := by
  intro h
  have hlen := congrArg String.length h
  simp [uid, String.length_append] at hlen
  exact absurd hlen.1.2 (by decide)

theorem truthy_uid (P : Platform) (pfx : String) (k : Nat) :
    truthy (.str (uid P pfx k)) = true := by
  simp [truthy, uid_ne_empty]

theorem lookup_id_repairedEnvProps (P : Platform) (k : Nat) (ps : List (String × JsVal)) :
    lookupProp "id" (repairedEnvProps P k ps) =
      some (jsOr (lookupProp "id" ps) (.str (uid P "e" k))) := by
  unfold repairedEnvProps
  rw [lookupProp_assignProp_ne "lastStatus" "id" _ _ (by decide),
    lookupProp_assignProp_ne "url" "id" _ _ (by decide),
    lookupProp_assignProp_ne "name" "id" _ _ (by decide),
    lookupProp_assignProp_same]

theorem lookup_name_repairedEnvProps (P : Platform) (k : Nat) (ps : List (String × JsVal)) :
    lookupProp "name" (repairedEnvProps P k ps) =
      some (jsOr (lookupProp "name" ps) (.str "Environment")) := by
  unfold repairedEnvProps
  rw [lookupProp_assignProp_ne "lastStatus" "name" _ _ (by decide),
    lookupProp_assignProp_ne "url" "name" _ _ (by decide),
    lookupProp_assignProp_same]

theorem lookup_url_repairedEnvProps (P : Platform) (k : Nat) (ps : List (String × JsVal)) :
    lookupProp "url" (repairedEnvProps P k ps) =
      some (jsOr (lookupProp "url" ps) (.str "")) := by
  unfold repairedEnvProps
  rw [lookupProp_assignProp_ne "lastStatus" "url" _ _ (by decide),
    lookupProp_assignProp_same]

theorem lookup_lastStatus_repairedEnvProps (P : Platform) (k : Nat)
    (ps : List (String × JsVal)) :
    lookupProp "lastStatus" (repairedEnvProps P k ps) =
      some (jsOr (lookupProp "lastStatus" ps) defaultStatus) := by
  unfold repairedEnvProps
  rw [lookupProp_assignProp_same]

theorem hasTruthy_withProps (x : JsVal) (key : String) (qs : List (String × JsVal))
    (h : isObjLike x = true) :
    hasTruthy (withProps x qs) key = truthyOpt (lookupProp key qs) := by
  have h1 : isObjLike (withProps x qs) = true := by rw [isObjLike_withProps]; exact h
  unfold hasTruthy
  rw [getProp_objLike _ _ h1, propsOf_withProps _ _ h]
  cases lookupProp key qs <;> rfl

theorem hasUrl_jsOr (x : JsVal) (qs : List (String × JsVal)) (a : Option JsVal)
    (h : isObjLike x = true) (hq : lookupProp "url" qs = some (jsOr a (.str ""))) :
    hasUrl (withProps x qs) = true := by
  have h1 : isObjLike (withProps x qs) = true := by rw [isObjLike_withProps]; exact h
  unfold hasUrl
  rw [getProp_objLike _ _ h1, propsOf_withProps _ _ h, hq]
  cases a with
  | none => rfl
  | some v =>
    by_cases hv : truthy v = true
    · rw [jsOr_of_truthy v _ hv]
      cases v <;> simp_all
    · simp [jsOr, hv]

theorem envRepaired_normalized (P : Platform) (k : Nat) (e : JsVal)
    (h : isObjLike e = true) :
    envRepaired (withProps e (repairedEnvProps P k (propsOf e))) = true := by
  unfold envRepaired
  rw [isObjLike_withProps, h, hasTruthy_withProps _ _ _ h, hasTruthy_withProps _ _ _ h,
    hasTruthy_withProps _ _ _ h, lookup_id_repairedEnvProps, lookup_name_repairedEnvProps,
    lookup_lastStatus_repairedEnvProps,
    hasUrl_jsOr e _ _ h (lookup_url_repairedEnvProps P k (propsOf e))]
  simp only [truthyOpt, Bool.and_eq_true, and_true, true_and]
  exact ⟨⟨truthy_jsOr _ _ (truthy_uid P "e" k), truthy_jsOr _ _ (by decide)⟩,
    truthy_jsOr _ _ (by decide)⟩

theorem all_of_forall₂ (Q : JsVal → Bool) (xs ys : List JsVal)
    (h : List.Forall₂ (fun _ y => Q y = true) xs ys) : ys.all Q = true := by
  induction h with
  | nil => rfl
  | cons hq _ ih => simp [List.all_cons, hq, ih]

theorem forEachM_normalizeEnv_ok (P : Platform) (es : List JsVal)
    (h : es.all isObjLike = true) (k : Nat) :
    ∃ es' k', forEachM (normalizeEnv P) es k = .ok (es', k') ∧
      es'.all envRepaired = true := by
  have hall : ∀ x ∈ es, isObjLike x = true := by
    simpa [List.all_eq_true] using h
  obtain ⟨ys, k', hys, hR⟩ := forEachM_forall₂ (normalizeEnv P)
    (fun _ y => envRepaired y = true) es
    (fun x hx j => ⟨_, _, normalizeEnv_objLike P j x (hall x hx),
      envRepaired_normalized P j x (hall x hx)⟩) k
  exact ⟨ys, k', hys, all_of_forall₂ envRepaired es ys hR⟩

theorem normalizeEnv_error_typeError (P : Platform) (x : JsVal) (k : Nat) (err : JsError)
    (h : normalizeEnv P k x = .error err) : err = typeError := by
  cases hx : isObjLike x with
  | true => rw [normalizeEnv_objLike P k x hx] at h; cases h
  | false =>
    rw [normalizeEnv_not_objLike P k x hx] at h
    cases h; rfl

theorem lookup_id_namedProjectProps (P : Platform) (k : Nat) (ps : List (String × JsVal)) :
    lookupProp "id" (namedProjectProps P k ps) =
      some (jsOr (lookupProp "id" ps) (.str (uid P "p" k))) := by
  unfold namedProjectProps
  rw [lookupProp_assignProp_ne "name" "id" _ _ (by decide), lookupProp_assignProp_same]

theorem lookup_name_namedProjectProps (P : Platform) (k : Nat) (ps : List (String × JsVal)) :
    lookupProp "name" (namedProjectProps P k ps) =
      some (jsOr (lookupProp "name" ps) (.str "Untitled Project")) := by
  unfold namedProjectProps
  rw [lookupProp_assignProp_same]

theorem projectRepaired_normalized (P : Platform) (k : Nat) (p : JsVal)
    (es : List JsVal) (eps : List (String × JsVal))
    (h : isObjLike p = true) (hes : es.all envRepaired = true) :
    projectRepaired (withProps p (assignProp "environments" (.arr es eps)
      (namedProjectProps P k (propsOf p)))) = true := by
  have h1 : ∀ ps, isObjLike (withProps p ps) = true := fun ps => by
    rw [isObjLike_withProps]; exact h
  unfold projectRepaired
  rw [h1, hasTruthy_withProps _ _ _ h, hasTruthy_withProps _ _ _ h, getProp_objLike _ _ (h1 _),
    propsOf_withProps _ _ h, lookupProp_assignProp_same,
    lookupProp_assignProp_ne "environments" "id" _ _ (by decide),
    lookupProp_assignProp_ne "environments" "name" _ _ (by decide),
    lookup_id_namedProjectProps, lookup_name_namedProjectProps]
  simp only [truthyOpt, Bool.and_eq_true, true_and]
  exact ⟨⟨truthy_jsOr _ _ (truthy_uid P "p" k), truthy_jsOr _ _ (by decide)⟩, hes⟩

theorem normalizeProject_ok (P : Platform) (k : Nat) (p : JsVal)
    (h : projectShape p = true) :
    ∃ y k', normalizeProject P k p = .ok (y, k') ∧ projectRepaired y = true := by
  simp only [projectShape, Bool.and_eq_true] at h
  obtain ⟨es', k', hes, hrep⟩ :=
    forEachM_normalizeEnv_ok P (entriesOf p "environments") h.2 (nextCounter k (propsOf p))
  refine ⟨_, k', ?_, projectRepaired_normalized P k p es'
    (arrayOrEmpty (lookupProp "environments" (propsOf p))).2 h.1 hrep⟩
  rw [normalizeProject_objLike P k p h.1, hes]

theorem normalizeProject_error_typeError (P : Platform) (x : JsVal) (k : Nat)
    (err : JsError) (h : normalizeProject P k x = .error err) : err = typeError := by
  cases hx : isObjLike x with
  | false =>
    rw [normalizeProject_not_objLike P k x hx] at h
    cases h; rfl
  | true =>
    rw [normalizeProject_objLike P k x hx] at h
    cases hf : forEachM (normalizeEnv P) (entriesOf x "environments")
        (nextCounter k (propsOf x)) with
    | error e1 =>
      rw [hf] at h
      simp only [] at h
      cases h
      exact forEachM_error_typeError _ (normalizeEnv_error_typeError P) _ _ _ hf
    | ok r =>
      obtain ⟨a, b⟩ := r
      rw [hf] at h
      cases h

theorem normalizeProject_bad (P : Platform) (k : Nat) (p : JsVal)
    (h : projectShape p = false) : normalizeProject P k p = .error typeError := by
  cases hx : isObjLike p with
  | false => exact normalizeProject_not_objLike P k p hx
  | true =>
    simp only [projectShape, hx, Bool.true_and] at h
    have hbad : ∃ e ∈ entriesOf p "environments", ∀ j, ∃ err, normalizeEnv P j e = .error err := by
      have h2 : ¬ ∀ e ∈ entriesOf p "environments", isObjLike e = true := by
        intro hall
        have : (entriesOf p "environments").all isObjLike = true := by
          simpa [List.all_eq_true] using hall
        rw [h] at this; cases this
      push_neg at h2
      obtain ⟨e, he, hne⟩ := h2
      have hf : isObjLike e = false := by
        cases hi : isObjLike e with
        | true => exact absurd hi hne
        | false => rfl
      exact ⟨e, he, fun j => ⟨typeError, normalizeEnv_not_objLike P j e hf⟩⟩
    rw [normalizeProject_objLike P k p hx,
      forEachM_error _ _ (normalizeEnv_error_typeError P) hbad]

theorem getProp_of_ne_null (x : JsVal) (key : String) (h : x ≠ .null) :
    getProp x key = .ok (lookupProp key (propsOf x)) := by
  cases x <;> simp_all [getProp, propsOf, lookupProp]

theorem inputShape_of_ne_null (raw : JsVal) (h : raw ≠ .null) :
    inputShape raw = (entriesOf raw "projects").all projectShape := by
  cases raw <;> simp_all [inputShape]

theorem normalizeData_of_ne_null (P : Platform) (k : Nat) (raw : JsVal) (h : raw ≠ .null) :
    normalizeData P k raw =
      match forEachM (normalizeProject P) (entriesOf raw "projects") k with
      | .error err => .error err
      | .ok (ps', k') =>
        .ok (.obj [("projects",
          .arr ps' (arrayOrEmpty (lookupProp "projects" (propsOf raw))).2)], k') := by
  simp only [normalizeData, getProp_of_ne_null raw "projects" h, entriesOf]

/-! ### C1: totality of `normalizeData` -/

/-- C1, counterexample: `normalizeData(null)` raises a `TypeError` (the read
`json.projects` on `null`), so the function is not total on all inputs. -/
theorem normalizeData_null_throws :
    normalizeData samplePlatform 0 JsVal.null = Except.error typeError := rfl

/-- C1, as amended: `normalizeData(raw)` returns exactly on the inputs that are
not `null` and whose `projects` entries, and their `environments` entries, are
objects or arrays; on those it returns `{projects: [...]}` in which every project
has a truthy id and name and an `environments` array, and every environment has
a truthy id, name and lastStatus and a `url` that is a string or truthy.  On
every other input it raises a `TypeError`. -/
theorem normalizeData_total_on_shaped (P : Platform) (k : Nat) (raw : JsVal) :
    (inputShape raw = true →
      ∃ d k', normalizeData P k raw = .ok (d, k') ∧ catalogRepaired d = true) ∧
    (inputShape raw = false → normalizeData P k raw = .error typeError) := by
  by_cases hnull : raw = .null
  · subst hnull
    exact ⟨fun h => by simp [inputShape] at h, fun _ => rfl⟩
  · rw [inputShape_of_ne_null raw hnull, normalizeData_of_ne_null P k raw hnull]
    constructor
    · intro h
      have hall : ∀ x ∈ entriesOf raw "projects", projectShape x = true := by
        simpa [List.all_eq_true] using h
      obtain ⟨ys, k', hys, hR⟩ := forEachM_forall₂ (normalizeProject P)
        (fun _ y => projectRepaired y = true) (entriesOf raw "projects")
        (fun x hx j => normalizeProject_ok P j x (hall x hx)) k
      refine ⟨_, k', by rw [hys], ?_⟩
      simp [catalogRepaired, all_of_forall₂ projectRepaired _ ys hR]
    · intro h
      have h2 : ¬ ∀ x ∈ entriesOf raw "projects", projectShape x = true := by
        intro hall
        have : (entriesOf raw "projects").all projectShape = true := by
          simpa [List.all_eq_true] using hall
        rw [h] at this; cases this
      push_neg at h2
      obtain ⟨x, hx, hne⟩ := h2
      have hf : projectShape x = false := by
        cases hi : projectShape x with
        | true => exact absurd hi hne
        | false => rfl
      rw [forEachM_error _ _ (normalizeProject_error_typeError P)
        ⟨x, hx, fun j => ⟨typeError, normalizeProject_bad P j x hf⟩⟩]

/-- C1, witness: a document with one empty project is repaired, and `null` is
rejected. -/
theorem normalizeData_total_on_shaped_witness :
    (∃ d k', normalizeData samplePlatform 0
        (JsVal.obj [("projects", JsVal.arr [JsVal.obj []] [])]) = .ok (d, k') ∧
      catalogRepaired d = true) ∧
    normalizeData samplePlatform 0 JsVal.null = .error typeError :=
  ⟨(normalizeData_total_on_shaped samplePlatform 0
      (JsVal.obj [("projects", JsVal.arr [JsVal.obj []] [])])).1 rfl,
   (normalizeData_total_on_shaped samplePlatform 0 JsVal.null).2 rfl⟩

/-! ### C2: round trip -/

mutual
theorem jsonClone_of_isJson : ∀ v, isJson v = true → jsonClone v = v
  | .arr items ps, h => by
    simp only [isJson, Bool.and_eq_true, List.isEmpty_iff] at h
    simp [jsonClone, cloneList_of_isJson items h.1, h.2]
  | .obj ps, h => by
    simp only [isJson] at h
    simp [jsonClone, cloneProps_of_isJson ps h]
  | .null, _ => rfl
  | .bool _, _ => rfl
  | .num _, _ => rfl
  | .str _, _ => rfl
theorem cloneList_of_isJson : ∀ xs, isJsonList xs = true → cloneList xs = xs
  | [], _ => rfl
  | x :: xs, h => by
    simp only [isJsonList, Bool.and_eq_true] at h
    simp [cloneList, jsonClone_of_isJson x h.1, cloneList_of_isJson xs h.2]
theorem cloneProps_of_isJson : ∀ ps, isJsonProps ps = true → cloneProps ps = ps
  | [], _ => rfl
  | (k, v) :: rest, h => by
    simp only [isJsonProps, Bool.and_eq_true] at h
    simp [cloneProps, jsonClone_of_isJson v h.1, cloneProps_of_isJson rest h.2]
end

theorem forEachM_id (f : Nat → JsVal → Except JsError (JsVal × Nat)) (xs : List JsVal)
    (h : ∀ x ∈ xs, ∀ k, f k x = .ok (x, k)) : ∀ k, forEachM f xs k = .ok (xs, k) := by
  induction xs with
  | nil => intro k; rfl
  | cons x xs ih =>
    intro k
    simp [forEachM, h x (List.mem_cons_self x xs) k,
      ih (fun z hz => h z (List.mem_cons_of_mem x hz)) k]

theorem assignProp_jsOr_nonEmptyStr (key : String) (d : JsVal) (ps : List (String × JsVal))
    (h : isNonEmptyStr (lookupProp key ps) = true) :
    assignProp key (jsOr (lookupProp key ps) d) ps = ps := by
  cases hl : lookupProp key ps with
  | none => rw [hl] at h; cases h
  | some v =>
    rw [hl] at h
    cases v <;> simp [isNonEmptyStr] at h
    exact assignProp_of_lookup key _ ps (by rw [hl]; simp [jsOr, truthy, h])

theorem truthyOpt_of_isNonEmptyStr (a : Option JsVal) (h : isNonEmptyStr a = true) :
    truthyOpt a = true := by
  cases a with
  | none => cases h
  | some v => cases v <;> simp_all [isNonEmptyStr, truthyOpt, truthy]

theorem assignProp_jsOr_str (ps : List (String × JsVal))
    (h : isStr (lookupProp "url" ps) = true) :
    assignProp "url" (jsOr (lookupProp "url" ps) (.str "")) ps = ps := by
  cases hl : lookupProp "url" ps with
  | none => rw [hl] at h; cases h
  | some v =>
    rw [hl] at h
    cases v <;> simp [isStr] at h
    rename_i t
    apply assignProp_of_lookup
    rw [hl]
    by_cases ht : t = ""
    · simp [jsOr, truthy, ht]
    · simp [jsOr, truthy, ht]

theorem assignProp_jsOr_object (key : String) (d : JsVal) (ps : List (String × JsVal))
    (h : isObject (lookupProp key ps) = true) :
    assignProp key (jsOr (lookupProp key ps) d) ps = ps := by
  cases hl : lookupProp key ps with
  | none => rw [hl] at h; cases h
  | some v =>
    rw [hl] at h
    cases v <;> simp [isObject] at h
    exact assignProp_of_lookup key _ ps (by rw [hl]; simp [jsOr, truthy])

theorem normalizeEnv_valid (P : Platform) (k : Nat) (e : JsVal) (h : validEnv e = true) :
    normalizeEnv P k e = .ok (e, k) := by
  cases e with
  | obj ps =>
    simp only [validEnv, Bool.and_eq_true] at h
    obtain ⟨⟨⟨hid, hname⟩, hurl⟩, hls⟩ := h
    rw [normalizeEnv_objLike P k (.obj ps) rfl]
    simp only [propsOf, repairedEnvProps, nextCounter, withProps,
      truthyOpt_of_isNonEmptyStr _ hid, if_true]
    rw [assignProp_jsOr_nonEmptyStr "id" _ ps hid, assignProp_jsOr_nonEmptyStr "name" _ ps hname,
      assignProp_jsOr_str ps hurl, assignProp_jsOr_object "lastStatus" _ ps hls]
  | null => cases h
  | bool _ => cases h
  | num _ => cases h
  | str _ => cases h
  | arr _ _ => cases h

theorem normalizeProject_valid (P : Platform) (k : Nat) (p : JsVal)
    (h : validProject p = true) :
    normalizeProject P k p = .ok (p, k) := by
  cases p with
  | obj ps =>
    simp only [validProject, Bool.and_eq_true] at h
    obtain ⟨⟨hid, hname⟩, henv⟩ := h
    rw [normalizeProject_objLike P k (.obj ps) rfl]
    simp only [propsOf, nextCounter, withProps, entriesOf, namedProjectProps,
      truthyOpt_of_isNonEmptyStr _ hid, if_true]
    rw [assignProp_jsOr_nonEmptyStr "id" _ ps hid, assignProp_jsOr_nonEmptyStr "name" _ ps hname]
    cases hl : lookupProp "environments" ps with
    | none => rw [hl] at henv; cases henv
    | some v =>
      rw [hl] at henv
      cases v with
      | arr es eps =>
        simp only [] at henv
        have hall : ∀ x ∈ es, validEnv x = true := by
          simpa [List.all_eq_true] using henv
        simp only [arrayOrEmpty]
        rw [forEachM_id (normalizeEnv P) es (fun x hx j => normalizeEnv_valid P j x (hall x hx)) k]
        simp only []
        rw [assignProp_of_lookup "environments" _ ps hl]
      | null => cases henv
      | bool _ => cases henv
      | num _ => cases henv
      | str _ => cases henv
      | obj _ => cases henv
  | null => cases h
  | bool _ => cases h
  | num _ => cases h
  | str _ => cases h
  | arr _ _ => cases h

/-- C2: for every valid Catalog `c`, `normalizeData` applied to the parsed
serialisation of `c` returns `c` itself (ids, names, urls, statuses and both
orders unchanged) and draws no fresh id: the `uid` counter is where it was. -/
theorem normalizeData_roundtrip (P : Platform) (k : Nat) (c : JsVal)
    (h : validCatalog c = true) :
    normalizeData P k (jsonClone c) = .ok (c, k) := by
  simp only [validCatalog, Bool.and_eq_true] at h
  obtain ⟨hj, hs⟩ := h
  rw [jsonClone_of_isJson c hj]
  split at hs
  · rename_i key ps eps
    simp only [Bool.and_eq_true, decide_eq_true_eq] at hs
    obtain ⟨hkey, hps⟩ := hs
    subst hkey
    have hall : ∀ x ∈ ps, validProject x = true := by
      simpa [List.all_eq_true] using hps
    simp only [normalizeData, getProp, lookupProp, if_true, arrayOrEmpty]
    rw [forEachM_id (normalizeProject P) ps
      (fun x hx j => normalizeProject_valid P j x (hall x hx)) k]
  · cases hs

/-- C2, witness: the sample catalog of two projects survives the round trip. -/
theorem normalizeData_roundtrip_witness :
    validCatalog sampleCatalog = true ∧
      normalizeData samplePlatform 7 (jsonClone sampleCatalog) = .ok (sampleCatalog, 7) :=
  ⟨rfl, normalizeData_roundtrip samplePlatform 7 sampleCatalog rfl⟩

/-! ### C3: the three outcomes of a probe -/

theorem getProp_withProps_same (x : JsVal) (key : String) (v : JsVal)
    (h : isObjLike x = true) :
    getProp (withProps x (assignProp key v (propsOf x))) key = .ok (some v) := by
  rw [getProp_objLike _ _ (by rw [isObjLike_withProps]; exact h), propsOf_withProps _ _ h,
    lookupProp_assignProp_same]

theorem getProp_withProps_ne (x : JsVal) (key other : String) (v : JsVal)
    (h : isObjLike x = true) (hne : other ≠ key) :
    getProp (withProps x (assignProp key v (propsOf x))) other = getProp x other := by
  rw [getProp_objLike _ _ (by rw [isObjLike_withProps]; exact h), propsOf_withProps _ _ h,
    lookupProp_assignProp_ne key other _ _ (Ne.symm hne), getProp_objLike x other h]

/-- C3: for an environment whose sanitised url is non-empty, `checkOneEnvStatus`
returns with every property but `lastStatus` as it was, and reading
`lastStatus` afterwards gives the following object.  If the transparent (cors)
request answers with a response `res`: state `up` when `res.ok` and `down`
otherwise, `httpStatus` = `res.status`, detail "CORS OK" or "HTTP <status>",
and only that request is issued.  If the transparent request rejects and the
opaque (no-cors) one settles: state `opaque`, `httpStatus` null.  If both
reject: state `down`, `httpStatus` null. -/
theorem checkOneEnvStatus_tristate (P : Platform) (W : World) (env : JsVal) (url : String)
    (henv : isObjLike env = true)
    (hurl : sanitizeUrl P (jsOr (lookupProp "url" (propsOf env)) (.str "")) = .ok url)
    (hne : url ≠ "") :
    (∀ res, W.fetch ⟨url, .cors, 10000⟩ = some res →
      ∃ env', checkOneEnvStatus P W env = .ok (env', [⟨url, .cors, 10000⟩]) ∧
        getProp env' "lastStatus" = .ok (some (JsVal.obj
          [("state", .str (if res.ok then "up" else "down")),
           ("httpStatus", .num res.status),
           ("checkedAt", .str (W.nowIso 1)),
           ("detail", .str (if res.ok then "CORS OK" else "HTTP " ++ toString res.status))])) ∧
        (∀ key, key ≠ "lastStatus" → getProp env' key = getProp env key) ∧
        env' = withProps env (assignProp "lastStatus" (JsVal.obj
          [("state", .str (if res.ok then "up" else "down")),
           ("httpStatus", .num res.status),
           ("checkedAt", .str (W.nowIso 1)),
           ("detail", .str (if res.ok then "CORS OK" else "HTTP " ++ toString res.status))])
          (propsOf env))) ∧
    (∀ res, W.fetch ⟨url, .cors, 10000⟩ = none →
      W.fetch ⟨url, .noCors, 6000⟩ = some res →
      ∃ env', checkOneEnvStatus P W env =
          .ok (env', [⟨url, .cors, 10000⟩, ⟨url, .noCors, 6000⟩]) ∧
        getProp env' "lastStatus" = .ok (some (JsVal.obj
          [("state", .str "opaque"), ("httpStatus", .null),
           ("checkedAt", .str (W.nowIso 2)),
           ("detail",
             .str "CORS blocked (opaque). Consider enabling CORS or using a proxy.")])) ∧
        (∀ key, key ≠ "lastStatus" → getProp env' key = getProp env key) ∧
        env' = withProps env (assignProp "lastStatus" (JsVal.obj
          [("state", .str "opaque"), ("httpStatus", .null),
           ("checkedAt", .str (W.nowIso 2)),
           ("detail",
             .str "CORS blocked (opaque). Consider enabling CORS or using a proxy.")])
          (propsOf env))) ∧
    (W.fetch ⟨url, .cors, 10000⟩ = none →
      W.fetch ⟨url, .noCors, 6000⟩ = none →
      ∃ env', checkOneEnvStatus P W env =
          .ok (env', [⟨url, .cors, 10000⟩, ⟨url, .noCors, 6000⟩]) ∧
        getProp env' "lastStatus" = .ok (some (JsVal.obj
          [("state", .str "down"), ("httpStatus", .null),
           ("checkedAt", .str (W.nowIso 2)),
           ("detail", .str "Network error or blocked")])) ∧
        (∀ key, key ≠ "lastStatus" → getProp env' key = getProp env key) ∧
        env' = withProps env (assignProp "lastStatus" (JsVal.obj
          [("state", .str "down"), ("httpStatus", .null),
           ("checkedAt", .str (W.nowIso 2)),
           ("detail", .str "Network error or blocked")])
          (propsOf env))) := by
  have hmin : min 10000 6000 = 6000 := by decide
  refine ⟨?_, ?_, ?_⟩
  · intro res hres
    refine ⟨_, ?_, getProp_withProps_same env "lastStatus" _ henv,
      fun key hk => getProp_withProps_ne env "lastStatus" key _ henv hk, rfl⟩
    simp only [checkOneEnvStatus, getProp_objLike env "url" henv, hurl, if_neg hne,
      corsAttempt, hres, setProp_objLike env "lastStatus" _ henv, statusObj]
  · intro res hcors hopaque
    refine ⟨_, ?_, getProp_withProps_same env "lastStatus" _ henv,
      fun key hk => getProp_withProps_ne env "lastStatus" key _ henv hk, rfl⟩
    simp only [checkOneEnvStatus, getProp_objLike env "url" henv, hurl, if_neg hne,
      corsAttempt, hcors, opaqueFallback, hmin, hopaque,
      setProp_objLike env "lastStatus" _ henv, statusObj]
  · intro hcors hopaque
    refine ⟨_, ?_, getProp_withProps_same env "lastStatus" _ henv,
      fun key hk => getProp_withProps_ne env "lastStatus" key _ henv hk, rfl⟩
    simp only [checkOneEnvStatus, getProp_objLike env "url" henv, hurl, if_neg hne,
      corsAttempt, hcors, opaqueFallback, hmin, hopaque,
      setProp_objLike env "lastStatus" _ henv, statusObj]

/-- C3, witness: on the sample environment a 200 answer gives up/200, a 503
answer gives down/503, a blocked but reachable origin gives opaque/null and an
unreachable one gives down/null. -/
theorem checkOneEnvStatus_tristate_witness :
    (∃ env', checkOneEnvStatus samplePlatform (worldStatus 200) sampleEnv =
        .ok (env', [⟨"https://shop.example/health", .cors, 10000⟩]) ∧
      getProp env' "lastStatus" = .ok (some (JsVal.obj
        [("state", .str "up"), ("httpStatus", .num 200),
         ("checkedAt", .str "2024-01-01T00:00:00.000Z"), ("detail", .str "CORS OK")]))) ∧
    (∃ env', checkOneEnvStatus samplePlatform (worldStatus 503) sampleEnv =
        .ok (env', [⟨"https://shop.example/health", .cors, 10000⟩]) ∧
      getProp env' "lastStatus" = .ok (some (JsVal.obj
        [("state", .str "down"), ("httpStatus", .num 503),
         ("checkedAt", .str "2024-01-01T00:00:00.000Z"), ("detail", .str "HTTP 503")]))) ∧
    (∃ env', checkOneEnvStatus samplePlatform (worldBlocked true) sampleEnv =
        .ok (env', [⟨"https://shop.example/health", .cors, 10000⟩,
          ⟨"https://shop.example/health", .noCors, 6000⟩]) ∧
      getProp env' "lastStatus" = .ok (some (JsVal.obj
        [("state", .str "opaque"), ("httpStatus", .null),
         ("checkedAt", .str "2024-01-01T00:00:00.000Z"),
         ("detail",
           .str "CORS blocked (opaque). Consider enabling CORS or using a proxy.")]))) ∧
    (∃ env', checkOneEnvStatus samplePlatform (worldBlocked false) sampleEnv =
        .ok (env', [⟨"https://shop.example/health", .cors, 10000⟩,
          ⟨"https://shop.example/health", .noCors, 6000⟩]) ∧
      getProp env' "lastStatus" = .ok (some (JsVal.obj
        [("state", .str "down"), ("httpStatus", .null),
         ("checkedAt", .str "2024-01-01T00:00:00.000Z"),
         ("detail", .str "Network error or blocked")]))) := by
  obtain ⟨e1, h1, g1, _⟩ := (checkOneEnvStatus_tristate samplePlatform (worldStatus 200)
    sampleEnv "https://shop.example/health" rfl rfl (by decide)).1 (Response.ofStatus 200) rfl
  obtain ⟨e2, h2, g2, _⟩ := (checkOneEnvStatus_tristate samplePlatform (worldStatus 503)
    sampleEnv "https://shop.example/health" rfl rfl (by decide)).1 (Response.ofStatus 503) rfl
  obtain ⟨e3, h3, g3, _⟩ := (checkOneEnvStatus_tristate samplePlatform (worldBlocked true)
    sampleEnv "https://shop.example/health" rfl rfl (by decide)).2.1 ⟨false, 0⟩ rfl rfl
  obtain ⟨e4, h4, g4, _⟩ := (checkOneEnvStatus_tristate samplePlatform (worldBlocked false)
    sampleEnv "https://shop.example/health" rfl rfl (by decide)).2.2 rfl rfl
  exact ⟨⟨e1, h1, g1⟩, ⟨e2, h2, g2⟩, ⟨e3, h3, g3⟩, ⟨e4, h4, g4⟩⟩

/-! ### C4: no url, no request -/

theorem jsOr_blankUrl (u : Option JsVal) (h : blankUrl u = true) :
    ∃ t, jsOr u (.str "") = .str t ∧ jsTrim t = "" := by
  cases u with
  | none => exact ⟨"", rfl, by decide⟩
  | some v =>
    cases v with
    | str s =>
      simp only [blankUrl, decide_eq_true_eq] at h
      by_cases hs : s = ""
      · exact ⟨"", by simp [jsOr, truthy, hs], by decide⟩
      · exact ⟨s, by simp [jsOr, truthy, hs], h⟩
    | null => exact ⟨"", rfl, by decide⟩
    | bool b =>
      simp only [blankUrl, truthy, Bool.not_eq_true'] at h
      exact ⟨"", by simp [jsOr, truthy, h], by decide⟩
    | num q =>
      simp only [blankUrl, truthy, Bool.not_eq_true'] at h
      exact ⟨"", by simp [jsOr, truthy, h], by decide⟩
    | arr items ps => simp [blankUrl, truthy] at h
    | obj ps => simp [blankUrl, truthy] at h

/-- C4: for an environment whose `url` is missing, empty or blank after
trimming (the URL constructor rejecting it), `checkOneEnvStatus` returns with
every property but `lastStatus` as it was, reading `lastStatus` afterwards gives
state `unknown`, `httpStatus` null, `checkedAt` now and detail "No URL", and no
request is issued: the list of requests is empty. -/
theorem checkOneEnvStatus_no_url (P : Platform) (W : World) (env : JsVal)
    (henv : isObjLike env = true)
    (hblank : blankUrl (lookupProp "url" (propsOf env)) = true)
    (hrej : P.newURL (jsOr (lookupProp "url" (propsOf env)) (.str "")) = none) :
    ∃ env', checkOneEnvStatus P W env = .ok (env', []) ∧
      getProp env' "lastStatus" = .ok (some (JsVal.obj
        [("state", .str "unknown"), ("httpStatus", .null),
         ("checkedAt", .str (W.nowIso 0)), ("detail", .str "No URL")])) ∧
      (∀ key, key ≠ "lastStatus" → getProp env' key = getProp env key) ∧
      env' = withProps env (assignProp "lastStatus" (JsVal.obj
        [("state", .str "unknown"), ("httpStatus", .null),
         ("checkedAt", .str (W.nowIso 0)), ("detail", .str "No URL")]) (propsOf env)) := by
  obtain ⟨t, ht, htrim⟩ := jsOr_blankUrl _ hblank
  rw [ht] at hrej
  refine ⟨_, ?_, getProp_withProps_same env "lastStatus" _ henv,
    fun key hk => getProp_withProps_ne env "lastStatus" key _ henv hk, rfl⟩
  simp only [checkOneEnvStatus, getProp_objLike env "url" henv, ht, sanitizeUrl, hrej, htrim,
    if_true, setProp_objLike env "lastStatus" _ henv, statusObj]

/-- C4, witness: the environment whose url is a space and a tab gets
`unknown` / "No URL" and no request is issued, whatever the transport. -/
theorem checkOneEnvStatus_no_url_witness :
    ∃ env', checkOneEnvStatus samplePlatform (worldStatus 200) blankEnv = .ok (env', []) ∧
      getProp env' "lastStatus" = .ok (some (JsVal.obj
        [("state", .str "unknown"), ("httpStatus", .null),
         ("checkedAt", .str "2024-01-01T00:00:00.000Z"), ("detail", .str "No URL")])) ∧
      getProp env' "id" = .ok (some (.str "e_b")) ∧
      getProp env' "url" = .ok (some (.str " \t")) := by
  obtain ⟨env', h1, h2, h3, _⟩ :=
    checkOneEnvStatus_no_url samplePlatform (worldStatus 200) blankEnv rfl (by decide) rfl
  exact ⟨env', h1, h2, by rw [h3 "id" (by decide)]; rfl, by rw [h3 "url" (by decide)]; rfl⟩

/-! ### The save callback -/

theorem autoSave_congr (P : Platform) (F : SaveOutcomes) (s t : App)
    (hd : s.data = t.data) (hf : s.fileHandle = t.fileHandle) :
    autoSave P F s = autoSave P F t := by
  simp [autoSave, saveToConnectedFile, ensureWritePermission, writeThrough, hd, hf]

theorem saveCallback_eq (P : Platform) (H : Host) (st : App) :
    ∃ st', saveCallback P H st = .ok st' ∧ st'.data = catalogAtStore H st ∧
      st'.timers = st.timers ∧
      st'.saveTimer = none ∧ st'.now = st.now ∧ st'.fileHandle = st.fileHandle ∧
      st'.nextId = st.nextId ∧ st'.draws = st.draws ∧
      st'.log = st.log ++
        ((autoSave P (H.save st.now) { st with data := catalogAtWrite H st } ++
          [Effect.setItem "status_dashboard_data" (P.stringify (catalogAtStore H st) 0)]).map
            fun e => (st.now, e)) := by
  have hc : autoSave P (H.save st.now)
      { ({ st with saveTimer := none } : App) with data := catalogAtWrite H st } =
      autoSave P (H.save st.now) { st with data := catalogAtWrite H st } :=
    autoSave_congr P _ _ _ rfl rfl
  cases hs : (H.save st.now).setItem with
  | ok u =>
    simp only [saveCallback, hs]
    refine ⟨_, rfl, ?_⟩
    simp [App.emit, hc]
  | error e =>
    simp only [saveCallback, hs]
    refine ⟨_, rfl, ?_⟩
    simp [App.emit, hc]

theorem ensureWritePermission_effects (F : SaveOutcomes) (st : App)
    (hf : st.fileHandle = true) :
    (ensureWritePermission F st).2 = [.queryPermission] ∨
      (ensureWritePermission F st).2 = [.queryPermission, .requestPermission] := by
  obtain ⟨q, r, c, t, w, cl, si⟩ := F
  simp only [ensureWritePermission, hf]
  cases q with
  | error e => simp
  | ok cur =>
    cases cur <;> cases r <;> simp

theorem writeThrough_effects (P : Platform) (F : SaveOutcomes) (st : App) :
    ∀ e ∈ (writeThrough P F st).2,
      e = .createWritable ∨ e = .truncate 0 ∨ e = .write (P.stringify st.data 2) ∨
        e = .close ∨ e = .toast "Saved to connected file." "success" := by
  obtain ⟨q, r, c, t, w, cl, si⟩ := F
  simp only [writeThrough]
  cases c <;> cases t <;> cases w <;> cases cl <;> simp

/-- The shape of the effects of the connected-file part of a save: one
`queryPermission` call first, then only permission, stream and toast
effects, every `write` carrying the pretty-printed catalog. -/
theorem autoSave_effects (P : Platform) (F : SaveOutcomes) (st : App)
    (hf : st.fileHandle = true) :
    ∃ rest, autoSave P F st = .queryPermission :: rest ∧
      ∀ e ∈ rest, e = .requestPermission ∨ e = .createWritable ∨ e = .truncate 0 ∨
        e = .write (P.stringify st.data 2) ∨ e = .close ∨ ∃ m ty, e = .toast m ty := by
  have hw := writeThrough_effects P F st
  have key : ∀ pre : List Effect,
      (pre = [.queryPermission] ∨ pre = [.queryPermission, .requestPermission]) →
      ∀ tl : List Effect,
      (∀ e ∈ tl, e = .requestPermission ∨ e = .createWritable ∨ e = .truncate 0 ∨
        e = .write (P.stringify st.data 2) ∨ e = .close ∨ ∃ m ty, e = .toast m ty) →
      ∃ rest, pre ++ tl = .queryPermission :: rest ∧
        ∀ e ∈ rest, e = .requestPermission ∨ e = .createWritable ∨ e = .truncate 0 ∨
          e = .write (P.stringify st.data 2) ∨ e = .close ∨ ∃ m ty, e = .toast m ty := by
    intro pre hpre tl htl
    rcases hpre with h | h
    · exact ⟨tl, by rw [h]; rfl, htl⟩
    · refine ⟨.requestPermission :: tl, by rw [h]; rfl, ?_⟩
      intro e he
      rcases List.mem_cons.mp he with h1 | h1
      · exact Or.inl h1
      · exact htl e h1
  have hw' : ∀ e ∈ (writeThrough P F st).2,
      e = .requestPermission ∨ e = .createWritable ∨ e = .truncate 0 ∨
        e = .write (P.stringify st.data 2) ∨ e = .close ∨ ∃ m ty, e = .toast m ty := by
    intro e he
    rcases hw e he with h | h | h | h | h <;> subst h <;> simp
  have hpre := ensureWritePermission_effects F st hf
  simp only [autoSave, hf, if_true, saveToConnectedFile, Bool.not_true, Bool.false_eq_true,
    if_false]
  by_cases hp : (ensureWritePermission F st).1 = true
  · simp only [hp, Bool.not_true, Bool.false_eq_true, if_false]
    cases hres : (writeThrough P F st).1 with
    | ok u => exact key _ hpre _ hw'
    | error e =>
      simp only []
      rw [List.append_assoc]
      refine key _ hpre _ ?_
      intro x hx
      rcases List.mem_append.mp hx with h1 | h1
      · exact hw' x h1
      · simp only [List.mem_singleton] at h1
        subst h1
        simp
  · simp only [hp, Bool.not_false, if_true]
    refine key _ hpre _ ?_
    intro x hx
    simp only [List.mem_singleton] at hx
    subst hx
    simp

theorem autoSave_disconnected (P : Platform) (F : SaveOutcomes) (st : App)
    (hf : st.fileHandle = false) : autoSave P F st = [] := by
  simp [autoSave, hf]

/-! ### Timers -/

theorem clearTimeout_wellTimed (s : App) (h : wellTimed s = true) :
    (clearTimeout s s.saveTimer).timers = [] := by
  simp only [wellTimed, Bool.and_eq_true, decide_eq_true_eq, List.all_eq_true] at h
  obtain ⟨hlen, hall⟩ := h
  cases hts : s.timers with
  | nil => cases hst : s.saveTimer <;> simp [clearTimeout, hts]
  | cons tm rest =>
    have hid := hall tm (by rw [hts]; exact List.mem_cons_self tm rest)
    have hrest : rest = [] := by
      rw [hts] at hlen
      cases rest with
      | nil => rfl
      | cons a b => simp at hlen
    subst hrest
    rw [hid]
    simp [clearTimeout, hts]

theorem queueSave_fields (s : App) :
    (queueSave s).now = s.now ∧ (queueSave s).log = s.log ∧ (queueSave s).data = s.data ∧
      (queueSave s).fileHandle = s.fileHandle ∧ (queueSave s).localStore = s.localStore ∧
      (queueSave s).draws = s.draws := by
  cases hst : s.saveTimer <;> simp [queueSave, clearTimeout, hst]

theorem queueSave_armed (st0 s : App) (h : wellTimed s = true) (hlog : s.log = st0.log)
    (hfh : s.fileHandle = st0.fileHandle) : Armed st0 (queueSave s) (s.now + 500) := by
  have hclr := clearTimeout_wellTimed s h
  obtain ⟨hnow, hl, _, hf, _, _⟩ := queueSave_fields s
  refine ⟨⟨(clearTimeout s s.saveTimer).nextId, ?_, rfl⟩, ?_, ?_, ?_⟩
  · have hn : (clearTimeout s s.saveTimer).now = s.now := by
      cases hst : s.saveTimer <;> simp [clearTimeout]
    simp [queueSave, hclr, hn]
  · rw [hnow]; omega
  · rw [hl, hlog]
  · rw [hf, hfh]

theorem wellTimed_of_armed (st0 s : App) (due : Nat) (h : Armed st0 s due) :
    wellTimed s = true := by
  obtain ⟨⟨id, hts, hst⟩, _⟩ := h
  simp [wellTimed, hts, hst]

theorem advance_armed_early (P : Platform) (H : Host) (st0 s : App) (due t : Nat)
    (h : Armed st0 s due) (ht : t < due) :
    advance P H s t = { s with now := max s.now t } := by
  obtain ⟨⟨id, hts, _⟩, _⟩ := h
  have hnot : ¬ due ≤ t := by omega
  simp [advance, dueTimers, hts, hnot]

theorem advance_armed_due (P : Platform) (H : Host) (st0 s : App) (due t : Nat)
    (h : Armed st0 s due) (ht : due ≤ t) :
    ∃ s2, saveCallback P H { s with now := due, timers := [] } = .ok s2 ∧
      advance P H s t = { s2 with now := t } := by
  obtain ⟨⟨id, hts, _⟩, hnow, _⟩ := h
  obtain ⟨s2, hs2, _, _, _, hn2, _⟩ := saveCallback_eq P H { s with now := due, timers := [] }
  refine ⟨s2, hs2, ?_⟩
  have hmax : max s.now due = due := by omega
  have hn2' : s2.now = due := hn2
  simp [advance, dueTimers, hts, ht, fire, hmax, hs2, hn2', Nat.max_eq_right ht]

theorem saveEffects_facts (P : Platform) (F : SaveOutcomes) (s : App) (text : String) :
    (autoSave P F s ++ [Effect.setItem "status_dashboard_data" text]).filter
        Effect.isSetItem = [Effect.setItem "status_dashboard_data" text] ∧
    (autoSave P F s ++ [Effect.setItem "status_dashboard_data" text]).filter
        Effect.isQueryPermission = (if s.fileHandle then [Effect.queryPermission] else []) ∧
    (∀ w, Effect.write w ∈ autoSave P F s ++ [Effect.setItem "status_dashboard_data" text] →
        w = P.stringify s.data 2) := by
  cases hf : s.fileHandle with
  | false =>
    rw [autoSave_disconnected P F s hf]
    simp [Effect.isSetItem, Effect.isQueryPermission]
  | true =>
    obtain ⟨rest, hrest, hshape⟩ := autoSave_effects P F s hf
    rw [hrest]
    have hnoSet : rest.filter Effect.isSetItem = [] := by
      rw [List.filter_eq_nil_iff]
      intro e he
      rcases hshape e he with h | h | h | h | h | ⟨m, ty, h⟩ <;> simp [h, Effect.isSetItem]
    have hnoQ : rest.filter Effect.isQueryPermission = [] := by
      rw [List.filter_eq_nil_iff]
      intro e he
      rcases hshape e he with h | h | h | h | h | ⟨m, ty, h⟩ <;>
        simp [h, Effect.isQueryPermission]
    refine ⟨?_, ?_, ?_⟩
    · simp [List.filter_cons, List.filter_append, hnoSet, Effect.isSetItem]
    · simp [List.filter_cons, List.filter_append, hnoQ, Effect.isQueryPermission]
    · intro w hw
      have hw' : Effect.write w ∈ rest := by
        simpa using hw
      rcases hshape _ hw' with h | h | h | h | h | ⟨m, ty, h⟩
      · cases h
      · cases h
      · cases h
      · cases h; rfl
      · cases h
      · cases h

theorem run_append (P : Platform) (H : Host) (s : App) (es fs : List Event) :
    run P H s (es ++ fs) = run P H (run P H s es) fs := by
  simp [run, List.foldl_append]

theorem burst_armed (P : Platform) (H : Host) (st0 : App) (calls : List (Nat × JsVal))
    (hgaps : ∀ c ∈ calls, c.1 < 500) :
    ∀ s : App, Armed st0 s (s.now + 500) →
      Armed st0 (run P H s (burst calls)) (s.now + (calls.map Prod.fst).sum + 500) ∧
      (run P H s (burst calls)).now = s.now + (calls.map Prod.fst).sum := by
  induction calls with
  | nil => intro s hs; simpa [burst, run] using hs
  | cons c cs ih =>
    intro s hs
    have hc : c.1 < 500 := hgaps c (List.mem_cons_self c cs)
    have hstep : run P H s (burst (c :: cs)) =
        run P H (queueSave { s with now := s.now + c.1, data := c.2 }) (burst cs) := by
      have hadv := advance_armed_early P H st0 s (s.now + 500) (s.now + c.1) hs (by omega)
      have hmax : max s.now (s.now + c.1) = s.now + c.1 := by omega
      rw [hmax] at hadv
      have hb : burst (c :: cs) = [.wait c.1, .setData c.2, .queueSave] ++ burst cs := by
        simp [burst, List.flatMap_cons]
      rw [hb, run_append]
      simp [run, step, hadv]
    have hwt : wellTimed { s with now := s.now + c.1, data := c.2 } = true := by
      have := wellTimed_of_armed st0 s _ hs
      simpa [wellTimed] using this
    obtain ⟨_, _, hl, hf⟩ := hs
    have harm := queueSave_armed st0 { s with now := s.now + c.1, data := c.2 } hwt hl hf
    have hnow : (queueSave { s with now := s.now + c.1, data := c.2 }).now = s.now + c.1 :=
      (queueSave_fields _).1
    have harm' : Armed st0 (queueSave { s with now := s.now + c.1, data := c.2 })
        ((queueSave { s with now := s.now + c.1, data := c.2 }).now + 500) := by
      rw [hnow]; exact harm
    obtain ⟨h1, h2⟩ := ih (fun x hx => hgaps x (List.mem_cons_of_mem c hx)) _ harm'
    rw [hstep]
    rw [hnow] at h1 h2
    simp only [List.map_cons, List.sum_cons]
    constructor
    · have : s.now + (c.1 + (cs.map Prod.fst).sum) + 500 =
          s.now + c.1 + (cs.map Prod.fst).sum + 500 := by omega
      rw [this]; exact h1
    · rw [h2]; omega

/-! ### C5: debounce -/

/-- C5, counterexample: on a page with a connected file the timer fires at 500ms
while the catalog is the sample catalog (two projects, serialised as
`catalog:2:2` and `catalog:2:0`); another task empties the catalog while the
save awaits the file calls, and what the save writes to the file and to the
local store is the emptied catalog, not the catalog of the moment the timer
fired. -/
theorem queueSave_serialises_later_catalog :
    (run samplePlatform busyHost (freshApp sampleCatalog true)
      [Event.queueSave, Event.wait 499]).data = sampleCatalog ∧
    samplePlatform.stringify sampleCatalog 2 = "catalog:2:2" ∧
    samplePlatform.stringify sampleCatalog 0 = "catalog:2:0" ∧
    (run samplePlatform busyHost (freshApp sampleCatalog true)
      [Event.queueSave, Event.wait 500]).log =
      [(500, Effect.queryPermission), (500, Effect.createWritable), (500, Effect.truncate 0),
        (500, Effect.write "catalog:0:2"), (500, Effect.close),
        (500, Effect.toast "Saved to connected file." "success"),
        (500, Effect.setItem "status_dashboard_data" "catalog:0:0")] :=
  ⟨rfl, rfl, rfl, rfl⟩

/-- C5, as amended: after a first `queueSave()` and any number of further calls,
each less than 500ms after the one before (the catalog being mutated at will in
between and after), exactly one save runs: it starts 500ms after the last call,
makes exactly one `localStorage.setItem` call and, when a file is connected,
exactly one write-through attempt.  What it serialises is never the catalog of
a call: with no file connected it is the catalog as it is when the timer fires
(`dFin`, set after the last call); with a file connected it is the catalog as
the other tasks have left it when each `JSON.stringify` runs, after the awaited
file calls. -/
theorem queueSave_debounce (P : Platform) (H : Host) (st : App)
    (calls : List (Nat × JsVal)) (d1 d2 : Nat) (dFin : JsVal)
    (hwt : wellTimed st = true) (hgaps : ∀ c ∈ calls, c.1 < 500)
    (h1 : d1 < 500) (h2 : 500 ≤ d1 + d2) :
    ∃ added,
      (run P H st ([Event.queueSave] ++ burst calls ++
          [Event.wait d1, Event.setData dFin, Event.wait d2])).log = st.log ++ added ∧
      added.filter (fun x => x.2.isSetItem) =
        [(st.now + (calls.map Prod.fst).sum + 500,
          Effect.setItem "status_dashboard_data"
            (P.stringify (if st.fileHandle = true then
              H.atStore (st.now + (calls.map Prod.fst).sum + 500) dFin else dFin) 0))] ∧
      added.filter (fun x => x.2.isQueryPermission) =
        (if st.fileHandle then
          [(st.now + (calls.map Prod.fst).sum + 500, Effect.queryPermission)] else []) ∧
      (∀ t w, (t, Effect.write w) ∈ added →
        t = st.now + (calls.map Prod.fst).sum + 500 ∧
        st.fileHandle = true ∧
        w = P.stringify (H.atWrite (st.now + (calls.map Prod.fst).sum + 500) dFin) 2) ∧
      (∀ x ∈ added, x.1 = st.now + (calls.map Prod.fst).sum + 500) := by
  have harm0 : Armed st (queueSave st) ((queueSave st).now + 500) := by
    rw [(queueSave_fields st).1]
    exact queueSave_armed st st hwt rfl rfl
  obtain ⟨hB, hBnow⟩ := burst_armed P H st calls hgaps (queueSave st) harm0
  rw [(queueSave_fields st).1] at hB hBnow
  generalize hsB : run P H (queueSave st) (burst calls) = sB at hB hBnow
  generalize hT : st.now + (calls.map Prod.fst).sum = T at hB hBnow
  have hrun : run P H st ([Event.queueSave] ++ burst calls ++
      [Event.wait d1, Event.setData dFin, Event.wait d2]) =
      advance P H { sB with now := T + d1, data := dFin } (T + d1 + d2) := by
    have hadv := advance_armed_early P H st sB (T + 500) (sB.now + d1) hB (by omega)
    have hmax : max sB.now (sB.now + d1) = T + d1 := by omega
    rw [hmax] at hadv
    rw [run_append, run_append]
    have hq : run P H st [Event.queueSave] = queueSave st := rfl
    rw [hq, hsB]
    simp [run, step, hadv]
  have hB' : Armed st { sB with now := T + d1, data := dFin } (T + 500) := by
    obtain ⟨hid, _, hl, hf⟩ := hB
    exact ⟨hid, by show T + d1 < T + 500; omega, hl, hf⟩
  have hfh : sB.fileHandle = st.fileHandle := hB.2.2.2
  obtain ⟨s2, hs2, hadv2⟩ := advance_armed_due P H st _ (T + 500) (T + d1 + d2) hB' (by omega)
  obtain ⟨s2', hs2', _, _, _, _, _, _, _, hlog⟩ := saveCallback_eq P H
    { sB with now := T + 500, timers := [], data := dFin }
  have heq : s2 = s2' := by
    have hsame : ({ ({ sB with now := T + d1, data := dFin } : App) with
        now := T + 500, timers := [] } : App) =
        { sB with now := T + 500, timers := [], data := dFin } := rfl
    rw [hsame, hs2'] at hs2
    cases hs2; rfl
  subst heq
  have hcs : catalogAtStore H { sB with now := T + 500, timers := [], data := dFin } =
      (if st.fileHandle = true then H.atStore (T + 500) dFin else dFin) := by
    simp only [catalogAtStore, hfh]
  have hcw : st.fileHandle = true →
      catalogAtWrite H { sB with now := T + 500, timers := [], data := dFin } =
        H.atWrite (T + 500) dFin := by
    intro hf
    simp only [catalogAtWrite, hfh, hf, if_true]
  rw [hcs] at hlog
  generalize hsW : ({ ({ sB with now := T + 500, timers := [], data := dFin } : App) with
      data := catalogAtWrite H { sB with now := T + 500, timers := [], data := dFin } } : App)
      = sW at hlog
  have hsWf : sW.fileHandle = st.fileHandle := by rw [← hsW]; exact hfh
  have hsWd : st.fileHandle = true → sW.data = H.atWrite (T + 500) dFin := by
    intro hf; rw [← hsW]; exact hcw hf
  obtain ⟨hset, hq, hwr⟩ := saveEffects_facts P (H.save (T + 500)) sW
    (P.stringify (if st.fileHandle = true then H.atStore (T + 500) dFin else dFin) 0)
  refine ⟨(autoSave P (H.save (T + 500)) sW ++
        [Effect.setItem "status_dashboard_data"
          (P.stringify (if st.fileHandle = true then H.atStore (T + 500) dFin else dFin) 0)]).map
          (fun e => (T + 500, e)), ?_, ?_, ?_, ?_, ?_⟩
  · rw [hrun, hadv2]
    show s2.log = _
    rw [hlog]
    show sB.log ++ _ = st.log ++ _
    rw [hB.2.2.1]
  · rw [List.filter_map]
    have hcomp : ((fun x : Nat × Effect => x.2.isSetItem) ∘ fun e => (T + 500, e)) =
        Effect.isSetItem := rfl
    rw [hcomp]
    exact congrArg (List.map fun e => (T + 500, e)) hset
  · rw [List.filter_map]
    have hcomp : ((fun x : Nat × Effect => x.2.isQueryPermission) ∘ fun e => (T + 500, e)) =
        Effect.isQueryPermission := rfl
    rw [hcomp, hq, hsWf]
    cases st.fileHandle <;> rfl
  · intro t w hmem
    rw [List.mem_map] at hmem
    obtain ⟨e, he, hpair⟩ := hmem
    cases hpair
    have hconn : st.fileHandle = true := by
      cases hf : st.fileHandle with
      | true => rfl
      | false =>
        rw [autoSave_disconnected P _ sW (by rw [hsWf]; exact hf)] at he
        simp at he
    exact ⟨rfl, hconn, by rw [hwr w he, hsWd hconn]⟩
  · intro x hx
    rw [List.mem_map] at hx
    obtain ⟨e, _, hpair⟩ := hx
    rw [← hpair]

/-- C5, witness: three calls at 0ms, 100ms and 599ms on a connected page where
no other task interferes, the catalog emptied 300ms after the last call: a
single save at 1099ms, writing the emptied catalog. -/
theorem queueSave_debounce_witness :
    ∃ added,
      (run samplePlatform quietHost (freshApp sampleCatalog true)
        ([Event.queueSave] ++ burst [(100, defaultStatus), (499, sampleCatalog)] ++
          [Event.wait 300, Event.setData (JsVal.obj [("projects", JsVal.arr [] [])]),
            Event.wait 250])).log = [] ++ added ∧
      added.filter (fun x => x.2.isSetItem) =
        [(1099, Effect.setItem "status_dashboard_data" "catalog:0:0")] ∧
      added.filter (fun x => x.2.isQueryPermission) = [(1099, Effect.queryPermission)] ∧
      (∀ t w, (t, Effect.write w) ∈ added → t = 1099 ∧ true = true ∧ w = "catalog:0:2") ∧
      (∀ x ∈ added, x.1 = 1099) :=
  queueSave_debounce samplePlatform quietHost (freshApp sampleCatalog true)
    [(100, defaultStatus), (499, sampleCatalog)] 300 250
    (JsVal.obj [("projects", JsVal.arr [] [])]) rfl
    (by intro c hc; simp at hc; rcases hc with h | h <;> simp [h])
    (by decide) (by decide)

/-! ### C6: the debounced save never throws and always backs up locally -/

/-- C6: when the debounced save fires, whatever the write-through does (no file
connected, success, permission denied, permission check throwing, a stream call
throwing), whatever `localStorage` does and whatever the other tasks do to the
catalog meanwhile, the callback completes without an exception, the save
itself leaves the catalog as it finds it (unchanged when no other task touched
it), `localStorage.setItem` is called last with the full serialised catalog
(which becomes the stored value unless `setItem` itself throws, a failure that
is swallowed), and a throw of `saveToConnectedFile` is reported by an
"Auto-save failed" toast of type `error`. -/
theorem saveCallback_backs_up (P : Platform) (H : Host) (st : App) :
    ∃ st', saveCallback P H st = .ok st' ∧ st'.data = catalogAtStore H st ∧
      (st.fileHandle = false ∨ H.atStore st.now st.data = st.data → st'.data = st.data) ∧
      (∃ pre, st'.log = st.log ++ pre ++
        [(st.now, Effect.setItem "status_dashboard_data" (P.stringify st'.data 0))]) ∧
      ((H.save st.now).setItem = .ok () →
        st'.localStore = some (P.stringify st'.data 0)) ∧
      (∀ e, (H.save st.now).setItem = .error e → st'.localStore = st.localStore) ∧
      (∀ e, st.fileHandle = true →
        (saveToConnectedFile P (H.save st.now) { st with data := catalogAtWrite H st }).1 =
          .error e →
        (st.now, Effect.toast ("Auto-save failed: " ++ escapeHtml (errText e)) "error") ∈
          st'.log) := by
  have hc : autoSave P (H.save st.now)
      { ({ st with saveTimer := none } : App) with data := catalogAtWrite H st } =
      autoSave P (H.save st.now) { st with data := catalogAtWrite H st } :=
    autoSave_congr P _ _ _ rfl rfl
  have hsame : st.fileHandle = false ∨ H.atStore st.now st.data = st.data →
      catalogAtStore H st = st.data := by
    intro h
    unfold catalogAtStore
    rcases h with h | h
    · simp [h]
    · rw [h]; simp
  have htoast : ∀ e, st.fileHandle = true →
      (saveToConnectedFile P (H.save st.now) { st with data := catalogAtWrite H st }).1 =
        .error e →
      Effect.toast ("Auto-save failed: " ++ escapeHtml (errText e)) "error" ∈
        autoSave P (H.save st.now) { st with data := catalogAtWrite H st } := by
    intro e hf he
    unfold autoSave
    rw [if_pos (show ({ st with data := catalogAtWrite H st } : App).fileHandle = true from hf)]
    generalize saveToConnectedFile P (H.save st.now)
      { st with data := catalogAtWrite H st } = r at he
    obtain ⟨r1, r2⟩ := r
    simp only [] at he
    subst he
    simp
  cases hs : (H.save st.now).setItem with
  | ok u =>
    simp only [saveCallback, hs]
    refine ⟨_, rfl, rfl, hsame,
      ⟨(autoSave P (H.save st.now) { st with data := catalogAtWrite H st }).map
        fun e => (st.now, e), ?_⟩, ?_, ?_, ?_⟩
    · simp [App.emit, hc]
    · intro _; rfl
    · intro e he; cases he
    · intro e hf he
      simp only [App.emit, hc, List.mem_append, List.mem_map]
      exact Or.inl (Or.inr ⟨_, htoast e hf he, rfl⟩)
  | error err =>
    simp only [saveCallback, hs]
    refine ⟨_, rfl, rfl, hsame,
      ⟨(autoSave P (H.save st.now) { st with data := catalogAtWrite H st }).map
        fun e => (st.now, e), ?_⟩, ?_, ?_, ?_⟩
    · simp [App.emit, hc]
    · intro he; cases he
    · intro _ _; rfl
    · intro e hf he
      simp only [App.emit, hc, List.mem_append, List.mem_map]
      exact Or.inl (Or.inr ⟨_, htoast e hf he, rfl⟩)

/-- C6, witness: on a host where the permission query throws, the stream write
throws and `localStorage` is full, the callback still completes, reports
"Auto-save failed" and calls `setItem` with the serialised catalog. -/
theorem saveCallback_backs_up_witness :
    (saveCallback samplePlatform failingHost (freshApp sampleCatalog true)).toOption.map
        (fun s => (s.log, s.localStore)) =
      some ([(0, Effect.queryPermission), (0, Effect.createWritable), (0, Effect.truncate 0),
          (0, Effect.write "catalog:2:2"),
          (0, Effect.toast "Auto-save failed: NoModificationAllowedError" "error"),
          (0, Effect.setItem "status_dashboard_data" "catalog:2:0")], none) := by
  obtain ⟨st', h, _⟩ := saveCallback_backs_up samplePlatform failingHost
    (freshApp sampleCatalog true)
  rw [h]
  cases h
  rfl

/-! ### C7: the manual save -/

/-- C7, counterexample: with a connected file whose permission query throws
while the stream calls complete, the Save button reports no error (the only
toast is the success one), and it makes no `localStorage` write at all: the
stored value stays absent. -/
theorem saveButtonClick_permission_throw_no_error :
    (saveButtonClick samplePlatform throwingQueryHost
        (freshApp sampleCatalog true)).toOption.map (fun s => (s.log, s.localStore)) =
      some ([(0, Effect.queryPermission), (0, Effect.createWritable), (0, Effect.truncate 0),
          (0, Effect.write "catalog:2:2"), (0, Effect.close),
          (0, Effect.toast "Saved to connected file." "success")], none) := rfl

theorem saveToConnectedFile_effects (P : Platform) (F : SaveOutcomes) (st : App)
    (hf : st.fileHandle = true) :
    ∀ e ∈ (saveToConnectedFile P F st).2, e.isSetItem = false := by
  have hw := writeThrough_effects P F st
  have hp := ensureWritePermission_effects F st hf
  have hpre : ∀ e ∈ (ensureWritePermission F st).2, e.isSetItem = false := by
    intro e he
    rcases hp with h | h <;> rw [h] at he <;> simp at he
    · rw [he]; rfl
    · rcases he with h1 | h1 <;> rw [h1] <;> rfl
  have hw' : ∀ e ∈ (writeThrough P F st).2, e.isSetItem = false := by
    intro e he
    rcases hw e he with h | h | h | h | h <;> rw [h] <;> rfl
  intro e he
  simp only [saveToConnectedFile, hf, Bool.not_true, Bool.false_eq_true, if_false] at he
  by_cases hperm : (ensureWritePermission F st).1 = true
  · simp only [hperm, Bool.not_true, Bool.false_eq_true, if_false, List.mem_append] at he
    rcases he with h | h
    · exact hpre e h
    · exact hw' e h
  · simp only [hperm, Bool.not_false, if_true] at he
    exact hpre e he

/-- C7, as amended: the Save button on a connected file never lets an exception
escape, leaves the catalog and the local fallback store as they were (it makes
no `localStorage` call), and reports every throw of `saveToConnectedFile` with a
"Save failed" toast of type `error`.  `saveToConnectedFile` throws when
permission is refused and when a stream call of the write-through throws; a
throw of the permission query itself counts as permission, so the write is
tried anyway. -/
theorem saveButtonClick_reports (P : Platform) (H : Host) (st : App)
    (hf : st.fileHandle = true) :
    ∃ st', saveButtonClick P H st = .ok st' ∧ st'.data = st.data ∧
      st'.localStore = st.localStore ∧
      (∃ added, st'.log = st.log ++ added ∧ ∀ x ∈ added, x.2.isSetItem = false) ∧
      (∀ e, (saveToConnectedFile P (H.save st.now) st).1 = .error e →
        (st.now, Effect.toast ("Save failed: <code>" ++ escapeHtml (errText e) ++ "</code>")
          "error") ∈ st'.log) ∧
      ((ensureWritePermission (H.save st.now) st).1 = false →
        (saveToConnectedFile P (H.save st.now) st).1 =
          .error ⟨"Error", "Write permission denied. Please allow write access when prompted."⟩) ∧
      (∀ e, (ensureWritePermission (H.save st.now) st).1 = true →
        (writeThrough P (H.save st.now) st).1 = .error e →
        (saveToConnectedFile P (H.save st.now) st).1 = .error e) ∧
      (∀ e, (H.save st.now).queryPermission = .error e →
        (ensureWritePermission (H.save st.now) st).1 = true) := by
  have heff := saveToConnectedFile_effects P (H.save st.now) st hf
  have hdenied : (ensureWritePermission (H.save st.now) st).1 = false →
      (saveToConnectedFile P (H.save st.now) st).1 =
        .error ⟨"Error", "Write permission denied. Please allow write access when prompted."⟩ := by
    intro h
    simp [saveToConnectedFile, hf, h]
  have hwrite : ∀ e, (ensureWritePermission (H.save st.now) st).1 = true →
      (writeThrough P (H.save st.now) st).1 = .error e →
      (saveToConnectedFile P (H.save st.now) st).1 = .error e := by
    intro e h he
    simp [saveToConnectedFile, hf, h, he]
  have hquery : ∀ e, (H.save st.now).queryPermission = .error e →
      (ensureWritePermission (H.save st.now) st).1 = true := by
    intro e h
    simp [ensureWritePermission, hf, h]
  unfold saveButtonClick
  generalize saveToConnectedFile P (H.save st.now) st = r at heff hdenied hwrite
  obtain ⟨res, es⟩ := r
  cases res with
  | ok u =>
    refine ⟨_, rfl, rfl, rfl, ⟨es.map fun e => (st.now, e), rfl, ?_⟩, ?_, hdenied, hwrite, hquery⟩
    · intro x hx
      rw [List.mem_map] at hx
      obtain ⟨e, he, hxe⟩ := hx
      rw [← hxe]
      exact heff e he
    · intro e he
      cases he
  | error err =>
    refine ⟨_, rfl, rfl, rfl, ⟨_, rfl, ?_⟩, ?_, hdenied, hwrite, hquery⟩
    · intro x hx
      rw [List.mem_map] at hx
      obtain ⟨e, he, hxe⟩ := hx
      rw [← hxe]
      rcases List.mem_append.mp he with h1 | h1
      · exact heff e h1
      · simp only [List.mem_cons, List.mem_singleton, List.not_mem_nil, or_false] at h1
        rcases h1 with h2 | h2 <;> rw [h2] <;> rfl
    · intro e he
      cases he
      simp [App.emit]

/-- C7, witness: with a connected file whose stream write throws, the Save
button reports "Save failed" with the error text and leaves catalog and local
store alone. -/
theorem saveButtonClick_reports_witness :
    ∃ st', saveButtonClick samplePlatform failingHost (freshApp sampleCatalog true) = .ok st' ∧
      st'.data = sampleCatalog ∧ st'.localStore = none ∧
      (0, Effect.toast "Save failed: <code>NoModificationAllowedError</code>" "error") ∈
        st'.log := by
  obtain ⟨st', h1, h2, h3, _, h5, _⟩ :=
    saveButtonClick_reports samplePlatform failingHost (freshApp sampleCatalog true) rfl
  exact ⟨st', h1, h2, h3, h5 ⟨"NoModificationAllowedError", ""⟩ rfl⟩

/-! ### C8: import is all or nothing -/

/-- C8: for every imported text, if `JSON.parse` or `normalizeData` throws, the
catalog after the import handler is the catalog before it (so its serialisation
is unchanged) and the failure alert is shown; otherwise the catalog is the one
`normalizeData` returned for the parsed document. -/
theorem importChange_all_or_nothing (P : Platform) (H : Host) (st : App) (text : String) :
    ((P.jsonParse text = none ∨
        ∃ json e, P.jsonParse text = some json ∧ normalizeData P st.draws json = .error e) →
      (importChange P H st (some (.ok text))).data = st.data ∧
      P.stringify (importChange P H st (some (.ok text))).data 2 = P.stringify st.data 2 ∧
      (st.now, Effect.alert "Failed to import JSON. See console for details.") ∈
        (importChange P H st (some (.ok text))).log) ∧
    (∀ json d k, P.jsonParse text = some json → normalizeData P st.draws json = .ok (d, k) →
      (importChange P H st (some (.ok text))).data = d) := by
  constructor
  · intro h
    have hfail : ∀ e, (importChange P H st (some (.ok text))) = importFailed st e →
        (importChange P H st (some (.ok text))).data = st.data ∧
        P.stringify (importChange P H st (some (.ok text))).data 2 = P.stringify st.data 2 ∧
        (st.now, Effect.alert "Failed to import JSON. See console for details.") ∈
          (importChange P H st (some (.ok text))).log := by
      intro e he
      rw [he]
      simp [importFailed, App.emit]
    rcases h with h | ⟨json, e, hj, hn⟩
    · exact hfail ⟨"SyntaxError", ""⟩ (by simp [importChange, h])
    · exact hfail e (by simp [importChange, hj, hn])
  · intro json d k hj hn
    simp only [importChange, hj, hn]
    cases hr : H.render d with
    | error e => simp [importFailed, App.emit]
    | ok u => simp [App.emit, (queueSave_fields _).2.2.1]

/-- C8, witness: importing the text `null` (which parses, and on which
`normalizeData` throws) leaves the sample catalog in place and alerts; importing
`{}` replaces it by the empty catalog. -/
theorem importChange_all_or_nothing_witness :
    ((importChange samplePlatform quietHost (freshApp sampleCatalog false)
        (some (.ok "null"))).data = sampleCatalog ∧
      samplePlatform.stringify (importChange samplePlatform quietHost
        (freshApp sampleCatalog false) (some (.ok "null"))).data 2 =
        samplePlatform.stringify sampleCatalog 2 ∧
      (0, Effect.alert "Failed to import JSON. See console for details.") ∈
        (importChange samplePlatform quietHost (freshApp sampleCatalog false)
          (some (.ok "null"))).log) ∧
    (importChange samplePlatform quietHost (freshApp sampleCatalog false)
        (some (.ok "{}"))).data = JsVal.obj [("projects", JsVal.arr [] [])] :=
  ⟨(importChange_all_or_nothing samplePlatform quietHost (freshApp sampleCatalog false)
      "null").1 (Or.inr ⟨JsVal.null, typeError, rfl, rfl⟩),
   (importChange_all_or_nothing samplePlatform quietHost (freshApp sampleCatalog false)
      "{}").2 (JsVal.obj []) _ 0 rfl rfl⟩

/-! ### Inversion of the loops -/

theorem forEachM_threaded (f : Nat → JsVal → Except JsError (JsVal × Nat))
    (R : Nat → JsVal → JsVal → Nat → Prop) :
    ∀ (xs : List JsVal) (k : Nat) (ys : List JsVal) (k' : Nat),
      (∀ x ∈ xs, ∀ j y j', f j x = .ok (y, j') → R j x y j') →
      forEachM f xs k = .ok (ys, k') → Threaded R k xs ys k' := by
  intro xs
  induction xs with
  | nil =>
    intro k ys k' _ h
    simp only [forEachM, Except.ok.injEq, Prod.mk.injEq] at h
    obtain ⟨h1, h2⟩ := h
    subst h1; subst h2
    exact Threaded.nil k
  | cons x xs ih =>
    intro k ys k' hf h
    cases hx : f k x with
    | error err => simp [forEachM, hx] at h
    | ok r =>
      obtain ⟨y, k1⟩ := r
      cases hrest : forEachM f xs k1 with
      | error err => simp [forEachM, hx, hrest] at h
      | ok r2 =>
        obtain ⟨ys1, k2⟩ := r2
        simp only [forEachM, hx, hrest, Except.ok.injEq, Prod.mk.injEq] at h
        obtain ⟨h1, h2⟩ := h
        subst h1; subst h2
        exact Threaded.cons (hf x (List.mem_cons_self x xs) k y k1 hx)
          (ih k1 ys1 k2 (fun z hz => hf z (List.mem_cons_of_mem x hz)) hrest)

theorem normalizeEnv_inv (P : Platform) (j : Nat) (e y : JsVal) (j' : Nat)
    (h : normalizeEnv P j e = .ok (y, j')) : envStep P j e y j' := by
  cases he : isObjLike e with
  | false => rw [normalizeEnv_not_objLike P j e he] at h; cases h
  | true =>
    rw [normalizeEnv_objLike P j e he] at h
    simp only [Except.ok.injEq, Prod.mk.injEq] at h
    exact ⟨he, h.1.symm, h.2.symm⟩

theorem normalizeProject_inv (P : Platform) (j : Nat) (p y : JsVal) (j' : Nat)
    (h : normalizeProject P j p = .ok (y, j')) : projStep P j p y j' := by
  cases hp : isObjLike p with
  | false => rw [normalizeProject_not_objLike P j p hp] at h; cases h
  | true =>
    rw [normalizeProject_objLike P j p hp] at h
    cases hf : forEachM (normalizeEnv P) (entriesOf p "environments")
        (nextCounter j (propsOf p)) with
    | error err => rw [hf] at h; cases h
    | ok r =>
      obtain ⟨envs', k2⟩ := r
      rw [hf] at h
      simp only [Except.ok.injEq, Prod.mk.injEq] at h
      obtain ⟨h1, h2⟩ := h
      subst h2
      exact ⟨hp, envs', forEachM_threaded (normalizeEnv P) (envStep P) _ _ _ _
        (fun x _ a b c hx => normalizeEnv_inv P a x b c hx) hf, h1.symm⟩

theorem normalizeData_inv (P : Platform) (k : Nat) (raw d : JsVal) (k' : Nat)
    (h : normalizeData P k raw = .ok (d, k')) :
    ∃ ps', Threaded (projStep P) k (entriesOf raw "projects") ps' k' ∧
      d = .obj [("projects",
        .arr ps' (arrayOrEmpty (lookupProp "projects" (propsOf raw))).2)] := by
  have hne : raw ≠ .null := by
    intro hnull
    rw [hnull] at h
    cases h
  rw [normalizeData_of_ne_null P k raw hne] at h
  cases hf : forEachM (normalizeProject P) (entriesOf raw "projects") k with
  | error err => rw [hf] at h; cases h
  | ok r =>
    obtain ⟨ps', k2⟩ := r
    rw [hf] at h
    simp only [Except.ok.injEq, Prod.mk.injEq] at h
    obtain ⟨h1, h2⟩ := h
    subst h2
    exact ⟨ps', forEachM_threaded (normalizeProject P) (projStep P) _ _ _ _
      (fun x _ a b c hx => normalizeProject_inv P a x b c hx) hf, h1.symm⟩

theorem Threaded.forall₂ {R : Nat → JsVal → JsVal → Nat → Prop} {Q : JsVal → JsVal → Prop}
    (hRQ : ∀ k x y k', R k x y k' → Q x y) :
    ∀ {k : Nat} {xs ys : List JsVal} {k' : Nat}, Threaded R k xs ys k' → List.Forall₂ Q xs ys
  | _, _, _, _, .nil _ => List.Forall₂.nil
  | _, _, _, _, .cons h t => List.Forall₂.cons (hRQ _ _ _ _ h) (Threaded.forall₂ hRQ t)

theorem entriesOf_projStep (P : Platform) (k : Nat) (p p' : JsVal) (k' : Nat)
    (h : projStep P k p p' k') :
    Threaded (envStep P) (nextCounter k (propsOf p)) (entriesOf p "environments")
      (entriesOf p' "environments") k' := by
  obtain ⟨hp, envs', hth, hp'⟩ := h
  have he : entriesOf p' "environments" = envs' := by
    rw [hp']
    simp only [entriesOf, propsOf_withProps _ _ hp, lookupProp_assignProp_same, arrayOrEmpty]
  rw [he]; exact hth

theorem idOf_projStep (P : Platform) (k : Nat) (p p' : JsVal) (k' : Nat)
    (h : projStep P k p p' k') :
    idOf p' = some (jsOr (idOf p) (.str (uid P "p" k))) := by
  obtain ⟨hp, envs', _, hp'⟩ := h
  rw [hp']
  simp only [idOf, propsOf_withProps _ _ hp]
  rw [lookupProp_assignProp_ne "environments" "id" _ _ (by decide), lookup_id_namedProjectProps]

theorem idOf_envStep (P : Platform) (k : Nat) (e e' : JsVal) (k' : Nat)
    (h : envStep P k e e' k') :
    idOf e' = some (jsOr (idOf e) (.str (uid P "e" k))) := by
  obtain ⟨he, he', _⟩ := h
  rw [he']
  simp only [idOf, propsOf_withProps _ _ he, lookup_id_repairedEnvProps]

theorem entriesOf_normalized (ps : List JsVal) (props : List (String × JsVal)) :
    entriesOf (.obj [("projects", .arr ps props)]) "projects" = ps := rfl

/-- The default status is the object literal of the source, field by field:
`{ state: "unknown", httpStatus: null, checkedAt: null, detail: null }`. -/
theorem defaultStatus_fields :
    defaultStatus = JsVal.obj [("state", .str "unknown"), ("httpStatus", .null),
      ("checkedAt", .null), ("detail", .null)] ∧
    getProp defaultStatus "state" = .ok (some (.str "unknown")) ∧
    getProp defaultStatus "httpStatus" = .ok (some .null) ∧
    getProp defaultStatus "checkedAt" = .ok (some .null) ∧
    getProp defaultStatus "detail" = .ok (some .null) :=
  ⟨rfl, rfl, rfl, rfl, rfl⟩

/-! ### C9: `lastStatus` after normalisation -/

/-- C9, counterexample: an environment whose `lastStatus` is the string
"broken" keeps that string (it is truthy), so the result holds a `lastStatus`
that is no ProbeResult; only the environment without one gets the default. -/
theorem normalizeData_keeps_malformed_status :
    (normalizeData samplePlatform 0 brokenStatusDoc).toOption.map
        (fun r => (entriesOf r.1 "projects").map fun p =>
          (entriesOf p "environments").map fun e => lookupProp "lastStatus" (propsOf e)) =
      some [[some (JsVal.str "broken"), some defaultStatus]] := rfl

theorem statusRepaired_of_envStep (P : Platform) (k : Nat) (e e' : JsVal) (k' : Nat)
    (h : envStep P k e e' k') : statusRepaired e e' := by
  obtain ⟨he, he', _⟩ := h
  have hl : lookupProp "lastStatus" (propsOf e') =
      some (jsOr (lookupProp "lastStatus" (propsOf e)) defaultStatus) := by
    rw [he', propsOf_withProps _ _ he, lookup_lastStatus_repairedEnvProps]
  refine ⟨?_, ?_, ?_⟩
  · rw [he', hasTruthy_withProps _ _ _ he, lookup_lastStatus_repairedEnvProps]
    exact truthy_jsOr _ _ (by decide)
  · intro hfalsy
    rw [hl, jsOr_of_falsy _ _ hfalsy]
  · intro v hv htr
    rw [hl, hv, jsOr_of_truthy v _ htr]

/-- C9, as amended: for every input on which `normalizeData` returns, every
environment of the result has a truthy `lastStatus`; an environment whose input
`lastStatus` is missing or falsy (absent, `null`, `false`, `0`, the empty
string) gets exactly `{state: "unknown", httpStatus: null, checkedAt: null,
detail: null}`, and a truthy input `lastStatus` of any shape is kept as it is. -/
theorem normalizeData_lastStatus (P : Platform) (k : Nat) (raw d : JsVal) (k' : Nat)
    (h : normalizeData P k raw = .ok (d, k')) :
    List.Forall₂
      (fun p p' => List.Forall₂ statusRepaired
        (entriesOf p "environments") (entriesOf p' "environments"))
      (entriesOf raw "projects") (entriesOf d "projects") := by
  obtain ⟨ps', hth, hd⟩ := normalizeData_inv P k raw d k' h
  rw [hd, entriesOf_normalized]
  refine Threaded.forall₂ ?_ hth
  intro j p p' j' hstep
  exact Threaded.forall₂ (statusRepaired_of_envStep P) (entriesOf_projStep P j p p' j' hstep)

/-- C9, witness: in the document with a string status and a missing status,
the first environment keeps its status and the second gets the default. -/
theorem normalizeData_lastStatus_witness :
    List.Forall₂
      (fun p p' => List.Forall₂ statusRepaired
        (entriesOf p "environments") (entriesOf p' "environments"))
      (entriesOf brokenStatusDoc "projects")
      (entriesOf (JsVal.obj [("projects", JsVal.arr [
        JsVal.obj [("id", JsVal.str "p_a"), ("name", JsVal.str "Shop"),
          ("environments", JsVal.arr [
            JsVal.obj [("id", JsVal.str "e_a"), ("name", JsVal.str "Prod"),
              ("url", JsVal.str ""), ("lastStatus", JsVal.str "broken")],
            JsVal.obj [("id", JsVal.str "e_b"), ("name", JsVal.str "Staging"),
              ("url", JsVal.str ""), ("lastStatus", defaultStatus)]] [])]] [])])
        "projects") :=
  normalizeData_lastStatus samplePlatform 0 brokenStatusDoc _ 0 rfl

/-! ### Ids after normalisation -/

theorem uid_cancel (P : Platform) (pfx : String) (a b : Nat)
    (h : uid P pfx a = uid P pfx b) : P.random a = P.random b := by
  have hd := congrArg String.data h
  simp only [uid, String.data_append, List.append_assoc] at hd
  have := List.append_cancel_left (List.append_cancel_left hd)
  exact String.ext this

theorem some_jsOr_of_truthy (a : Option JsVal) (b : JsVal) (h : truthyOpt a = true) :
    some (jsOr a b) = a := by
  cases a with
  | none => cases h
  | some v => simp only [truthyOpt] at h; rw [jsOr_of_truthy v b h]

theorem le_nextCounter (k : Nat) (ps : List (String × JsVal)) : k ≤ nextCounter k ps := by
  unfold nextCounter
  split <;> omega

theorem Threaded.mono {R : Nat → JsVal → JsVal → Nat → Prop}
    (hR : ∀ k x y k', R k x y k' → k ≤ k') :
    ∀ {k : Nat} {xs ys : List JsVal} {k' : Nat}, Threaded R k xs ys k' → k ≤ k'
  | _, _, _, _, .nil _ => Nat.le_refl _
  | _, _, _, _, .cons h t => Nat.le_trans (hR _ _ _ _ h) (Threaded.mono hR t)

theorem envStep_mono (P : Platform) (k : Nat) (e e' : JsVal) (k' : Nat)
    (h : envStep P k e e' k') : nextCounter k (propsOf e) ≤ k' := by
  obtain ⟨_, _, hk⟩ := h
  rw [hk]

theorem projStep_mono (P : Platform) (k : Nat) (p p' : JsVal) (k' : Nat)
    (h : projStep P k p p' k') : nextCounter k (propsOf p) ≤ k' := by
  obtain ⟨_, envs', hth, _⟩ := h
  exact Threaded.mono
    (fun j e e' j' hs => Nat.le_trans (le_nextCounter j _) (envStep_mono P j e e' j' hs)) hth

theorem Threaded.ids_distinct (P : Platform) (pfx : String) (K K' : Nat)
    {R : Nat → JsVal → JsVal → Nat → Prop}
    (hR : ∀ k x y k', R k x y k' →
      idOf y = some (jsOr (idOf x) (.str (uid P pfx k))) ∧ nextCounter k (propsOf x) ≤ k')
    (hdraws : drawsDistinct P K K')
    {k : Nat} {xs ys : List JsVal} {k' : Nat} (h : Threaded R k xs ys k') :
    K ≤ k → k' ≤ K' → inputIdsFresh P pfx K K' xs →
      k ≤ k' ∧ ys.Pairwise (fun a b => idOf a ≠ idOf b) ∧
      ∀ y ∈ ys, (∃ x ∈ xs, truthyOpt (idOf x) = true ∧ idOf y = idOf x) ∨
        ∃ j, k ≤ j ∧ j < k' ∧ idOf y = some (.str (uid P pfx j)) := by
  induction h with
  | nil k =>
    intro _ _ _
    exact ⟨Nat.le_refl k, List.Pairwise.nil, fun y hy => by simp at hy⟩
  | @cons k k1 k2 x y xs ys hstep htail ih =>
    intro hKk hk2K hfresh
    obtain ⟨hpw, hform⟩ := hfresh
    rw [List.pairwise_cons] at hpw
    obtain ⟨hx, hpwxs⟩ := hpw
    obtain ⟨hid, hnext⟩ := hR k x y k1 hstep
    have hk01 : k ≤ k1 := Nat.le_trans (le_nextCounter k _) hnext
    obtain ⟨hk12, hys, hchar⟩ :=
      ih (Nat.le_trans hKk hk01) hk2K
        ⟨hpwxs, fun z hz j => hform z (List.mem_cons_of_mem x hz) j⟩
    have hfalsy : truthyOpt (idOf x) = false → k < k1 := by
      intro htx
      have hnc : nextCounter k (propsOf x) = k + 1 := by
        have htx' : truthyOpt (lookupProp "id" (propsOf x)) = false := htx
        simp [nextCounter, htx']
      omega
    refine ⟨Nat.le_trans hk01 hk12, ?_, ?_⟩
    · rw [List.pairwise_cons]
      refine ⟨?_, hys⟩
      intro y' hy'
      cases htx : truthyOpt (idOf x) with
      | true =>
        have hyx : idOf y = idOf x := by rw [hid, some_jsOr_of_truthy _ _ htx]
        rcases hchar y' hy' with ⟨x', hx', htx', hyx'⟩ | ⟨j, hj1, hj2, hj⟩
        · rw [hyx, hyx']
          exact hx x' hx' htx htx'
        · rw [hyx, hj]
          exact hform x (List.mem_cons_self x xs) j (by omega) (by omega)
      | false =>
        have hyk : idOf y = some (.str (uid P pfx k)) := by
          rw [hid, jsOr_of_falsy _ _ htx]
        have hlt : k < k1 := hfalsy htx
        rcases hchar y' hy' with ⟨x', hx', _, hyx'⟩ | ⟨j, hj1, hj2, hj⟩
        · rw [hyk, hyx']
          exact fun heq =>
            hform x' (List.mem_cons_of_mem x hx') k hKk (by omega) heq.symm
        · rw [hyk, hj]
          intro heq
          simp only [Option.some.injEq, JsVal.str.injEq] at heq
          have := hdraws k j hKk (by omega) (by omega) (by omega) (uid_cancel P pfx k j heq)
          omega
    · intro y' hy'
      rcases List.mem_cons.mp hy' with hy'y | hy'ys
      · subst hy'y
        cases htx : truthyOpt (idOf x) with
        | true =>
          exact Or.inl ⟨x, List.mem_cons_self x xs, htx, by
            rw [hid, some_jsOr_of_truthy _ _ htx]⟩
        | false =>
          have hlt : k < k1 := hfalsy htx
          exact Or.inr ⟨k, Nat.le_refl k, by omega, by rw [hid, jsOr_of_falsy _ _ htx]⟩
      · rcases hchar y' hy'ys with ⟨x', hx', htx', hyx'⟩ | ⟨j, hj1, hj2, hj⟩
        · exact Or.inl ⟨x', List.mem_cons_of_mem x hx', htx', hyx'⟩
        · exact Or.inr ⟨j, by omega, hj2, hj⟩

theorem Threaded.forall₂_within {R : Nat → JsVal → JsVal → Nat → Prop}
    {Q : JsVal → JsVal → Prop} (K K' : Nat)
    (hmono : ∀ a x y b, R a x y b → a ≤ b)
    (hRQ : ∀ a x y b, K ≤ a → b ≤ K' → R a x y b → Q x y)
    {k : Nat} {xs ys : List JsVal} {k' : Nat} (h : Threaded R k xs ys k') :
    K ≤ k → k' ≤ K' → List.Forall₂ Q xs ys := by
  induction h with
  | nil k => intro _ _; exact List.Forall₂.nil
  | @cons k k1 k2 x y xs ys hstep htail ih =>
    intro hKk hk2K
    have h01 : k ≤ k1 := hmono _ _ _ _ hstep
    have h12 : k1 ≤ k2 := Threaded.mono hmono htail
    exact List.Forall₂.cons (hRQ _ _ _ _ hKk (Nat.le_trans h12 hk2K) hstep)
      (ih (Nat.le_trans hKk h01) hk2K)

theorem idRepaired_of_jsOr (P : Platform) (pfx : String) (k : Nat) (x y : JsVal)
    (h : idOf y = some (jsOr (idOf x) (.str (uid P pfx k)))) : idRepaired P pfx x y := by
  refine ⟨?_, ?_, ?_⟩
  · rw [h]; exact truthy_jsOr _ _ (truthy_uid P pfx k)
  · intro v hv htr
    rw [h, hv, jsOr_of_truthy v _ htr]
  · intro hf
    exact ⟨k, by rw [h, jsOr_of_falsy _ _ hf]⟩

theorem projStep_id_facts (P : Platform) (k : Nat) (p p' : JsVal) (k' : Nat)
    (h : projStep P k p p' k') :
    idOf p' = some (jsOr (idOf p) (.str (uid P "p" k))) ∧ nextCounter k (propsOf p) ≤ k' :=
  ⟨idOf_projStep P k p p' k' h, projStep_mono P k p p' k' h⟩

theorem envStep_id_facts (P : Platform) (k : Nat) (e e' : JsVal) (k' : Nat)
    (h : envStep P k e e' k') :
    idOf e' = some (jsOr (idOf e) (.str (uid P "e" k))) ∧ nextCounter k (propsOf e) ≤ k' :=
  ⟨idOf_envStep P k e e' k' h, envStep_mono P k e e' k' h⟩

theorem samplePlatform_draws_distinct : drawsDistinct samplePlatform 0 3 := by
  intro a b _ ha _ hb h
  have hcases : ∀ n, n < 3 → n = 0 ∨ n = 1 ∨ n = 2 := by omega
  rcases hcases a ha with h1 | h1 | h1 <;> rcases hcases b hb with h2 | h2 | h2 <;>
    subst h1 <;> subst h2 <;> first
      | rfl
      | exact absurd h (by decide)

/-! ### C10: ids after normalisation -/

/-- C10, counterexample: a document whose two projects share the id "dup" and
whose two environments share the id "same" comes back with the same ids: ids
are not made distinct. -/
theorem normalizeData_keeps_duplicate_ids :
    (normalizeData samplePlatform 0 duplicateIdDoc).toOption.map
        (fun r => (entriesOf r.1 "projects").map fun p =>
          (idOf p, (entriesOf p "environments").map idOf)) =
      some [(some (JsVal.str "dup"), [some (JsVal.str "same"), some (JsVal.str "same")]),
        (some (JsVal.str "dup"), [])] := rfl

/-- C10, as amended: for every input on which `normalizeData` returns, every
project and environment of the result has a truthy id: a truthy input id is
kept and a missing or falsy one is replaced by `uid("p")` or `uid("e")`.  Ids
are not de-duplicated; they are pairwise distinct among the projects, and among
the environments of one project, when the truthy input ids there are pairwise
distinct, none of them is an id generated in this run, and the random suffixes
drawn in this run (draws `k` to `k' - 1`) are pairwise distinct. -/
theorem normalizeData_ids (P : Platform) (k : Nat) (raw d : JsVal) (k' : Nat)
    (h : normalizeData P k raw = .ok (d, k')) :
    List.Forall₂
      (fun p p' => idRepaired P "p" p p' ∧
        List.Forall₂ (idRepaired P "e")
          (entriesOf p "environments") (entriesOf p' "environments"))
      (entriesOf raw "projects") (entriesOf d "projects") ∧
    (drawsDistinct P k k' →
      (inputIdsFresh P "p" k k' (entriesOf raw "projects") →
        (entriesOf d "projects").Pairwise (fun a b => idOf a ≠ idOf b)) ∧
      List.Forall₂
        (fun p p' => inputIdsFresh P "e" k k' (entriesOf p "environments") →
          (entriesOf p' "environments").Pairwise (fun a b => idOf a ≠ idOf b))
        (entriesOf raw "projects") (entriesOf d "projects")) := by
  obtain ⟨ps', hth, hd⟩ := normalizeData_inv P k raw d k' h
  rw [hd, entriesOf_normalized]
  refine ⟨?_, fun hdraws => ⟨?_, ?_⟩⟩
  · refine Threaded.forall₂ ?_ hth
    intro j p p' j' hstep
    refine ⟨idRepaired_of_jsOr P "p" j p p' (idOf_projStep P j p p' j' hstep), ?_⟩
    exact Threaded.forall₂
      (fun i e e' i' hs => idRepaired_of_jsOr P "e" i e e' (idOf_envStep P i e e' i' hs))
      (entriesOf_projStep P j p p' j' hstep)
  · intro hfresh
    exact (Threaded.ids_distinct P "p" k k' (projStep_id_facts P) hdraws hth
      (Nat.le_refl k) (Nat.le_refl k') hfresh).2.1
  · refine Threaded.forall₂_within k k'
      (fun a x y b hs => Nat.le_trans (le_nextCounter a _) (projStep_mono P a x y b hs))
      ?_ hth (Nat.le_refl k) (Nat.le_refl k')
    intro j p p' j' hkj hj'k hstep hfresh
    exact (Threaded.ids_distinct P "e" k k' (envStep_id_facts P) hdraws
      (entriesOf_projStep P j p p' j' hstep)
      (Nat.le_trans hkj (le_nextCounter j _)) hj'k hfresh).2.1

/-- C10, witness: two projects without id receive the distinct ids `p_0000000`
and `p_0000002` (the draw in between went to an environment). -/
theorem normalizeData_ids_witness :
    ∃ d k', normalizeData samplePlatform 0 missingIdDoc = .ok (d, k') ∧
      (entriesOf d "projects").map idOf =
        [some (JsVal.str "p_0000000"), some (JsVal.str "p_0000002")] ∧
      (entriesOf d "projects").Pairwise (fun a b => idOf a ≠ idOf b) :=
  ⟨_, 3, rfl, rfl,
    ((normalizeData_ids samplePlatform 0 missingIdDoc _ 3 rfl).2
      samplePlatform_draws_distinct).1
      ⟨by simp [missingIdDoc, entriesOf, propsOf, lookupProp, arrayOrEmpty, idOf, truthyOpt],
       by
        intro x hx j _ _
        simp [missingIdDoc, entriesOf, propsOf, lookupProp, arrayOrEmpty] at hx
        rcases hx with hx | hx <;> simp [hx, idOf, propsOf, lookupProp]⟩⟩

/-! ### Locating the environment of a row -/

theorem getProp_some (x : JsVal) (key : String) (v : JsVal)
    (h : getProp x key = .ok (some v)) :
    isObjLike x = true ∧ lookupProp key (propsOf x) = some v := by
  cases x <;> simp_all [getProp, isObjLike, propsOf]

theorem findById_spec (id : String) :
    ∀ (xs : List JsVal) (i : Nat) (x : JsVal), findById id xs = .ok (some (i, x)) →
      xs[i]? = some x ∧ idOf x = some (.str id) ∧ isObjLike x = true := by
  intro xs
  induction xs with
  | nil => intro i x h; simp [findById] at h
  | cons a xs ih =>
    intro i x h
    have hrest : (match findById id xs with
        | .error e => (.error e : Except JsError (Option (Nat × JsVal)))
        | .ok none => .ok none
        | .ok (some (i, y)) => .ok (some (i + 1, y))) = .ok (some (i, x)) →
        (a :: xs)[i]? = some x ∧ idOf x = some (.str id) ∧ isObjLike x = true := by
      intro hr
      cases hf : findById id xs with
      | error e => rw [hf] at hr; cases hr
      | ok r =>
        cases r with
        | none => rw [hf] at hr; cases hr
        | some q =>
          obtain ⟨i', y⟩ := q
          rw [hf] at hr
          simp only [Except.ok.injEq, Option.some.injEq, Prod.mk.injEq] at hr
          obtain ⟨hi, hy⟩ := hr
          subst hi; subst hy
          obtain ⟨h1, h2, h3⟩ := ih i' y hf
          exact ⟨by simpa using h1, h2, h3⟩
    simp only [findById] at h
    cases hg : getProp a "id" with
    | error e => rw [hg] at h; cases h
    | ok v =>
      rw [hg] at h
      cases v with
      | none => exact hrest h
      | some w =>
        cases w with
        | str t =>
          by_cases ht : t = id
          · simp only [ht, if_true, Except.ok.injEq, Option.some.injEq, Prod.mk.injEq] at h
            obtain ⟨hi, hx⟩ := h
            subst hi; subst hx
            obtain ⟨ho, hl⟩ := getProp_some a "id" _ hg
            exact ⟨by simp, by rw [idOf, hl, ht], ho⟩
          · simp only [ht, if_false] at h
            exact hrest h
        | null => exact hrest h
        | bool b => exact hrest h
        | num q => exact hrest h
        | arr items ps => exact hrest h
        | obj ps => exact hrest h

theorem arrayItems_spec (x : JsVal) (key : String) (items : List JsVal)
    (h : arrayItems x key = .ok items) :
    isObjLike x = true ∧ ∃ ps, lookupProp key (propsOf x) = some (.arr items ps) := by
  unfold arrayItems at h
  cases hg : getProp x key with
  | error e => rw [hg] at h; cases h
  | ok v =>
    rw [hg] at h
    cases v with
    | none => cases h
    | some w =>
      cases w with
      | arr its ps =>
        simp only [Except.ok.injEq] at h
        subst h
        obtain ⟨ho, hl⟩ := getProp_some x key _ hg
        exact ⟨ho, ps, hl⟩
      | null => cases h
      | bool b => cases h
      | num q => cases h
      | str t => cases h
      | obj ps => cases h

theorem replaceEntry_spec (x : JsVal) (key : String) (i : Nat) (y : JsVal)
    (items : List JsVal) (ps : List (String × JsVal)) (ho : isObjLike x = true)
    (hl : lookupProp key (propsOf x) = some (.arr items ps)) :
    entriesOf (replaceEntry x key i y) key = items.set i y ∧
      ∀ k', k' ≠ key →
        lookupProp k' (propsOf (replaceEntry x key i y)) = lookupProp k' (propsOf x) := by
  have hr : replaceEntry x key i y =
      withProps x (assignProp key (.arr (items.set i y) ps) (propsOf x)) := by
    simp only [replaceEntry, hl]
  rw [hr]
  constructor
  · simp only [entriesOf, propsOf_withProps _ _ ho, lookupProp_assignProp_same, arrayOrEmpty]
  · intro k' hk
    rw [propsOf_withProps _ _ ho, lookupProp_assignProp_ne key k' _ _ (Ne.symm hk)]

theorem set_getElem?_self (xs : List JsVal) (i : Nat) (x y : JsVal) (h : xs[i]? = some x) :
    (xs.set i y)[i]? = some y := by
  have hlt : i < xs.length := by
    rcases List.getElem?_eq_some.mp h with ⟨hlt, _⟩
    exact hlt
  simp [List.getElem?_set, hlt]

theorem sanitizeUrl_str (P : Platform) (v : String) :
    ∃ u, sanitizeUrl P (.str v) = .ok u := by
  unfold sanitizeUrl
  cases P.newURL (.str v) with
  | none => exact ⟨_, rfl⟩
  | some u => exact ⟨u, rfl⟩


/-! ### The page `render()` leaves -/

theorem renderProjectRows_ok (D : Dom) :
    ∀ (ps : List JsVal) (rows : List ProjectRow), renderProjectRows D ps = .ok rows →
      ∀ p ∈ ps, ∃ es, arrayItems p "environments" = .ok es := by
  intro ps
  induction ps with
  | nil => intro rows _ p hp; simp at hp
  | cons a ps ih =>
    intro rows h p hp
    simp only [renderProjectRows] at h
    cases hes : arrayItems a "environments" with
    | error e => rw [hes] at h; cases h
    | ok es =>
      rw [hes] at h
      simp only [] at h
      cases her : renderEnvRows D es with
      | error e => rw [her] at h; cases h
      | ok envRows =>
        rw [her] at h
        simp only [] at h
        cases hid : getProp a "id" with
        | error e => rw [hid] at h; cases h
        | ok v =>
          rw [hid] at h
          simp only [] at h
          cases hrest : renderProjectRows D ps with
          | error e => rw [hrest] at h; cases h
          | ok rest =>
            rcases List.mem_cons.mp hp with hpa | hpps
            · rw [hpa]; exact ⟨es, hes⟩
            · exact ih rest hrest p hpps

theorem render_ok_shape (D : Dom) (data : JsVal) (page : List ProjectRow)
    (h : render D data = .ok page) :
    ∃ ps, arrayItems data "projects" = .ok ps ∧
      ∀ p ∈ ps, ∃ es, arrayItems p "environments" = .ok es := by
  unfold render at h
  cases hps : arrayItems data "projects" with
  | error e => rw [hps] at h; cases h
  | ok ps =>
    rw [hps] at h
    simp only [] at h
    cases hrows : renderProjectRows D ps with
    | error e => rw [hrows] at h; cases h
    | ok rows => exact ⟨ps, rfl, renderProjectRows_ok D ps rows hrows⟩

/-- What one url listener does when the environment it closes over is the
object `env` at position `j` of the project `p` at position `k`. -/
theorem urlListener_resets (P : Platform) (st : App) (k j : Nat) (value : String)
    (p env : JsVal) (ps es : List JsVal) (pprops eprops : List (String × JsVal))
    (hd : isObjLike st.data = true)
    (hlp : lookupProp "projects" (propsOf st.data) = some (.arr ps pprops))
    (hp : ps[k]? = some p) (hpo : isObjLike p = true)
    (hle : lookupProp "environments" (propsOf p) = some (.arr es eprops))
    (he : es[j]? = some env) (heo : isObjLike env = true) :
    ∃ st' p' env' u, urlListener P st (some (k, j)) value = .ok st' ∧
      sanitizeUrl P (.str value) = .ok u ∧
      (entriesOf st'.data "projects")[k]? = some p' ∧
      (entriesOf p' "environments")[j]? = some env' ∧
      getProp env' "lastStatus" = .ok (some (JsVal.obj
        [("state", .str "unknown"), ("httpStatus", .null),
         ("checkedAt", .null), ("detail", .null)])) ∧
      getProp env' "url" = .ok (some (.str u)) ∧
      (∀ key, key ≠ "url" → key ≠ "lastStatus" → getProp env' key = getProp env key) ∧
      (∀ j', j' ≠ j →
        (entriesOf p' "environments")[j']? = (entriesOf p "environments")[j']?) ∧
      (∀ key, key ≠ "environments" → getProp p' key = getProp p key) ∧
      (∀ k', k' ≠ k →
        (entriesOf st'.data "projects")[k']? = (entriesOf st.data "projects")[k']?) := by
  obtain ⟨u, hu⟩ := sanitizeUrl_str P value
  have hps : entriesOf st.data "projects" = ps := by
    simp only [entriesOf, hlp, arrayOrEmpty]
  have hes : entriesOf p "environments" = es := by
    simp only [entriesOf, hle, arrayOrEmpty]
  have henv1 : isObjLike (withProps env (assignProp "url" (.str u) (propsOf env))) = true := by
    rw [isObjLike_withProps]; exact heo
  obtain ⟨env2, henv2⟩ : ∃ e2, e2 = withProps env
      (assignProp "lastStatus" (JsVal.obj [("state", .str "unknown"), ("httpStatus", .null),
         ("checkedAt", .null), ("detail", .null)])
        (assignProp "url" (.str u) (propsOf env))) := ⟨_, rfl⟩
  have ho2 : isObjLike env2 = true := by rw [henv2, isObjLike_withProps]; exact heo
  have hprops2 : propsOf env2 = assignProp "lastStatus"
      (JsVal.obj [("state", .str "unknown"), ("httpStatus", .null),
         ("checkedAt", .null), ("detail", .null)])
      (assignProp "url" (.str u) (propsOf env)) := by
    rw [henv2, propsOf_withProps _ _ heo]
  obtain ⟨hpe, hpk⟩ := replaceEntry_spec p "environments" j env2 es eprops hpo hle
  obtain ⟨hde, _⟩ := replaceEntry_spec st.data "projects" k
    (replaceEntry p "environments" j env2) ps pprops hd hlp
  have hpo2 : isObjLike (replaceEntry p "environments" j env2) = true := by
    simp only [replaceEntry, hle, isObjLike_withProps, hpo]
  have hrun : urlListener P st (some (k, j)) value =
      .ok (queueSave { st with
        data := replaceEntry st.data "projects" k (replaceEntry p "environments" j env2) }) := by
    simp only [urlListener, hps, hp, hes, he, hu, setProp_objLike env "url" _ heo,
      setProp_objLike _ "lastStatus" _ henv1, withProps_withProps, propsOf_withProps _ _ heo,
      henv2]
  have hdata : (queueSave { st with
        data := replaceEntry st.data "projects" k (replaceEntry p "environments" j env2) }).data =
      replaceEntry st.data "projects" k (replaceEntry p "environments" j env2) :=
    (queueSave_fields _).2.2.1
  refine ⟨_, replaceEntry p "environments" j env2, env2, u, hrun, hu, ?_, ?_, ?_, ?_, ?_, ?_,
    ?_, ?_⟩
  · rw [hdata, hde]
    exact set_getElem?_self ps k p _ hp
  · rw [hpe]
    exact set_getElem?_self es j env _ he
  · rw [getProp_objLike _ _ ho2, hprops2, lookupProp_assignProp_same]
  · rw [getProp_objLike _ _ ho2, hprops2,
      lookupProp_assignProp_ne "lastStatus" "url" _ _ (by decide), lookupProp_assignProp_same]
  · intro key h1 h2
    rw [getProp_objLike _ _ ho2, getProp_objLike _ _ heo, hprops2,
      lookupProp_assignProp_ne "lastStatus" key _ _ (Ne.symm h2),
      lookupProp_assignProp_ne "url" key _ _ (Ne.symm h1)]
  · intro j' hj'
    rw [hpe, hes, List.getElem?_set_ne (Ne.symm hj')]
  · intro key hkey
    rw [getProp_objLike _ _ hpo2, getProp_objLike _ _ hpo, hpk key hkey]
  · intro k' hk'
    rw [hdata, hde, hps, List.getElem?_set_ne (Ne.symm hk')]

/-! ### The listeners `bindProjectRowEvents()` adds -/

theorem renderEnvRows_for (D : Dom) :
    ∀ (es : List JsVal) (ers : List EnvRow), renderEnvRows D es = .ok ers →
      EnvRowsFor D es ers ∧
        ∀ (j : Nat) (er : EnvRow), ers[j]? = some er → er.urlListeners = [] := by
  intro es
  induction es with
  | nil =>
    intro ers h
    simp only [renderEnvRows, Except.ok.injEq] at h
    subst h
    exact ⟨⟨rfl, fun j e er he => by simp at he⟩, fun j er her => by simp at her⟩
  | cons a es ih =>
    intro ers h
    simp only [renderEnvRows] at h
    cases hid : getProp a "id" with
    | error e => rw [hid] at h; cases h
    | ok v =>
      rw [hid] at h
      simp only [] at h
      cases hrest : renderEnvRows D es with
      | error e => rw [hrest] at h; cases h
      | ok rest =>
        rw [hrest] at h
        simp only [Except.ok.injEq] at h
        subst h
        obtain ⟨⟨hlen, hall⟩, hnil⟩ := ih rest hrest
        refine ⟨⟨by simp [hlen], ?_⟩, ?_⟩
        · intro j e er he her
          cases j with
          | zero =>
            simp only [List.getElem?_cons_zero, Option.some.injEq] at he her
            subst he; subst her
            exact ⟨v, hid, rfl⟩
          | succ n =>
            simp only [List.getElem?_cons_succ] at he her
            exact hall n e er he her
        · intro j er her
          cases j with
          | zero =>
            simp only [List.getElem?_cons_zero, Option.some.injEq] at her
            subst her; rfl
          | succ n =>
            simp only [List.getElem?_cons_succ] at her
            exact hnil n er her

theorem renderProjectRows_for (D : Dom) :
    ∀ (ps : List JsVal) (page : List ProjectRow), renderProjectRows D ps = .ok page →
      PageFor D ps page ∧ ∀ r j, listenersAt page r j = [] := by
  intro ps
  induction ps with
  | nil =>
    intro page h
    simp only [renderProjectRows, Except.ok.injEq] at h
    subst h
    exact ⟨⟨rfl, fun i p row hp => by simp at hp⟩, fun r j => by simp [listenersAt]⟩
  | cons a ps ih =>
    intro page h
    simp only [renderProjectRows] at h
    cases hes : arrayItems a "environments" with
    | error e => rw [hes] at h; cases h
    | ok es =>
      rw [hes] at h
      simp only [] at h
      cases her : renderEnvRows D es with
      | error e => rw [her] at h; cases h
      | ok envRows =>
        rw [her] at h
        simp only [] at h
        cases hid : getProp a "id" with
        | error e => rw [hid] at h; cases h
        | ok v =>
          rw [hid] at h
          simp only [] at h
          cases hrest : renderProjectRows D ps with
          | error e => rw [hrest] at h; cases h
          | ok rest =>
            rw [hrest] at h
            simp only [Except.ok.injEq] at h
            subst h
            obtain ⟨⟨hlen, hall⟩, hnil⟩ := ih rest hrest
            obtain ⟨hfor, hempty⟩ := renderEnvRows_for D es envRows her
            refine ⟨⟨by simp [hlen], ?_⟩, ?_⟩
            · intro i p row hp hrow
              cases i with
              | zero =>
                simp only [List.getElem?_cons_zero, Option.some.injEq] at hp hrow
                subst hp; subst hrow
                exact ⟨v, es, hid, rfl, hes, hfor⟩
              | succ n =>
                simp only [List.getElem?_cons_succ] at hp hrow
                exact hall n p row hp hrow
            · intro r j
              cases r with
              | zero =>
                simp only [listenersAt, List.getElem?_cons_zero]
                cases hj : envRows[j]? with
                | none => rfl
                | some er => exact hempty j er hj
              | succ n =>
                have := hnil n j
                simpa only [listenersAt, List.getElem?_cons_succ] using this

theorem strictEqPrim_eq (a b : Option JsVal) (h : strictEqPrim a b = true) : a = b := by
  cases a with
  | none => cases b <;> simp_all [strictEqPrim]
  | some x =>
    cases b with
    | none => cases x <;> simp [strictEqPrim] at h
    | some y => cases x <;> cases y <;> simp_all [strictEqPrim]

theorem findProject_ok (target : Option JsVal) (self : Nat) :
    ∀ (xs : List JsVal) (k0 : Nat),
      (∀ (i : Nat) (x : JsVal), xs[i]? = some x → ∃ v, getProp x "id" = .ok v) →
      k0 ≤ self → self < k0 + xs.length →
      ∃ k pk v, findProject target self k0 xs = .ok (some (k, pk)) ∧ k0 ≤ k ∧
        xs[k - k0]? = some pk ∧ getProp pk "id" = .ok v ∧
        (k = self ∨ v = target) := by
  intro xs
  induction xs with
  | nil => intro k0 _ h1 h2; simp at h2; omega
  | cons a xs ih =>
    intro k0 hall h1 h2
    obtain ⟨v, hv⟩ := hall 0 a (by simp)
    simp only [findProject, hv]
    by_cases hc : k0 = self ∨ strictEqPrim v target = true
    · rw [if_pos hc]
      refine ⟨k0, a, v, rfl, le_refl _, by simp, hv, ?_⟩
      rcases hc with hc | hc
      · exact Or.inl hc
      · exact Or.inr (strictEqPrim_eq _ _ hc)
    · rw [if_neg hc]
      have hne : k0 ≠ self := fun h => hc (Or.inl h)
      obtain ⟨k, pk, w, hf, hk, hget, hid, hor⟩ := ih (k0 + 1)
        (fun i x hx => hall (i + 1) x (by simpa using hx))
        (by omega) (by simp at h2; omega)
      refine ⟨k, pk, w, hf, by omega, ?_, hid, hor⟩
      have : k - k0 = (k - (k0 + 1)) + 1 := by omega
      rw [this, List.getElem?_cons_succ]
      exact hget

theorem findById_total (s : String) :
    ∀ (es : List JsVal), (∀ (j : Nat) (e : JsVal), es[j]? = some e → ∃ w, getProp e "id" = .ok w) →
      ∃ res, findById s es = .ok res := by
  intro es
  induction es with
  | nil => intro _; exact ⟨none, rfl⟩
  | cons a es ih =>
    intro hall
    obtain ⟨w, hw⟩ := hall 0 a (by simp)
    obtain ⟨res, hres⟩ := ih (fun j e he => hall (j + 1) e (by simpa using he))
    simp only [findById, hw, hres]
    cases w with
    | none => cases res with
      | none => exact ⟨_, rfl⟩
      | some x => exact ⟨_, rfl⟩
    | some x =>
      cases x with
      | str t =>
        by_cases ht : t = s
        · simp only [ht, if_true]; exact ⟨_, rfl⟩
        · simp only [ht, if_false]
          cases res with
          | none => exact ⟨_, rfl⟩
          | some x => exact ⟨_, rfl⟩
      | null => cases res <;> exact ⟨_, rfl⟩
      | bool b => cases res <;> exact ⟨_, rfl⟩
      | num q => cases res <;> exact ⟨_, rfl⟩
      | arr items ps => cases res <;> exact ⟨_, rfl⟩
      | obj ps => cases res <;> exact ⟨_, rfl⟩

theorem findById_first (s : String) :
    ∀ (es : List JsVal) (j : Nat) (e : JsVal), es[j]? = some e →
      getProp e "id" = .ok (some (.str s)) →
      (∀ (j' : Nat) (y : JsVal), j' < j → es[j']? = some y →
        ∃ w, getProp y "id" = .ok w ∧ w ≠ some (.str s)) →
      findById s es = .ok (some (j, e)) := by
  intro es
  induction es with
  | nil => intro j e he; simp at he
  | cons a es ih =>
    intro j e he hid hfirst
    cases j with
    | zero =>
      simp only [List.getElem?_cons_zero, Option.some.injEq] at he
      subst he
      simp only [findById, hid, if_true]
    | succ n =>
      simp only [List.getElem?_cons_succ] at he
      obtain ⟨w, hw, hne⟩ := hfirst 0 a (Nat.succ_pos n) (by simp)
      have hrec := ih n e he hid (fun j' y hj' hy =>
        hfirst (j' + 1) y (Nat.succ_lt_succ hj') (by simpa using hy))
      simp only [findById, hw, hrec]
      cases w with
      | none => rfl
      | some x =>
        cases x with
        | str t =>
          have ht : t ≠ s := by
            intro heq
            apply hne
            rw [heq]
          simp only [ht, if_false]
        | null => rfl
        | bool b => rfl
        | num q => rfl
        | arr items ps => rfl
        | obj ps => rfl

theorem rowIndex_some (pid : String) :
    ∀ (page : List ProjectRow) (r : Nat) (row : ProjectRow),
      rowIndex pid page = some (r, row) → page[r]? = some row ∧ row.pid = pid := by
  intro page
  induction page with
  | nil => intro r row h; simp [rowIndex] at h
  | cons a page ih =>
    intro r row h
    simp only [rowIndex] at h
    by_cases ha : a.pid = pid
    · rw [if_pos ha] at h
      simp only [Option.some.injEq, Prod.mk.injEq] at h
      obtain ⟨h1, h2⟩ := h
      subst h1; subst h2
      exact ⟨by simp, ha⟩
    · rw [if_neg ha] at h
      cases hrec : rowIndex pid page with
      | none => rw [hrec] at h; cases h
      | some found =>
        obtain ⟨r1, row1⟩ := found
        rw [hrec] at h
        simp only [Option.some.injEq, Prod.mk.injEq] at h
        obtain ⟨h1, h2⟩ := h
        subst h1; subst h2
        obtain ⟨hget, hpid⟩ := ih r1 row1 hrec
        exact ⟨by simpa using hget, hpid⟩

theorem rowIndex_exists (pid : String) :
    ∀ (page : List ProjectRow) (i : Nat) (row0 : ProjectRow),
      page[i]? = some row0 → row0.pid = pid → ∃ r row, rowIndex pid page = some (r, row) := by
  intro page
  induction page with
  | nil => intro i row0 h; simp at h
  | cons a page ih =>
    intro i row0 h hpid
    simp only [rowIndex]
    by_cases ha : a.pid = pid
    · rw [if_pos ha]; exact ⟨0, a, rfl⟩
    · rw [if_neg ha]
      cases i with
      | zero =>
        simp only [List.getElem?_cons_zero, Option.some.injEq] at h
        subst h
        exact absurd hpid ha
      | succ n =>
        simp only [List.getElem?_cons_succ] at h
        obtain ⟨r, row, hr⟩ := ih n row0 h hpid
        rw [hr]
        exact ⟨r + 1, row, rfl⟩

theorem bindEnvRow_eq (data : JsVal) (target : Option JsVal) (self k : Nat) (er : EnvRow)
    (ps es : List JsVal) (pk : JsVal) (res : Option (Nat × JsVal))
    (hps : arrayItems data "projects" = .ok ps)
    (hfp : findProject target self 0 ps = .ok (some (k, pk)))
    (hes : arrayItems pk "environments" = .ok es)
    (hfind : findById er.eid es = .ok res) :
    bindEnvRow data target self er =
      .ok { er with urlListeners := er.urlListeners ++ [res.map (fun x => (k, x.1))] } := by
  simp only [bindEnvRow, hps, hfp, hes, hfind]
  cases res with
  | none => rfl
  | some x => cases x; rfl

theorem forEachRowM_ok (f : EnvRow → Except JsError EnvRow) :
    ∀ rows : List EnvRow,
      (∀ (j : Nat) (er : EnvRow), rows[j]? = some er → ∃ er', f er = .ok er') →
      ∃ rows', forEachRowM f rows = .ok rows' ∧ rows'.length = rows.length ∧
        ∀ (j : Nat) (er : EnvRow), rows[j]? = some er →
          ∃ er', f er = .ok er' ∧ rows'[j]? = some er' := by
  intro rows
  induction rows with
  | nil => intro _; exact ⟨[], rfl, rfl, fun j er h => by simp at h⟩
  | cons a rows ih =>
    intro hall
    obtain ⟨a', ha'⟩ := hall 0 a (by simp)
    obtain ⟨rows', hrows', hlen, hget⟩ :=
      ih (fun j er h => hall (j + 1) er (by simpa using h))
    refine ⟨a' :: rows', by simp only [forEachRowM, ha', hrows'], by simp [hlen], ?_⟩
    intro j er h
    cases j with
    | zero =>
      simp only [List.getElem?_cons_zero, Option.some.injEq] at h
      subst h
      exact ⟨a', ha', by simp⟩
    | succ n =>
      simp only [List.getElem?_cons_succ] at h
      obtain ⟨er', h1, h2⟩ := hget n er h
      exact ⟨er', h1, by simpa using h2⟩

theorem PageFor.project (D : Dom) (ps : List JsVal) (page : List ProjectRow)
    (h : PageFor D ps page) (i : Nat) (x : JsVal) (hx : ps[i]? = some x) :
    ∃ row v es, page[i]? = some row ∧ getProp x "id" = .ok v ∧ row.pid = D.attr v ∧
      arrayItems x "environments" = .ok es ∧ EnvRowsFor D es row.envRows ∧
      ∀ (j : Nat) (e : JsVal), es[j]? = some e → ∃ w, getProp e "id" = .ok w := by
  have hi : i < page.length := by
    rw [h.1]
    exact (List.getElem?_eq_some.mp hx).1
  obtain ⟨v, es, h1, h2, h3, h4⟩ := h.2 i x page[i] hx (List.getElem?_eq_getElem hi)
  refine ⟨page[i], v, es, List.getElem?_eq_getElem hi, h1, h2, h3, h4, ?_⟩
  intro j e he
  have hj : j < (page[i]).envRows.length := by
    rw [h4.1]
    exact (List.getElem?_eq_some.mp he).1
  obtain ⟨w, hw, _⟩ := h4.2 j e _ he (List.getElem?_eq_getElem hj)
  exact ⟨w, hw⟩

theorem bindProjectRowEventsFor_step (D : Dom) (data : JsVal) (ps : List JsVal)
    (self r j : Nat) (page : List ProjectRow) (p env : JsVal) (vr : Option JsVal)
    (es : List JsVal) (s : String)
    (hps : arrayItems data "projects" = .ok ps)
    (hpage : PageFor D ps page)
    (hself : self < ps.length)
    (hp : ps[r]? = some p) (hvr : getProp p "id" = .ok vr)
    (huniq : ∀ (i : Nat) (q : JsVal) (v : Option JsVal), ps[i]? = some q →
      getProp q "id" = .ok v → D.attr v = D.attr vr → i = r)
    (hes : arrayItems p "environments" = .ok es)
    (he : es[j]? = some env) (hid : getProp env "id" = .ok (some (.str s)))
    (hattr : D.attr (some (.str s)) = s)
    (hfirst : ∀ (j' : Nat) (y : JsVal), j' < j → es[j']? = some y →
      getProp y "id" ≠ .ok (some (.str s))) :
    ∃ page', bindProjectRowEventsFor D data self page = .ok page' ∧ PageFor D ps page' ∧
      listenersAt page' r j =
        listenersAt page r j ++ (if self = r then [some (r, j)] else []) := by
  have hp0 : ps[self]? = some ps[self] := List.getElem?_eq_getElem hself
  obtain ⟨row0, v0, es0, hrow0, hv0, hpid0, _, _, _⟩ := hpage.project D ps page self _ hp0
  obtain ⟨r0, row, hri⟩ := rowIndex_exists (D.attr v0) page self row0 hrow0 hpid0
  obtain ⟨hrow, hrowpid⟩ := rowIndex_some _ page r0 row hri
  have hr0 : r0 < ps.length := by
    rw [← hpage.1]
    exact (List.getElem?_eq_some.mp hrow).1
  have hq0 : ps[r0]? = some ps[r0] := List.getElem?_eq_getElem hr0
  obtain ⟨rowq, vq, esq, hrowq, hvq, hpidq, hesq, hrowsq, _⟩ :=
    hpage.project D ps page r0 _ hq0
  have hrq : row = rowq := by
    rw [hrow] at hrowq
    exact Option.some.inj hrowq
  subst hrq
  obtain ⟨k, pk, vk, hfp, _, hpk, hvk, hkor⟩ := findProject_ok v0 self ps 0
    (fun i x hx => by
      obtain ⟨_, v, _, _, hv, _⟩ := hpage.project D ps page i x hx
      exact ⟨v, hv⟩)
    (Nat.zero_le _) (by omega)
  simp only [Nat.sub_zero] at hpk
  obtain ⟨_, _, esk, _, hvk', _, hesk, _, heskids⟩ := hpage.project D ps page k pk hpk
  have hbind : ∀ er : EnvRow, ∃ res, findById er.eid esk = .ok res ∧
      bindEnvRow data v0 self er =
        .ok { er with urlListeners := er.urlListeners ++ [res.map (fun x => (k, x.1))] } := by
    intro er
    obtain ⟨res, hres⟩ := findById_total er.eid esk heskids
    exact ⟨res, hres, bindEnvRow_eq data v0 self k er ps esk pk res hps hfp hesk hres⟩
  obtain ⟨rows', hrows', hlen', hget'⟩ := forEachRowM_ok (bindEnvRow data v0 self) row.envRows
    (fun j er _ => by
      obtain ⟨res, _, hb⟩ := hbind er
      exact ⟨_, hb⟩)
  have hrun : bindProjectRowEventsFor D data self page =
      .ok (page.set r0 { row with envRows := rows' }) := by
    simp only [bindProjectRowEventsFor, hps, hp0, hv0, hri, hrows']
  refine ⟨_, hrun, ⟨by rw [List.length_set]; exact hpage.1, ?_⟩, ?_⟩
  · intro i x rowi hx hrowi
    by_cases hi : i = r0
    · subst hi
      rw [hq0] at hx
      have hx' := Option.some.inj hx
      rw [List.getElem?_set, if_pos rfl] at hrowi
      have hlt : i < page.length := (List.getElem?_eq_some.mp hrow).1
      simp only [hlt, if_true, Option.some.injEq] at hrowi
      subst hrowi
      rw [← hx']
      refine ⟨vq, esq, hvq, hpidq, hesq, ?_, ?_⟩
      · simp only [hlen']; exact hrowsq.1
      · intro j' e er' he' her'
        have hj' : j' < row.envRows.length := by
          rw [← hlen']
          exact (List.getElem?_eq_some.mp her').1
        obtain ⟨er'', hf, hg⟩ := hget' j' _ (List.getElem?_eq_getElem hj')
        obtain ⟨res, _, hb⟩ := hbind (row.envRows[j'])
        obtain ⟨w, hw, hweid⟩ := hrowsq.2 j' e _ he' (List.getElem?_eq_getElem hj')
        simp only at her'
        rw [hg] at her'
        rw [hb] at hf
        have h1 := Except.ok.inj hf
        have h2 := Option.some.inj her'
        refine ⟨w, hw, ?_⟩
        rw [← h2, ← h1]
        exact hweid
    · rw [List.getElem?_set_ne (Ne.symm hi)] at hrowi
      exact hpage.2 i x rowi hx hrowi
  · by_cases hr : r0 = r
    · subst hr
      rw [hp] at hq0
      have hpeq : p = ps[r0] := Option.some.inj hq0
      have hvqr : vq = vr := by
        rw [← hpeq, hvr] at hvq
        exact (Except.ok.inj hvq).symm
      have hesqe : esq = es := by
        rw [← hpeq, hes] at hesq
        exact (Except.ok.inj hesq).symm
      subst hvqr; subst hesqe
      have hselfr : self = r0 :=
        huniq self _ v0 hp0 hv0 (by rw [← hrowpid, hpidq])
      have hv0q : v0 = vq := by
        have : ps[self]? = some p := by rw [hselfr]; exact hp
        rw [hp0] at this
        have hpp := Option.some.inj this
        rw [hpp, hvr] at hv0
        exact (Except.ok.inj hv0).symm
      have hkr : k = r0 := by
        rcases hkor with hk | hk
        · rw [hk, hselfr]
        · exact huniq k pk vk hpk hvk (by rw [hk, hv0q])
      subst hkr
      have hpkp : pk = p := by
        rw [hp] at hpk
        exact (Option.some.inj hpk).symm
      have heske : esk = esq := by
        rw [hpkp, hes] at hesk
        exact (Except.ok.inj hesk).symm
      subst heske
      have hj : j < row.envRows.length := by
        rw [hrowsq.1]
        exact (List.getElem?_eq_some.mp he).1
      obtain ⟨w, hw, hweid⟩ := hrowsq.2 j env _ he (List.getElem?_eq_getElem hj)
      have hws : w = some (.str s) := by
        rw [hid] at hw
        exact (Except.ok.inj hw).symm
      have heid : (row.envRows[j]).eid = s := by rw [hweid, hws, hattr]
      have hfind : findById (row.envRows[j]).eid esk = .ok (some (j, env)) := by
        rw [heid]
        refine findById_first s esk j env he hid ?_
        intro j' y hj' hy
        obtain ⟨w', hw'⟩ := heskids j' y hy
        refine ⟨w', hw', ?_⟩
        intro hc
        rw [hc] at hw'
        exact hfirst j' y hj' hy hw'
      obtain ⟨er'', hf, hg⟩ := hget' j _ (List.getElem?_eq_getElem hj)
      rw [bindEnvRow_eq data v0 self k _ ps esk pk _ hps hfp hesk hfind] at hf
      have h1 := Except.ok.inj hf
      have hlt : k < page.length := (List.getElem?_eq_some.mp hrow).1
      simp only [listenersAt, List.getElem?_set, if_pos rfl, hlt, if_true, hg, hrow,
        List.getElem?_eq_getElem hj, if_pos hselfr]
      rw [← h1]
      rfl
    · have hselfr : self ≠ r := by
        intro hc
        apply hr
        subst hc
        rw [hp0] at hp
        have hpp := Option.some.inj hp
        rw [hpp, hvr] at hv0
        have hv := Except.ok.inj hv0
        exact huniq r0 _ vq hq0 hvq (by rw [← hpidq, hrowpid, ← hv])
      simp only [listenersAt, List.getElem?_set_ne hr, if_neg hselfr, List.append_nil]

theorem bindProjectRowEvents_binds (D : Dom) (data : JsVal) (ps : List JsVal)
    (r j : Nat) (p env : JsVal) (vr : Option JsVal) (es : List JsVal) (s : String)
    (hps : arrayItems data "projects" = .ok ps)
    (hp : ps[r]? = some p) (hvr : getProp p "id" = .ok vr)
    (huniq : ∀ (i : Nat) (q : JsVal) (v : Option JsVal), ps[i]? = some q →
      getProp q "id" = .ok v → D.attr v = D.attr vr → i = r)
    (hes : arrayItems p "environments" = .ok es)
    (he : es[j]? = some env) (hid : getProp env "id" = .ok (some (.str s)))
    (hattr : D.attr (some (.str s)) = s)
    (hfirst : ∀ (j' : Nat) (y : JsVal), j' < j → es[j']? = some y →
      getProp y "id" ≠ .ok (some (.str s))) :
    ∀ (n self : Nat) (page : List ProjectRow), self + n = ps.length → PageFor D ps page →
      ∃ page', bindProjectRowEvents D data self n page = .ok page' ∧ PageFor D ps page' ∧
        listenersAt page' r j =
          listenersAt page r j ++ (if self ≤ r ∧ r < self + n then [some (r, j)] else []) := by
  intro n
  induction n with
  | zero =>
    intro self page _ hpage
    refine ⟨page, rfl, hpage, ?_⟩
    have : ¬ (self ≤ r ∧ r < self + 0) := by omega
    rw [if_neg this, List.append_nil]
  | succ n ih =>
    intro self page hlen hpage
    obtain ⟨page1, hstep, hpage1, hl1⟩ := bindProjectRowEventsFor_step D data ps self r j page
      p env vr es s hps hpage (by omega) hp hvr huniq hes he hid hattr hfirst
    obtain ⟨page2, hrest, hpage2, hl2⟩ := ih (self + 1) page1 (by omega) hpage1
    refine ⟨page2, by simp only [bindProjectRowEvents, hstep, hrest], hpage2, ?_⟩
    rw [hl2, hl1, List.append_assoc]
    congr 1
    by_cases h1 : self = r
    · have h2 : ¬ (self + 1 ≤ r ∧ r < self + 1 + n) := by omega
      have h3 : self ≤ r ∧ r < self + (n + 1) := by omega
      rw [if_pos h1, if_neg h2, if_pos h3, List.append_nil]
    · rw [if_neg h1, List.nil_append]
      by_cases h2 : self + 1 ≤ r ∧ r < self + 1 + n
      · have h3 : self ≤ r ∧ r < self + (n + 1) := by omega
        rw [if_pos h2, if_pos h3]
      · have h3 : ¬ (self ≤ r ∧ r < self + (n + 1)) := by omega
        rw [if_neg h2, if_neg h3]

/-- The page `render()` leaves carries, on the url input of environment row `j`
of project row `r`, exactly one listener and it closes over that very
environment, when no other project is written to the page under the same
`data-pid` and the environment's id is a string the page holds as it is and
that no earlier environment of the project has. -/
theorem render_binds (D : Dom) (data : JsVal) (page : List ProjectRow)
    (r j : Nat) (p env : JsVal) (s : String)
    (hrender : render D data = .ok page)
    (hp : (entriesOf data "projects")[r]? = some p)
    (hpid : ∀ (i : Nat) (q : JsVal), (entriesOf data "projects")[i]? = some q →
      D.attr (idOf q) = D.attr (idOf p) → i = r)
    (he : (entriesOf p "environments")[j]? = some env)
    (heid : idOf env = some (.str s)) (hattr : D.attr (some (.str s)) = s)
    (hfirst : ∀ (j' : Nat) (y : JsVal), j' < j →
      (entriesOf p "environments")[j']? = some y → idOf y ≠ some (.str s)) :
    listenersAt page r j = [some (r, j)] := by
  obtain ⟨ps, hps, hall⟩ := render_ok_shape D data page hrender
  obtain ⟨_, pprops, hlp⟩ := arrayItems_spec data "projects" ps hps
  have hents : entriesOf data "projects" = ps := by
    simp only [entriesOf, hlp, arrayOrEmpty]
  rw [hents] at hp hpid
  have hobj : ∀ (i : Nat) (q : JsVal), ps[i]? = some q → isObjLike q = true := by
    intro i q hq
    obtain ⟨esq, hesq⟩ := hall q (List.getElem?_mem hq)
    exact (arrayItems_spec q "environments" esq hesq).1
  obtain ⟨es, hes⟩ := hall p (List.getElem?_mem hp)
  obtain ⟨hpo, eprops, hle⟩ := arrayItems_spec p "environments" es hes
  have hents2 : entriesOf p "environments" = es := by
    simp only [entriesOf, hle, arrayOrEmpty]
  rw [hents2] at he hfirst
  have heo : isObjLike env = true := by
    cases env <;> simp_all [idOf, propsOf, lookupProp, isObjLike]
  have hid : getProp env "id" = .ok (some (.str s)) := by
    rw [getProp_objLike env "id" heo]
    exact congrArg Except.ok heid
  unfold render at hrender
  rw [hps] at hrender
  simp only [] at hrender
  cases hrows : renderProjectRows D ps with
  | error e => rw [hrows] at hrender; cases hrender
  | ok page0 =>
    rw [hrows] at hrender
    simp only [] at hrender
    obtain ⟨hpage0, hnil⟩ := renderProjectRows_for D ps page0 hrows
    obtain ⟨page', hrun, _, hl⟩ := bindProjectRowEvents_binds D data ps r j p env (idOf p) es s
      hps hp (getProp_objLike p "id" hpo)
      (fun i q v hq hv hattrs => by
        rw [getProp_objLike q "id" (hobj i q hq)] at hv
        have hv' := Except.ok.inj hv
        refine hpid i q hq ?_
        rw [← hattrs, ← hv']
        rfl)
      hes he hid hattr
      (fun j' y hj' hy hc => by
        have hyo : y ≠ .null := by
          intro hn
          rw [hn] at hc
          cases hc
        rw [getProp_of_ne_null y "id" hyo] at hc
        exact hfirst j' y hj' hy (Except.ok.inj hc))
      ps.length 0 page0 (by omega) hpage0
    rw [hrun] at hrender
    have hpg := Except.ok.inj hrender
    rw [← hpg, hl, hnil r j]
    have hr : r < ps.length := (List.getElem?_eq_some.mp hp).1
    have hc : 0 ≤ r ∧ r < 0 + ps.length := by omega
    rw [if_pos hc, List.nil_append]

/-! ### C11: editing the url resets the status -/

/-- C11, counterexample: in a catalog whose project has two environments of one
id, both environment rows are bound to the first of them; editing the url field
of the second row (prior status down / 503) leaves that environment with its
url and its down status and instead puts the new url and the unknown status on
the first environment, which was up. -/
theorem editUrl_twin_resets_other_environment :
    (editUrl samplePlatform plainDom (freshApp twinEnvCatalog false) 0 1
        "https://new.example/").toOption.map
      (fun res => ((entriesOf res.1.data "projects").map fun p =>
        (entriesOf p "environments").map fun e =>
          (lookupProp "name" (propsOf e), lookupProp "url" (propsOf e),
            lookupProp "lastStatus" (propsOf e)), res.2)) =
    some ([[(some (.str "Prod"), some (.str "https://new.example/"),
             some (JsVal.obj [("state", .str "unknown"), ("httpStatus", .null),
               ("checkedAt", .null), ("detail", .null)])),
            (some (.str "Staging"), some (.str "https://two.example/"),
             some (JsVal.obj [("state", .str "down"), ("httpStatus", .num 503),
               ("checkedAt", .str "2024-01-01T00:00:00.000Z"),
               ("detail", .str "HTTP 503")]))]], []) := rfl

/-- C11, amended: on a page that `render()` has drawn, take the environment at
position `j` of the project at position `r`, where no other project is written
to the page under the same `data-pid` and the environment's id is a string,
held by the page as it is, that no earlier environment of the project has.
Whatever its prior `lastStatus`, editing its url field runs without an
uncaught error and leaves a catalog in which that environment has `lastStatus`
exactly `{state: "unknown", httpStatus: null, checkedAt: null, detail: null}`
and the sanitised url, its id, its name and every other property as before,
and in which every other environment of the project, every other property of
the project and every other project are unchanged. -/
theorem editUrl_resets (P : Platform) (D : Dom) (st : App) (r j : Nat) (value s : String)
    (page : List ProjectRow) (p env : JsVal)
    (hrender : render D st.data = .ok page)
    (hp : (entriesOf st.data "projects")[r]? = some p)
    (hpid : ∀ (i : Nat) (q : JsVal), (entriesOf st.data "projects")[i]? = some q →
      D.attr (idOf q) = D.attr (idOf p) → i = r)
    (he : (entriesOf p "environments")[j]? = some env)
    (heid : idOf env = some (.str s)) (hattr : D.attr (some (.str s)) = s)
    (hfirst : ∀ (j' : Nat) (y : JsVal), j' < j →
      (entriesOf p "environments")[j']? = some y → idOf y ≠ some (.str s)) :
    ∃ st' p' env' u, editUrl P D st r j value = .ok (st', []) ∧
      sanitizeUrl P (.str value) = .ok u ∧
      (entriesOf st'.data "projects")[r]? = some p' ∧
      (entriesOf p' "environments")[j]? = some env' ∧
      getProp env' "lastStatus" = .ok (some (JsVal.obj
        [("state", .str "unknown"), ("httpStatus", .null),
         ("checkedAt", .null), ("detail", .null)])) ∧
      getProp env' "url" = .ok (some (.str u)) ∧
      getProp env' "id" = getProp env "id" ∧
      getProp env' "name" = getProp env "name" ∧
      (∀ key, key ≠ "url" → key ≠ "lastStatus" → getProp env' key = getProp env key) ∧
      (∀ j', j' ≠ j →
        (entriesOf p' "environments")[j']? = (entriesOf p "environments")[j']?) ∧
      (∀ key, key ≠ "environments" → getProp p' key = getProp p key) ∧
      (∀ r', r' ≠ r →
        (entriesOf st'.data "projects")[r']? = (entriesOf st.data "projects")[r']?) := by
  have hbound := render_binds D st.data page r j p env s hrender hp hpid he heid hattr hfirst
  obtain ⟨ps, hps, hall⟩ := render_ok_shape D st.data page hrender
  obtain ⟨hd, pprops, hlp⟩ := arrayItems_spec st.data "projects" ps hps
  have hents : entriesOf st.data "projects" = ps := by
    simp only [entriesOf, hlp, arrayOrEmpty]
  rw [hents] at hp
  obtain ⟨es, hes⟩ := hall p (List.getElem?_mem hp)
  obtain ⟨hpo, eprops, hle⟩ := arrayItems_spec p "environments" es hes
  have hents2 : entriesOf p "environments" = es := by
    simp only [entriesOf, hle, arrayOrEmpty]
  rw [hents2] at he
  have heo : isObjLike env = true := by
    cases env <;> simp_all [idOf, propsOf, lookupProp, isObjLike]
  obtain ⟨st', p', env', u, hrun, hu, h1, h2, h3, h4, h5, h6, h7, h8⟩ :=
    urlListener_resets P st r j value p env ps es pprops eprops hd hlp hp hpo hle he heo
  refine ⟨st', p', env', u, ?_, hu, h1, h2, h3, h4, h5 "id" (by decide) (by decide),
    h5 "name" (by decide) (by decide), h5, ?_, h7, h8⟩
  · simp only [editUrl, hrender, hbound, urlInputChange, hrun]
  · rw [hents2] at h6 ⊢
    exact h6

/-- C11, witness: in the sample catalog, shown on a page that holds string ids
as they are, editing the url of the first environment of the first project
(found up with HTTP 200) resets its status and keeps its id and name. -/
theorem editUrl_resets_witness :
    ∃ st' p' env' u,
      editUrl samplePlatform plainDom (freshApp sampleCatalog false) 0 0
        "https://new.example/" = .ok (st', []) ∧
      sanitizeUrl samplePlatform (.str "https://new.example/") = .ok u ∧
      (entriesOf st'.data "projects")[0]? = some p' ∧
      (entriesOf p' "environments")[0]? = some env' ∧
      getProp env' "lastStatus" = .ok (some (JsVal.obj
        [("state", .str "unknown"), ("httpStatus", .null),
         ("checkedAt", .null), ("detail", .null)])) ∧
      getProp env' "id" = .ok (some (.str "e_a")) ∧
      getProp env' "name" = .ok (some (.str "Prod")) := by
  obtain ⟨st', p', env', u, h1, h2, h3, h4, h5, _, h7, h8, _⟩ :=
    editUrl_resets samplePlatform plainDom (freshApp sampleCatalog false) 0 0
      "https://new.example/" "e_a" _ _ _ rfl rfl
      (fun i q hq hattr => by
        rcases i with _ | _ | i
        · rfl
        · simp only [freshApp, sampleCatalog, entriesOf, propsOf, lookupProp, arrayOrEmpty,
            if_true] at hq
          simp at hq
          subst hq
          simp [plainDom, idOf, propsOf, lookupProp] at hattr
        · simp [freshApp, sampleCatalog, entriesOf, propsOf, lookupProp, arrayOrEmpty] at hq)
      rfl rfl rfl
      (fun j' y hj' => absurd hj' (Nat.not_lt_zero j'))
  exact ⟨st', p', env', u, h1, h2, h3, h4, h5, by rw [h7]; rfl, by rw [h8]; rfl⟩

end StatusDashboard
